import Mathlib

set_option maxHeartbeats 1000000
set_option maxRecDepth 100000

/-! Verification development for the pgrsql SQL parsing, formatting and
analysis engine.  The repository ships a thin Python host layer
(src/python/pgrsql/__init__.py) over a native core that is not present in
the source tree; following the specification, the core engine (lexer,
recursive-descent parser, formatter, analyzer, EXPLAIN detector and plan
parser) is modelled here from the specification text, and the Python host
layer is embedded from its source file. -/

namespace Pgrsql

/-! ## Error taxonomy

Modelled from the spec: the native core is missing from the source tree.
Section 7 of the spec gives the error taxonomy: LexError, ParseError,
TooDeepError, UnsupportedConstructError, PlanFormatError.  Positions are
modelled as the number of unconsumed characters (for the lexer) or tokens
(for the parser) remaining at the point of failure; the character or token
index is recoverable as input length minus this count.  The fuelOut variant
is an artefact of the embedding (structural recursion fuel) and is proved
unreachable where claims need it. -/

inductive Err where
  | lexErr (remaining : Nat) : Err
  | parseErr (remaining : Nat) (expected : List Char) (found : List Char) : Err
  | tooDeep : Err
  | unsupported (construct : List Char) : Err
  | planFormatErr (lineNo : Nat) (raw : List Char) : Err
  | fuelOut : Err
deriving DecidableEq, Repr

/-! ## Lexer

Modelled from the spec (section 4.1): the native lexer is missing from the
source tree.  Case-insensitive keyword recognition with original case
preserved in the token text, single-quoted string literals with doubled
quote escaping, double-quoted identifiers distinct from string literals,
line and block comments excluded from the stream, numeric literals, and
greedy multi-character operators. -/

inductive TK where
  | kw | id | str | num | sym
deriving DecidableEq, Repr

structure STok where
  k : TK
  t : List Char
deriving DecidableEq, Repr

def upperStr (cs : List Char) : List Char := cs.map Char.toUpper

def kwList : List (List Char) :=
  ["SELECT".data, "FROM".data, "WHERE".data, "GROUP".data, "BY".data,
   "HAVING".data, "ORDER".data, "LIMIT".data, "OFFSET".data, "AS".data,
   "ON".data, "JOIN".data, "INNER".data, "LEFT".data, "RIGHT".data,
   "FULL".data, "OUTER".data, "CROSS".data, "AND".data, "OR".data,
   "NOT".data, "INSERT".data, "INTO".data, "VALUES".data, "UPDATE".data,
   "SET".data, "DELETE".data, "EXPLAIN".data, "ANALYZE".data,
   "VERBOSE".data, "FORMAT".data, "UNION".data, "ALL".data,
   "INTERSECT".data, "EXCEPT".data, "WITH".data, "MERGE".data,
   "OVER".data, "ASC".data, "DESC".data, "DISTINCT".data, "CASE".data,
   "WHEN".data, "THEN".data, "ELSE".data, "END".data]

def isKw (w : List Char) : Bool := kwList.contains (upperStr w)

def isWordStart (c : Char) : Bool := c.isAlpha || c == '_'

def isWordChar (c : Char) : Bool := c.isAlphanum || c == '_'

/-- Longest prefix of characters satisfying p, with the remainder. -/
def spanP (p : Char → Bool) : List Char → List Char × List Char
  | [] => ([], [])
  | c :: cs =>
    if p c then
      let r := spanP p cs
      (c :: r.1, r.2)
    else ([], c :: cs)

/-- Skip the rest of a line comment, returning the text after the newline. -/
def dropLine : List Char → List Char
  | [] => []
  | '\n' :: cs => cs
  | _ :: cs => dropLine cs

/-- Skip to the closing marker of a block comment; none if unterminated. -/
def dropBlock : List Char → Option (List Char)
  | [] => none
  | '*' :: '/' :: cs => some cs
  | _ :: cs => dropBlock cs

/-- Scan a quoted region after the opening quote q, honouring doubled-quote
escaping.  Returns the unescaped content and the remainder after the
closing quote, or none when the region is unterminated. -/
def takeQuoted (q : Char) : List Char → Option (List Char × List Char)
  | [] => none
  | c :: cs =>
    if c = q then
      match cs with
      | c2 :: cs2 =>
        if c2 = q then (takeQuoted q cs2).map (fun r => (q :: r.1, r.2))
        else some ([], c :: cs |>.tail)
      | [] => some ([], [])
    else (takeQuoted q cs).map (fun r => (c :: r.1, r.2))

/-- Optional decimal fraction after the integer digits: a dot followed by
at least one digit (spec 4.1, decimal numeric form). -/
def numFrac (cs : List Char) : List Char × List Char :=
  match cs with
  | c :: c2 :: rest =>
    if c = '.' ∧ c2.isDigit then
      let r := spanP Char.isDigit (c2 :: rest)
      ('.' :: r.1, r.2)
    else ([], cs)
  | _ => ([], cs)

/-- Optional exponent: an e or E marker, an optional sign and at least one
digit (spec 4.1, exponent numeric form). -/
def numExp (cs : List Char) : List Char × List Char :=
  match cs with
  | [] => ([], [])
  | c :: rest =>
    if c = 'e' ∨ c = 'E' then
      match rest with
      | [] => ([], cs)
      | d :: rest2 =>
        if d.isDigit then
          let r := spanP Char.isDigit rest
          (c :: r.1, r.2)
        else if d = '+' ∨ d = '-' then
          match rest2 with
          | [] => ([], cs)
          | d2 :: _ =>
            if d2.isDigit then
              let r := spanP Char.isDigit rest2
              (c :: d :: r.1, r.2)
            else ([], cs)
        else ([], cs)
    else ([], cs)

/-- One lexing pass over the characters; fuel decreases at every step and
one step always consumes at least one character, so fuel larger than the
input length never runs out. -/
def lexRun : Nat → List Char → Except Err (List STok)
  | 0, cs => .error (.lexErr cs.length)
  | _ + 1, [] => .ok []
  | f + 1, c :: cs =>
    if c = '-' ∧ cs.head? = some '-' then lexRun f (dropLine cs.tail)
    else if c = '/' ∧ cs.head? = some '*' then
      match dropBlock cs.tail with
      | some rest => lexRun f rest
      | none => .error (.lexErr (cs.length + 1))
    else if c = '\'' then
      match takeQuoted '\'' cs with
      | some (content, rest) => (lexRun f rest).map (fun ts => ⟨.str, content⟩ :: ts)
      | none => .error (.lexErr (cs.length + 1))
    else if c = '"' then
      match takeQuoted '"' cs with
      | some (content, rest) => (lexRun f rest).map (fun ts => ⟨.id, content⟩ :: ts)
      | none => .error (.lexErr (cs.length + 1))
    else if c.isWhitespace then lexRun f cs
    else if isWordStart c then
      let r := spanP isWordChar (c :: cs)
      if isKw r.1 then (lexRun f r.2).map (fun ts => ⟨.kw, r.1⟩ :: ts)
      else (lexRun f r.2).map (fun ts => ⟨.id, r.1⟩ :: ts)
    else if c.isDigit then
      let r := spanP Char.isDigit (c :: cs)
      let rf := numFrac r.2
      let re := numExp rf.2
      (lexRun f re.2).map (fun ts => ⟨.num, r.1 ++ rf.1 ++ re.1⟩ :: ts)
    else if c = '<' then
      if cs.head? = some '=' then (lexRun f cs.tail).map (fun ts => ⟨.sym, "<=".data⟩ :: ts)
      else if cs.head? = some '>' then (lexRun f cs.tail).map (fun ts => ⟨.sym, "<>".data⟩ :: ts)
      else (lexRun f cs).map (fun ts => ⟨.sym, "<".data⟩ :: ts)
    else if c = '>' then
      if cs.head? = some '=' then (lexRun f cs.tail).map (fun ts => ⟨.sym, ">=".data⟩ :: ts)
      else (lexRun f cs).map (fun ts => ⟨.sym, ">".data⟩ :: ts)
    else if c = '!' then
      if cs.head? = some '=' then (lexRun f cs.tail).map (fun ts => ⟨.sym, "!=".data⟩ :: ts)
      else .error (.lexErr (cs.length + 1))
    else if c = ':' then
      if cs.head? = some ':' then (lexRun f cs.tail).map (fun ts => ⟨.sym, "::".data⟩ :: ts)
      else .error (.lexErr (cs.length + 1))
    else if c = '=' then (lexRun f cs).map (fun ts => ⟨.sym, "=".data⟩ :: ts)
    else if c = '+' then (lexRun f cs).map (fun ts => ⟨.sym, "+".data⟩ :: ts)
    else if c = '-' then (lexRun f cs).map (fun ts => ⟨.sym, "-".data⟩ :: ts)
    else if c = '*' then (lexRun f cs).map (fun ts => ⟨.sym, "*".data⟩ :: ts)
    else if c = '/' then (lexRun f cs).map (fun ts => ⟨.sym, "/".data⟩ :: ts)
    else if c = '%' then (lexRun f cs).map (fun ts => ⟨.sym, "%".data⟩ :: ts)
    else if c = '(' then (lexRun f cs).map (fun ts => ⟨.sym, "(".data⟩ :: ts)
    else if c = ')' then (lexRun f cs).map (fun ts => ⟨.sym, ")".data⟩ :: ts)
    else if c = ',' then (lexRun f cs).map (fun ts => ⟨.sym, ",".data⟩ :: ts)
    else if c = '.' then (lexRun f cs).map (fun ts => ⟨.sym, ".".data⟩ :: ts)
    else if c = ';' then (lexRun f cs).map (fun ts => ⟨.sym, ";".data⟩ :: ts)
    else .error (.lexErr (cs.length + 1))

/-- Tokenize an SQL character sequence per spec section 4.1. -/
def tokenize (cs : List Char) : Except Err (List STok) :=
  lexRun (cs.length + 1) cs

/-- Shape of a numeric literal text: integer digits, an optional decimal
fraction and an optional exponent, with nothing left over. -/
def numShapeB (t : List Char) : Bool :=
  let r := spanP Char.isDigit t
  let rf := numFrac r.2
  let re := numExp rf.2
  !r.1.isEmpty && re.2.isEmpty

/-- Canonical rendering of a numeric literal (spec 4.3): the shape is kept
and redundant leading zeros of the integer part are removed. -/
def canonNum (t : List Char) : List Char :=
  if numShapeB t then
    let r := spanP Char.isDigit t
    let ip := r.1.dropWhile (· == '0')
    (if ip.isEmpty then ['0'] else ip) ++ r.2
  else ['0']

/-! ## Abstract syntax tree

Modelled from the spec (section 3): the native AST types are missing from
the source tree.  The closed set of variants: Select statements with
columns, FROM, joins, WHERE, GROUP BY, HAVING, ORDER BY, LIMIT and OFFSET;
Insert, Update, Delete, set operations and an Explain wrapper; expressions
as a recursive sum of literal, column reference, binary and unary
operations, cast, function call, subquery, case expression and star.
Numeric literals carry their canonical text.  Sequence and option
fields inside the mutual block use dedicated list and option types so the
mutual recursor stays usable; statement-level fields use ordinary lists. -/

inductive BinOp where
  | orB | andB | eqB | ltB | gtB | leB | geB | neB | addB | subB | mulB | divB | modB
deriving DecidableEq, Repr

inductive JKind where
  | innerJ | leftJ | rightJ | fullJ | crossJ
deriving DecidableEq, Repr

inductive SetKind where
  | unionK | unionAllK | intersectK | exceptK
deriving DecidableEq, Repr

mutual

inductive Expr where
  | numL (t : List Char)
  | strL (s : List Char)
  | col (tbl : Option (List Char)) (nm : List Char)
  | star
  | bin (o : BinOp) (l r : Expr)
  | notE (e : Expr)
  | negE (e : Expr)
  | castE (e : Expr) (ty : List Char)
  | fn (nm : List Char) (args : FArgs)
  | subq (q : Sel)
  | caseE (arms : WList) (els : OExpr)

inductive WList where
  | nilW
  | consW (c r : Expr) (rest : WList)

inductive FArgs where
  | starA
  | argsA (es : EList)

inductive EList where
  | nilE
  | consE (e : Expr) (es : EList)

inductive OExpr where
  | noneE
  | someE (e : Expr)

inductive SelItem where
  | starI
  | exprI (e : Expr) (al : Option (List Char))

inductive IList where
  | nilI
  | consI (it : SelItem) (rest : IList)

inductive FromIt where
  | table (nm : List Char) (al : Option (List Char))
  | subT (q : Sel) (al : List Char)

inductive Join where
  | mk (k : JKind) (src : FromIt) (onE : OExpr)

inductive JList where
  | nilJ
  | consJ (j : Join) (js : JList)

inductive OList where
  | nilO
  | consO (e : Expr) (asc : Bool) (os : OList)

inductive FromPart where
  | noneF
  | someF (f : FromIt) (js : JList)

inductive Sel where
  | mk (items : IList) (fr : FromPart) (whereE : OExpr) (groupBy : EList)
       (having : OExpr) (orderBy : OList) (limit : OExpr) (offset : OExpr)

end

inductive Stmt where
  | selectS (first : Sel) (ops : List (SetKind × Sel))
  | insertS (tbl : List Char) (cols : List (List Char)) (vals : List Expr)
  | updateS (tbl : List Char) (sets : List (List Char × Expr)) (whereE : Option Expr)
  | deleteS (tbl : List Char) (whereE : Option Expr)
  | explainS (an vb : Bool) (fo : Option (List Char)) (inner : Stmt)

/-! ## Parser

Modelled from the spec (section 4.2): the native recursive-descent parser
is missing from the source tree.  Statement dispatch by leading keyword,
precedence climbing for expressions (OR below AND below NOT below
comparison below additive below multiplicative below unary minus below
cast), joins parsed left to right attaching to the FROM chain, set
operations combined left to right at top level, subqueries recursing with
an explicit depth ceiling failing with TooDeepError, and recognized but
unsupported constructs (CTEs, MERGE, window functions) failing with
UnsupportedConstructError.  The structural fuel argument decreases at every
call; the ParseError position field holds the number of unconsumed tokens
at the failure point. -/

def foundTxt : List STok → List Char
  | [] => "end of input".data
  | t :: _ => t.t

def perr (ts : List STok) (ex : String) : Err :=
  .parseErr ts.length ex.data (foundTxt ts)

def isKwT (w : String) (t : STok) : Bool :=
  t.k == .kw && upperStr t.t == w.data

def isSymT (w : String) (t : STok) : Bool :=
  t.k == .sym && t.t == w.data

def expectIdent (ts : List STok) : Except Err (List Char × List STok) :=
  match ts with
  | ⟨.id, t⟩ :: rest => .ok (t, rest)
  | _ => .error (perr ts "identifier")

def expectKw (w : String) (ts : List STok) : Except Err (List STok) :=
  match ts with
  | t :: rest => if isKwT w t then .ok rest else .error (perr ts w)
  | [] => .error (perr ts w)

def expectSym (w : String) (ts : List STok) : Except Err (List STok) :=
  match ts with
  | t :: rest => if isSymT w t then .ok rest else .error (perr ts w)
  | [] => .error (perr ts w)

/-- Optional alias introduced by AS. -/
def parseAlias (ts : List STok) : Except Err (Option (List Char) × List STok) :=
  match ts with
  | t :: rest =>
    if isKwT "AS" t then (expectIdent rest).map (fun r => (some r.1, r.2))
    else .ok (none, ts)
  | [] => .ok (none, [])

def cmpOpOf (w : List Char) : Option BinOp :=
  if w = "=".data then some .eqB
  else if w = "<".data then some .ltB
  else if w = ">".data then some .gtB
  else if w = "<=".data then some .leB
  else if w = ">=".data then some .geB
  else if w = "<>".data then some .neB
  else if w = "!=".data then some .neB
  else none

def addOpOf (w : List Char) : Option BinOp :=
  if w = "+".data then some .addB
  else if w = "-".data then some .subB
  else none

def mulOpOf (w : List Char) : Option BinOp :=
  if w = "*".data then some .mulB
  else if w = "/".data then some .divB
  else if w = "%".data then some .modB
  else none

def natOfDigits (ds : List Char) : Nat :=
  ds.foldl (fun a c => a * 10 + (c.toNat - 48)) 0

/-- Reject a window function OVER clause after a call, per spec 4.2. -/
def fnFinish (nm : List Char) (a : FArgs) (ts : List STok) :
    Except Err (Expr × List STok) :=
  match ts with
  | t :: _ =>
    if isKwT "OVER" t then .error (.unsupported "window function".data)
    else .ok (.fn nm a, ts)
  | [] => .ok (.fn nm a, [])

/-- Comma-separated identifier list, at least one element. -/
def parseIdentCList : Nat → List STok → Except Err (List (List Char) × List STok)
  | 0, _ => .error .fuelOut
  | f + 1, ts =>
    match expectIdent ts with
    | .error e => .error e
    | .ok (x, ts1) =>
      match ts1 with
      | t :: ts2 =>
        if isSymT "," t then (parseIdentCList f ts2).map (fun r => (x :: r.1, r.2))
        else .ok ([x], ts1)
      | [] => .ok ([x], [])

mutual

def parseStmt : Nat → Nat → List STok → Except Err (Stmt × List STok)
  | 0, _, _ => .error .fuelOut
  | f + 1, d, ts =>
    match ts with
    | t :: ts1 =>
      if isKwT "WITH" t then .error (.unsupported "CTE".data)
      else if isKwT "MERGE" t then .error (.unsupported "MERGE".data)
      else if isKwT "SELECT" t then
        match parseSel f d ts with
        | .error e => .error e
        | .ok (s, ts2) =>
          match parseSetLoop f d ts2 with
          | .error e => .error e
          | .ok (ops, ts3) => .ok (.selectS s ops, ts3)
      else if isKwT "INSERT" t then parseInsert f d ts1
      else if isKwT "UPDATE" t then parseUpdate f d ts1
      else if isKwT "DELETE" t then parseDelete f d ts1
      else if isKwT "EXPLAIN" t then parseExplainStmt f d ts1
      else .error (perr ts "statement keyword")
    | [] => .error (perr ts "statement keyword")

termination_by structural f _ _ => f

def parseSetLoop : Nat → Nat → List STok →
    Except Err (List (SetKind × Sel) × List STok)
  | 0, _, _ => .error .fuelOut
  | f + 1, d, ts =>
    match ts with
    | t :: ts1 =>
      if isKwT "UNION" t then
        match ts1 with
        | t2 :: ts2 =>
          if isKwT "ALL" t2 then parseSetRhs f d .unionAllK ts2
          else parseSetRhs f d .unionK ts1
        | [] => parseSetRhs f d .unionK ts1
      else if isKwT "INTERSECT" t then parseSetRhs f d .intersectK ts1
      else if isKwT "EXCEPT" t then parseSetRhs f d .exceptK ts1
      else .ok ([], ts)
    | [] => .ok ([], [])

termination_by structural f _ _ => f

def parseSetRhs : Nat → Nat → SetKind → List STok →
    Except Err (List (SetKind × Sel) × List STok)
  | 0, _, _, _ => .error .fuelOut
  | f + 1, d, k, ts =>
    match parseSel f d ts with
    | .error e => .error e
    | .ok (s, ts1) =>
      match parseSetLoop f d ts1 with
      | .error e => .error e
      | .ok (ops, ts2) => .ok ((k, s) :: ops, ts2)

termination_by structural f _ _ _ => f

def parseSel : Nat → Nat → List STok → Except Err (Sel × List STok)
  | 0, _, _ => .error .fuelOut
  | f + 1, d, ts =>
    match expectKw "SELECT" ts with
    | .error e => .error e
    | .ok ts1 =>
      match parseItems f d ts1 with
      | .error e => .error e
      | .ok (its, ts2) =>
        match parseFromPart f d ts2 with
        | .error e => .error e
        | .ok (fr, ts3) =>
          match parseOptKwExprO "WHERE" f d ts3 with
          | .error e => .error e
          | .ok (wh, ts4) =>
            match parseGroupBy f d ts4 with
            | .error e => .error e
            | .ok (gb, ts5) =>
              match parseOptKwExprO "HAVING" f d ts5 with
              | .error e => .error e
              | .ok (hv, ts6) =>
                match parseOrderBy f d ts6 with
                | .error e => .error e
                | .ok (ob, ts7) =>
                  match parseOptKwExprO "LIMIT" f d ts7 with
                  | .error e => .error e
                  | .ok (lm, ts8) =>
                    match parseOptKwExprO "OFFSET" f d ts8 with
                    | .error e => .error e
                    | .ok (off, ts9) =>
                      .ok (Sel.mk its fr wh gb hv ob lm off, ts9)

termination_by structural f _ _ => f

def parseItems : Nat → Nat → List STok → Except Err (IList × List STok)
  | 0, _, _ => .error .fuelOut
  | f + 1, d, ts =>
    match parseItem f d ts with
    | .error e => .error e
    | .ok (it, ts1) =>
      match ts1 with
      | t :: ts2 =>
        if isSymT "," t then
          (parseItems f d ts2).map (fun r => (.consI it r.1, r.2))
        else .ok (.consI it .nilI, ts1)
      | [] => .ok (.consI it .nilI, [])

termination_by structural f _ _ => f

def parseItem : Nat → Nat → List STok → Except Err (SelItem × List STok)
  | 0, _, _ => .error .fuelOut
  | f + 1, d, ts =>
    match ts with
    | t :: ts1 =>
      if isSymT "*" t then .ok (.starI, ts1)
      else
        match parseExprOr f d ts with
        | .error e => .error e
        | .ok (e, ts2) =>
          match parseAlias ts2 with
          | .error er => .error er
          | .ok (al, ts3) => .ok (.exprI e al, ts3)
    | [] => .error (perr ts "select item")

termination_by structural f _ _ => f

def parseFromPart : Nat → Nat → List STok → Except Err (FromPart × List STok)
  | 0, _, _ => .error .fuelOut
  | f + 1, d, ts =>
    match ts with
    | t :: ts1 =>
      if isKwT "FROM" t then
        match parseFromItem f d ts1 with
        | .error e => .error e
        | .ok (fi, ts2) =>
          match parseJoins f d ts2 with
          | .error e => .error e
          | .ok (js, ts3) => .ok (.someF fi js, ts3)
      else .ok (.noneF, ts)
    | [] => .ok (.noneF, [])

termination_by structural f _ _ => f

def parseFromItem : Nat → Nat → List STok → Except Err (FromIt × List STok)
  | 0, _, _ => .error .fuelOut
  | f + 1, d, ts =>
    match ts with
    | ⟨.id, t⟩ :: ts1 =>
      match parseAlias ts1 with
      | .error e => .error e
      | .ok (al, ts2) => .ok (.table t al, ts2)
    | t :: ts1 =>
      if isSymT "(" t then
        match d with
        | 0 => .error .tooDeep
        | d2 + 1 =>
          match parseSel f d2 ts1 with
          | .error e => .error e
          | .ok (q, ts2) =>
            match expectSym ")" ts2 with
            | .error e => .error e
            | .ok ts3 =>
              match expectKw "AS" ts3 with
              | .error e => .error e
              | .ok ts4 =>
                match expectIdent ts4 with
                | .error e => .error e
                | .ok (a, ts5) => .ok (.subT q a, ts5)
      else .error (perr ts "table or subquery")
    | [] => .error (perr ts "table or subquery")

termination_by structural f _ _ => f

def parseJoins : Nat → Nat → List STok → Except Err (JList × List STok)
  | 0, _, _ => .error .fuelOut
  | f + 1, d, ts =>
    match ts with
    | t :: ts1 =>
      if isKwT "JOIN" t then parseJoinTail f d .innerJ ts1
      else if isKwT "INNER" t then
        match expectKw "JOIN" ts1 with
        | .error e => .error e
        | .ok ts2 => parseJoinTail f d .innerJ ts2
      else if isKwT "LEFT" t then parseJoinOuter f d .leftJ ts1
      else if isKwT "RIGHT" t then parseJoinOuter f d .rightJ ts1
      else if isKwT "FULL" t then parseJoinOuter f d .fullJ ts1
      else if isKwT "CROSS" t then
        match expectKw "JOIN" ts1 with
        | .error e => .error e
        | .ok ts2 => parseJoinTail f d .crossJ ts2
      else .ok (.nilJ, ts)
    | [] => .ok (.nilJ, [])

termination_by structural f _ _ => f

def parseJoinOuter : Nat → Nat → JKind → List STok →
    Except Err (JList × List STok)
  | 0, _, _, _ => .error .fuelOut
  | f + 1, d, k, ts =>
    match ts with
    | t :: ts1 =>
      if isKwT "OUTER" t then
        match expectKw "JOIN" ts1 with
        | .error e => .error e
        | .ok ts2 => parseJoinTail f d k ts2
      else
        match expectKw "JOIN" ts with
        | .error e => .error e
        | .ok ts2 => parseJoinTail f d k ts2
    | [] => .error (perr ts "JOIN")

termination_by structural f _ _ _ => f

def parseJoinTail : Nat → Nat → JKind → List STok →
    Except Err (JList × List STok)
  | 0, _, _, _ => .error .fuelOut
  | f + 1, d, k, ts =>
    match parseFromItem f d ts with
    | .error e => .error e
    | .ok (src, ts1) =>
      match ts1 with
      | t :: ts2 =>
        if isKwT "ON" t then
          match parseExprOr f d ts2 with
          | .error e => .error e
          | .ok (e, ts3) =>
            match parseJoins f d ts3 with
            | .error er => .error er
            | .ok (js, ts4) => .ok (.consJ (.mk k src (.someE e)) js, ts4)
        else
          match parseJoins f d ts1 with
          | .error er => .error er
          | .ok (js, ts4) => .ok (.consJ (.mk k src .noneE) js, ts4)
      | [] => .ok (.consJ (.mk k src .noneE) .nilJ, [])

termination_by structural f _ _ _ => f

def parseOptKwExprO : String → Nat → Nat → List STok →
    Except Err (OExpr × List STok)
  | _, 0, _, _ => .error .fuelOut
  | w, f + 1, d, ts =>
    match ts with
    | t :: ts1 =>
      if isKwT w t then
        match parseExprOr f d ts1 with
        | .error e => .error e
        | .ok (e, ts2) => .ok (.someE e, ts2)
      else .ok (.noneE, ts)
    | [] => .ok (.noneE, [])

termination_by structural _ f _ _ => f

def parseGroupBy : Nat → Nat → List STok → Except Err (EList × List STok)
  | 0, _, _ => .error .fuelOut
  | f + 1, d, ts =>
    match ts with
    | t :: ts1 =>
      if isKwT "GROUP" t then
        match expectKw "BY" ts1 with
        | .error e => .error e
        | .ok ts2 => parseExprCList f d ts2
      else .ok (.nilE, ts)
    | [] => .ok (.nilE, [])

termination_by structural f _ _ => f

def parseOrderBy : Nat → Nat → List STok → Except Err (OList × List STok)
  | 0, _, _ => .error .fuelOut
  | f + 1, d, ts =>
    match ts with
    | t :: ts1 =>
      if isKwT "ORDER" t then
        match expectKw "BY" ts1 with
        | .error e => .error e
        | .ok ts2 => parseOrderList f d ts2
      else .ok (.nilO, ts)
    | [] => .ok (.nilO, [])

termination_by structural f _ _ => f

def parseOrderList : Nat → Nat → List STok → Except Err (OList × List STok)
  | 0, _, _ => .error .fuelOut
  | f + 1, d, ts =>
    match parseExprOr f d ts with
    | .error e => .error e
    | .ok (e, ts1) =>
      match ts1 with
      | t :: ts2 =>
        if isKwT "ASC" t then parseOrderMore f d e true ts2
        else if isKwT "DESC" t then parseOrderMore f d e false ts2
        else parseOrderMore f d e true ts1
      | [] => .ok (.consO e true .nilO, [])

termination_by structural f _ _ => f

def parseOrderMore : Nat → Nat → Expr → Bool → List STok →
    Except Err (OList × List STok)
  | 0, _, _, _, _ => .error .fuelOut
  | f + 1, d, e, asc, ts =>
    match ts with
    | t :: ts1 =>
      if isSymT "," t then
        match parseOrderList f d ts1 with
        | .error er => .error er
        | .ok (os, ts2) => .ok (.consO e asc os, ts2)
      else .ok (.consO e asc .nilO, ts)
    | [] => .ok (.consO e asc .nilO, [])

termination_by structural f _ _ _ _ => f

def parseExprCList : Nat → Nat → List STok → Except Err (EList × List STok)
  | 0, _, _ => .error .fuelOut
  | f + 1, d, ts =>
    match parseExprOr f d ts with
    | .error e => .error e
    | .ok (e, ts1) =>
      match ts1 with
      | t :: ts2 =>
        if isSymT "," t then
          (parseExprCList f d ts2).map (fun r => (.consE e r.1, r.2))
        else .ok (.consE e .nilE, ts1)
      | [] => .ok (.consE e .nilE, [])

termination_by structural f _ _ => f

def parseExprsP : Nat → Nat → List STok → Except Err (List Expr × List STok)
  | 0, _, _ => .error .fuelOut
  | f + 1, d, ts =>
    match parseExprOr f d ts with
    | .error e => .error e
    | .ok (e, ts1) =>
      match ts1 with
      | t :: ts2 =>
        if isSymT "," t then
          (parseExprsP f d ts2).map (fun r => (e :: r.1, r.2))
        else .ok ([e], ts1)
      | [] => .ok ([e], [])

termination_by structural f _ _ => f

def parseAssigns : Nat → Nat → List STok →
    Except Err (List (List Char × Expr) × List STok)
  | 0, _, _ => .error .fuelOut
  | f + 1, d, ts =>
    match expectIdent ts with
    | .error e => .error e
    | .ok (x, ts1) =>
      match expectSym "=" ts1 with
      | .error e => .error e
      | .ok ts2 =>
        match parseExprOr f d ts2 with
        | .error e => .error e
        | .ok (e, ts3) =>
          match ts3 with
          | t :: ts4 =>
            if isSymT "," t then
              (parseAssigns f d ts4).map (fun r => ((x, e) :: r.1, r.2))
            else .ok ([(x, e)], ts3)
          | [] => .ok ([(x, e)], [])

termination_by structural f _ _ => f

def parseInsert : Nat → Nat → List STok → Except Err (Stmt × List STok)
  | 0, _, _ => .error .fuelOut
  | f + 1, d, ts =>
    match expectKw "INTO" ts with
    | .error e => .error e
    | .ok ts1 =>
      match expectIdent ts1 with
      | .error e => .error e
      | .ok (tbl, ts2) =>
        match expectSym "(" ts2 with
        | .error e => .error e
        | .ok ts3 =>
          match parseIdentCList f ts3 with
          | .error e => .error e
          | .ok (cols, ts4) =>
            match expectSym ")" ts4 with
            | .error e => .error e
            | .ok ts5 =>
              match expectKw "VALUES" ts5 with
              | .error e => .error e
              | .ok ts6 =>
                match expectSym "(" ts6 with
                | .error e => .error e
                | .ok ts7 =>
                  match parseExprsP f d ts7 with
                  | .error e => .error e
                  | .ok (vals, ts8) =>
                    match expectSym ")" ts8 with
                    | .error e => .error e
                    | .ok ts9 => .ok (.insertS tbl cols vals, ts9)

def parseUpdate : Nat → Nat → List STok → Except Err (Stmt × List STok)
  | 0, _, _ => .error .fuelOut
  | f + 1, d, ts =>
    match expectIdent ts with
    | .error e => .error e
    | .ok (tbl, ts1) =>
      match expectKw "SET" ts1 with
      | .error e => .error e
      | .ok ts2 =>
        match parseAssigns f d ts2 with
        | .error e => .error e
        | .ok (sets, ts3) =>
          match ts3 with
          | t :: ts4 =>
            if isKwT "WHERE" t then
              match parseExprOr f d ts4 with
              | .error e => .error e
              | .ok (e, ts5) => .ok (.updateS tbl sets (some e), ts5)
            else .ok (.updateS tbl sets none, ts3)
          | [] => .ok (.updateS tbl sets none, [])

def parseDelete : Nat → Nat → List STok → Except Err (Stmt × List STok)
  | 0, _, _ => .error .fuelOut
  | f + 1, d, ts =>
    match expectKw "FROM" ts with
    | .error e => .error e
    | .ok ts1 =>
      match expectIdent ts1 with
      | .error e => .error e
      | .ok (tbl, ts2) =>
        match ts2 with
        | t :: ts3 =>
          if isKwT "WHERE" t then
            match parseExprOr f d ts3 with
            | .error e => .error e
            | .ok (e, ts4) => .ok (.deleteS tbl (some e), ts4)
          else .ok (.deleteS tbl none, ts2)
        | [] => .ok (.deleteS tbl none, [])

def parseExplainStmt : Nat → Nat → List STok → Except Err (Stmt × List STok)
  | 0, _, _ => .error .fuelOut
  | f + 1, d, ts =>
    match ts with
    | t :: ts1 =>
      if isKwT "ANALYZE" t then parseExplainVb f d true ts1
      else parseExplainVb f d false ts
    | [] => parseExplainVb f d false ts

termination_by structural f _ _ => f

def parseExplainVb : Nat → Nat → Bool → List STok →
    Except Err (Stmt × List STok)
  | 0, _, _, _ => .error .fuelOut
  | f + 1, d, an, ts =>
    match ts with
    | t :: ts1 =>
      if isKwT "VERBOSE" t then parseExplainFo f d an true ts1
      else parseExplainFo f d an false ts
    | [] => parseExplainFo f d an false ts

termination_by structural f _ _ _ => f

def parseExplainFo : Nat → Nat → Bool → Bool → List STok →
    Except Err (Stmt × List STok)
  | 0, _, _, _, _ => .error .fuelOut
  | f + 1, d, an, vb, ts =>
    match ts with
    | t :: ts1 =>
      if isKwT "FORMAT" t then
        match expectIdent ts1 with
        | .error e => .error e
        | .ok (fo, ts2) =>
          match parseStmt f d ts2 with
          | .error e => .error e
          | .ok (inner, ts3) => .ok (.explainS an vb (some fo) inner, ts3)
      else
        match parseStmt f d ts with
        | .error e => .error e
        | .ok (inner, ts3) => .ok (.explainS an vb none inner, ts3)
    | [] =>
      match parseStmt f d ts with
      | .error e => .error e
      | .ok (inner, ts3) => .ok (.explainS an vb none inner, ts3)

termination_by structural f _ _ _ _ => f

def parseExprOr : Nat → Nat → List STok → Except Err (Expr × List STok)
  | 0, _, _ => .error .fuelOut
  | f + 1, d, ts =>
    match parseExprAnd f d ts with
    | .error e => .error e
    | .ok (l, ts1) => parseOrTail f d l ts1

termination_by structural f _ _ => f

def parseOrTail : Nat → Nat → Expr → List STok →
    Except Err (Expr × List STok)
  | 0, _, _, _ => .error .fuelOut
  | f + 1, d, acc, ts =>
    match ts with
    | t :: ts1 =>
      if isKwT "OR" t then
        match parseExprAnd f d ts1 with
        | .error e => .error e
        | .ok (r, ts2) => parseOrTail f d (.bin .orB acc r) ts2
      else .ok (acc, ts)
    | [] => .ok (acc, [])

termination_by structural f _ _ _ => f

def parseExprAnd : Nat → Nat → List STok → Except Err (Expr × List STok)
  | 0, _, _ => .error .fuelOut
  | f + 1, d, ts =>
    match parseExprNot f d ts with
    | .error e => .error e
    | .ok (l, ts1) => parseAndTail f d l ts1

termination_by structural f _ _ => f

def parseAndTail : Nat → Nat → Expr → List STok →
    Except Err (Expr × List STok)
  | 0, _, _, _ => .error .fuelOut
  | f + 1, d, acc, ts =>
    match ts with
    | t :: ts1 =>
      if isKwT "AND" t then
        match parseExprNot f d ts1 with
        | .error e => .error e
        | .ok (r, ts2) => parseAndTail f d (.bin .andB acc r) ts2
      else .ok (acc, ts)
    | [] => .ok (acc, [])

termination_by structural f _ _ _ => f

def parseExprNot : Nat → Nat → List STok → Except Err (Expr × List STok)
  | 0, _, _ => .error .fuelOut
  | f + 1, d, ts =>
    match ts with
    | t :: ts1 =>
      if isKwT "NOT" t then
        match parseExprNot f d ts1 with
        | .error e => .error e
        | .ok (e, ts2) => .ok (.notE e, ts2)
      else parseExprCmp f d ts
    | [] => parseExprCmp f d ts

termination_by structural f _ _ => f

def parseExprCmp : Nat → Nat → List STok → Except Err (Expr × List STok)
  | 0, _, _ => .error .fuelOut
  | f + 1, d, ts =>
    match parseExprAdd f d ts with
    | .error e => .error e
    | .ok (l, ts1) => parseCmpTail f d l ts1

termination_by structural f _ _ => f

def parseCmpTail : Nat → Nat → Expr → List STok →
    Except Err (Expr × List STok)
  | 0, _, _, _ => .error .fuelOut
  | f + 1, d, acc, ts =>
    match ts with
    | ⟨.sym, w⟩ :: ts1 =>
      match cmpOpOf w with
      | some o =>
        match parseExprAdd f d ts1 with
        | .error e => .error e
        | .ok (r, ts2) => parseCmpTail f d (.bin o acc r) ts2
      | none => .ok (acc, ts)
    | _ => .ok (acc, ts)

termination_by structural f _ _ _ => f

def parseExprAdd : Nat → Nat → List STok → Except Err (Expr × List STok)
  | 0, _, _ => .error .fuelOut
  | f + 1, d, ts =>
    match parseExprMul f d ts with
    | .error e => .error e
    | .ok (l, ts1) => parseAddTail f d l ts1

termination_by structural f _ _ => f

def parseAddTail : Nat → Nat → Expr → List STok →
    Except Err (Expr × List STok)
  | 0, _, _, _ => .error .fuelOut
  | f + 1, d, acc, ts =>
    match ts with
    | ⟨.sym, w⟩ :: ts1 =>
      match addOpOf w with
      | some o =>
        match parseExprMul f d ts1 with
        | .error e => .error e
        | .ok (r, ts2) => parseAddTail f d (.bin o acc r) ts2
      | none => .ok (acc, ts)
    | _ => .ok (acc, ts)

termination_by structural f _ _ _ => f

def parseExprMul : Nat → Nat → List STok → Except Err (Expr × List STok)
  | 0, _, _ => .error .fuelOut
  | f + 1, d, ts =>
    match parseExprUnary f d ts with
    | .error e => .error e
    | .ok (l, ts1) => parseMulTail f d l ts1

termination_by structural f _ _ => f

def parseMulTail : Nat → Nat → Expr → List STok →
    Except Err (Expr × List STok)
  | 0, _, _, _ => .error .fuelOut
  | f + 1, d, acc, ts =>
    match ts with
    | ⟨.sym, w⟩ :: ts1 =>
      match mulOpOf w with
      | some o =>
        match parseExprUnary f d ts1 with
        | .error e => .error e
        | .ok (r, ts2) => parseMulTail f d (.bin o acc r) ts2
      | none => .ok (acc, ts)
    | _ => .ok (acc, ts)

termination_by structural f _ _ _ => f

def parseExprUnary : Nat → Nat → List STok → Except Err (Expr × List STok)
  | 0, _, _ => .error .fuelOut
  | f + 1, d, ts =>
    match ts with
    | t :: ts1 =>
      if isSymT "-" t then
        match parseExprUnary f d ts1 with
        | .error e => .error e
        | .ok (e, ts2) => .ok (.negE e, ts2)
      else parseExprCast f d ts
    | [] => parseExprCast f d ts

termination_by structural f _ _ => f

def parseExprCast : Nat → Nat → List STok → Except Err (Expr × List STok)
  | 0, _, _ => .error .fuelOut
  | f + 1, d, ts =>
    match parsePrimary f d ts with
    | .error e => .error e
    | .ok (e, ts1) => parseCastTail f d e ts1

termination_by structural f _ _ => f

def parseCastTail : Nat → Nat → Expr → List STok →
    Except Err (Expr × List STok)
  | 0, _, _, _ => .error .fuelOut
  | f + 1, d, acc, ts =>
    match ts with
    | t :: ts1 =>
      if isSymT "::" t then
        match expectIdent ts1 with
        | .error e => .error e
        | .ok (ty, ts2) => parseCastTail f d (.castE acc ty) ts2
      else .ok (acc, ts)
    | [] => .ok (acc, [])

termination_by structural f _ _ _ => f

def parsePrimary : Nat → Nat → List STok → Except Err (Expr × List STok)
  | 0, _, _ => .error .fuelOut
  | f + 1, d, ts =>
    match ts with
    | ⟨.num, w⟩ :: ts1 => .ok (.numL (canonNum w), ts1)
    | ⟨.str, w⟩ :: ts1 => .ok (.strL w, ts1)
    | ⟨.id, w⟩ :: ts1 =>
      match ts1 with
      | ⟨.sym, s⟩ :: ts2 =>
        if s = ".".data then
          match expectIdent ts2 with
          | .error e => .error e
          | .ok (c, ts3) => .ok (.col (some w) c, ts3)
        else if s = "(".data then parseFnArgs f d w ts2
        else .ok (.col none w, ts1)
      | _ => .ok (.col none w, ts1)
    | ⟨.sym, s⟩ :: ts1 =>
      if s = "(".data then
        match ts1 with
        | t2 :: _ =>
          if isKwT "SELECT" t2 then
            match d with
            | 0 => .error .tooDeep
            | d2 + 1 =>
              match parseSel f d2 ts1 with
              | .error e => .error e
              | .ok (q, ts2) =>
                match expectSym ")" ts2 with
                | .error e => .error e
                | .ok ts3 => .ok (.subq q, ts3)
          else
            match parseExprOr f d ts1 with
            | .error e => .error e
            | .ok (e, ts2) =>
              match expectSym ")" ts2 with
              | .error er => .error er
              | .ok ts3 => .ok (e, ts3)
        | [] => .error (perr ts1 "expression")
      else .error (perr ts "expression")
    | ⟨.kw, w⟩ :: ts1 =>
      if upperStr w = "CASE".data then
        match parseWhenArms f d ts1 with
        | .error e => .error e
        | .ok (arms, els, ts2) => .ok (.caseE arms els, ts2)
      else .error (perr ts "expression")
    | [] => .error (perr ts "expression")

termination_by structural f _ _ => f

/-- One or more WHEN/THEN arms, an optional ELSE, and the closing END of a
case expression. -/
def parseWhenArms : Nat → Nat → List STok →
    Except Err (WList × OExpr × List STok)
  | 0, _, _ => .error .fuelOut
  | f + 1, d, ts =>
    match expectKw "WHEN" ts with
    | .error e => .error e
    | .ok ts1 =>
      match parseExprOr f d ts1 with
      | .error e => .error e
      | .ok (c, ts2) =>
        match expectKw "THEN" ts2 with
        | .error e => .error e
        | .ok ts3 =>
          match parseExprOr f d ts3 with
          | .error e => .error e
          | .ok (r, ts4) =>
            match ts4 with
            | t :: ts5 =>
              if isKwT "WHEN" t then
                match parseWhenArms f d ts4 with
                | .error e => .error e
                | .ok (arms, els, ts6) => .ok (.consW c r arms, els, ts6)
              else if isKwT "ELSE" t then
                match parseExprOr f d ts5 with
                | .error e => .error e
                | .ok (e0, ts6) =>
                  match expectKw "END" ts6 with
                  | .error e => .error e
                  | .ok ts7 => .ok (.consW c r .nilW, .someE e0, ts7)
              else
                match expectKw "END" ts4 with
                | .error e => .error e
                | .ok ts7 => .ok (.consW c r .nilW, .noneE, ts7)
            | [] => .error (perr ts4 "END")

termination_by structural f _ _ => f

def parseFnArgs : Nat → Nat → List Char → List STok →
    Except Err (Expr × List STok)
  | 0, _, _, _ => .error .fuelOut
  | f + 1, d, nm, ts =>
    match ts with
    | t :: ts1 =>
      if isSymT "*" t then
        match expectSym ")" ts1 with
        | .error e => .error e
        | .ok ts2 => fnFinish nm .starA ts2
      else if isSymT ")" t then fnFinish nm (.argsA .nilE) ts1
      else
        match parseExprCList f d ts with
        | .error e => .error e
        | .ok (es, ts2) =>
          match expectSym ")" ts2 with
          | .error e => .error e
          | .ok ts3 => fnFinish nm (.argsA es) ts3
    | [] => .error (perr ts "arguments")

termination_by structural f _ _ _ => f

end

/-- Fuel for a token list of the given length; the call tree of the parser
is never deeper than this. -/
def fuelOf (n : Nat) : Nat := 16 * n + 64

/-- Default recursion-depth ceiling for subqueries (configurable). -/
def defaultMaxDepth : Nat := 16

/-- Parse a full statement from tokens, requiring all input consumed. -/
def parseToks (d : Nat) (ts : List STok) : Except Err Stmt :=
  match parseStmt (fuelOf ts.length) d ts with
  | .error e => .error e
  | .ok (s, []) => .ok s
  | .ok (_, t :: rest) => .error (.parseErr (rest.length + 1) "end of input".data t.t)

/-- Parse with a configurable subquery-depth ceiling. -/
def parseSqlD (d : Nat) (s : String) : Except Err Stmt :=
  match tokenize s.data with
  | .error e => .error e
  | .ok ts => parseToks d ts

/-- Public parse operation: SQL text to a statement AST. -/
def parse_sql (s : String) : Except Err Stmt := parseSqlD defaultMaxDepth s

/-! ## Formatter

Modelled from the spec (section 4.3): the native formatter is missing from
the source tree.  Total on the AST; keywords rendered upper case, one
clause per line (a newline precedes each clause keyword in the rendering),
identifiers re-quoted only when they require quoting, literals re-rendered
canonically.  The formatter first produces the canonical token sequence
and then renders it with whitespace separators. -/

def digitOf (n : Nat) : Char := Char.ofNat (48 + n)

def natDigitsAux : Nat → Nat → List Char
  | 0, _ => []
  | f + 1, n =>
    if n < 10 then [digitOf n]
    else natDigitsAux f (n / 10) ++ [digitOf (n % 10)]

/-- Canonical decimal rendering of a natural number. -/
def natDigits (n : Nat) : List Char := natDigitsAux (n + 1) n

def kwTok (w : String) : STok := ⟨.kw, w.data⟩

def symTok (w : String) : STok := ⟨.sym, w.data⟩

def opTok : BinOp → STok
  | .orB => kwTok "OR"
  | .andB => kwTok "AND"
  | .eqB => symTok "="
  | .ltB => symTok "<"
  | .gtB => symTok ">"
  | .leB => symTok "<="
  | .geB => symTok ">="
  | .neB => symTok "<>"
  | .addB => symTok "+"
  | .subB => symTok "-"
  | .mulB => symTok "*"
  | .divB => symTok "/"
  | .modB => symTok "%"

def joinKwToks : JKind → List STok
  | .innerJ => [kwTok "INNER", kwTok "JOIN"]
  | .leftJ => [kwTok "LEFT", kwTok "JOIN"]
  | .rightJ => [kwTok "RIGHT", kwTok "JOIN"]
  | .fullJ => [kwTok "FULL", kwTok "JOIN"]
  | .crossJ => [kwTok "CROSS", kwTok "JOIN"]

def setKwToks : SetKind → List STok
  | .unionK => [kwTok "UNION"]
  | .unionAllK => [kwTok "UNION", kwTok "ALL"]
  | .intersectK => [kwTok "INTERSECT"]
  | .exceptK => [kwTok "EXCEPT"]

def aliasToks : Option (List Char) → List STok
  | none => []
  | some a => [kwTok "AS", ⟨.id, a⟩]

mutual

def fmtExpr : Expr → List STok
  | .numL t => [⟨.num, canonNum t⟩]
  | .strL s => [⟨.str, s⟩]
  | .col none c => [⟨.id, c⟩]
  | .col (some t) c => [⟨.id, t⟩, symTok ".", ⟨.id, c⟩]
  | .star => [symTok "*"]
  | .bin o l r => symTok "(" :: fmtExpr l ++ opTok o :: fmtExpr r ++ [symTok ")"]
  | .notE e => symTok "(" :: kwTok "NOT" :: fmtExpr e ++ [symTok ")"]
  | .negE e => symTok "(" :: symTok "-" :: fmtExpr e ++ [symTok ")"]
  | .castE e ty => symTok "(" :: fmtExpr e ++ [symTok "::", ⟨.id, ty⟩, symTok ")"]
  | .fn nm a => ⟨.id, nm⟩ :: symTok "(" :: fmtFArgs a ++ [symTok ")"]
  | .subq q => symTok "(" :: fmtSel q ++ [symTok ")"]
  | .caseE arms els =>
    kwTok "CASE" :: fmtWhens arms ++ fmtElse els ++ [kwTok "END"]

def fmtWhens : WList → List STok
  | .nilW => []
  | .consW c r rest =>
    kwTok "WHEN" :: fmtExpr c ++ kwTok "THEN" :: fmtExpr r ++ fmtWhens rest

def fmtElse : OExpr → List STok
  | .noneE => []
  | .someE e => kwTok "ELSE" :: fmtExpr e

def fmtFArgs : FArgs → List STok
  | .starA => [symTok "*"]
  | .argsA .nilE => []
  | .argsA (.consE e es) => fmtExpr e ++ fmtEListMore es

def fmtEListMore : EList → List STok
  | .nilE => []
  | .consE e es => symTok "," :: fmtExpr e ++ fmtEListMore es

def fmtSel : Sel → List STok
  | .mk items fr wh gb hv ob lm off =>
    kwTok "SELECT" :: fmtItems items ++ fmtFromPart fr ++
      fmtOWhere wh ++ fmtGroupBy gb ++ fmtOHaving hv ++ fmtOrderBy ob ++
      fmtOLimit lm ++ fmtOOffset off

def fmtItems : IList → List STok
  | .nilI => []
  | .consI it rest => fmtItem it ++ fmtItemsMore rest

def fmtItemsMore : IList → List STok
  | .nilI => []
  | .consI it rest => symTok "," :: fmtItem it ++ fmtItemsMore rest

def fmtItem : SelItem → List STok
  | .starI => [symTok "*"]
  | .exprI e al => fmtExpr e ++ aliasToks al

def fmtFromPart : FromPart → List STok
  | .noneF => []
  | .someF fi js => kwTok "FROM" :: fmtFromIt fi ++ fmtJoins js

def fmtFromIt : FromIt → List STok
  | .table t al => ⟨.id, t⟩ :: aliasToks al
  | .subT q a => symTok "(" :: fmtSel q ++ [symTok ")", kwTok "AS", ⟨.id, a⟩]

def fmtJoins : JList → List STok
  | .nilJ => []
  | .consJ (.mk k src onE) js =>
    joinKwToks k ++ fmtFromIt src ++ fmtOnE onE ++ fmtJoins js

def fmtOnE : OExpr → List STok
  | .noneE => []
  | .someE e => kwTok "ON" :: fmtExpr e

def fmtOWhere : OExpr → List STok
  | .noneE => []
  | .someE e => kwTok "WHERE" :: fmtExpr e

def fmtOHaving : OExpr → List STok
  | .noneE => []
  | .someE e => kwTok "HAVING" :: fmtExpr e

def fmtOLimit : OExpr → List STok
  | .noneE => []
  | .someE e => kwTok "LIMIT" :: fmtExpr e

def fmtOOffset : OExpr → List STok
  | .noneE => []
  | .someE e => kwTok "OFFSET" :: fmtExpr e

def fmtGroupBy : EList → List STok
  | .nilE => []
  | .consE e es => kwTok "GROUP" :: kwTok "BY" :: fmtExpr e ++ fmtEListMore es

def fmtOrderBy : OList → List STok
  | .nilO => []
  | .consO e asc os =>
    kwTok "ORDER" :: kwTok "BY" :: fmtExpr e ++
      kwTok (if asc then "ASC" else "DESC") :: fmtOrderMore os

def fmtOrderMore : OList → List STok
  | .nilO => []
  | .consO e asc os =>
    symTok "," :: fmtExpr e ++ kwTok (if asc then "ASC" else "DESC") :: fmtOrderMore os

end

def fmtExprsC : List Expr → List STok
  | [] => []
  | [e] => fmtExpr e
  | e :: e2 :: rest => fmtExpr e ++ symTok "," :: fmtExprsC (e2 :: rest)

def fmtAssigns : List (List Char × Expr) → List STok
  | [] => []
  | [(x, e)] => ⟨.id, x⟩ :: symTok "=" :: fmtExpr e
  | (x, e) :: p :: rest =>
    ⟨.id, x⟩ :: symTok "=" :: fmtExpr e ++ symTok "," :: fmtAssigns (p :: rest)

def identCToks : List (List Char) → List STok
  | [] => []
  | [x] => [⟨.id, x⟩]
  | x :: y :: rest => ⟨.id, x⟩ :: symTok "," :: identCToks (y :: rest)

def fmtOptWhere : Option Expr → List STok
  | none => []
  | some e => kwTok "WHERE" :: fmtExpr e

def fmtSetOps : List (SetKind × Sel) → List STok
  | [] => []
  | (k, s) :: rest => setKwToks k ++ fmtSel s ++ fmtSetOps rest

def fmtStmt : Stmt → List STok
  | .selectS s ops => fmtSel s ++ fmtSetOps ops
  | .insertS t cols vals =>
    kwTok "INSERT" :: kwTok "INTO" :: ⟨.id, t⟩ :: symTok "(" ::
      identCToks cols ++ symTok ")" :: kwTok "VALUES" :: symTok "(" ::
      fmtExprsC vals ++ [symTok ")"]
  | .updateS t sets wh =>
    kwTok "UPDATE" :: ⟨.id, t⟩ :: kwTok "SET" :: fmtAssigns sets ++ fmtOptWhere wh
  | .deleteS t wh =>
    kwTok "DELETE" :: kwTok "FROM" :: ⟨.id, t⟩ :: fmtOptWhere wh
  | .explainS an vb fo inner =>
    kwTok "EXPLAIN" :: (if an then [kwTok "ANALYZE"] else []) ++
      (if vb then [kwTok "VERBOSE"] else []) ++
      (match fo with
       | none => []
       | some w => [kwTok "FORMAT", ⟨.id, w⟩]) ++
      fmtStmt inner

/-- Does an identifier need double quoting: empty, a bad first character,
a character outside the word class, or a keyword collision. -/
def needsQuote (t : List Char) : Bool :=
  match t with
  | [] => true
  | c :: cs => !(isWordStart c && cs.all isWordChar && !isKw (c :: cs))

/-- Escape by doubling the given quote character. -/
def escQ (q : Char) : List Char → List Char
  | [] => []
  | c :: cs => if c = q then q :: q :: escQ q cs else c :: escQ q cs

/-- Canonical text of one token. -/
def tokText : STok → List Char
  | ⟨.kw, t⟩ => t
  | ⟨.id, t⟩ => if needsQuote t then '"' :: escQ '"' t ++ ['"'] else t
  | ⟨.str, t⟩ => '\'' :: escQ '\'' t ++ ['\'']
  | ⟨.num, t⟩ => t
  | ⟨.sym, t⟩ => t

/-- Clause keywords start a new line in the rendering. -/
def isClauseTok (t : STok) : Bool :=
  t.k == .kw &&
    (["SELECT".data, "FROM".data, "WHERE".data, "GROUP".data, "HAVING".data,
      "ORDER".data, "LIMIT".data, "OFFSET".data, "UNION".data,
      "INTERSECT".data, "EXCEPT".data, "VALUES".data]).contains (upperStr t.t)

/-- Render a token sequence: tokens separated by one space, with a newline
before each clause keyword (one clause per line) and after each trailing
comma (one list item per continuation line, spec 4.3). -/
def renderToks : List STok → List Char
  | [] => []
  | [t] => tokText t
  | t :: t2 :: rest =>
    tokText t ++
      (if isClauseTok t2 || isSymT "," t then '\n' else ' ') :: renderToks (t2 :: rest)

/-- Public format operation: parse then render canonically. -/
def format_sql (s : String) : Except Err String :=
  match parse_sql s with
  | .error e => .error e
  | .ok ast => .ok (String.mk (renderToks (fmtStmt ast)))

/-! ## Analyzer

Modelled from the spec (section 4.4): the native analyzer is missing from
the source tree.  A single tree traversal accumulates the join count
(including joins inside nested subqueries), the base-table reference count
(each syntactic reference counts, de-duplication by reference identity),
whether any nested Select occurs, and whether any recognized aggregate
function (COUNT, SUM, AVG, MIN, MAX) occurs; the clause flags are read off
the statement shape. -/

structure Metrics where
  has_select : Bool
  has_joins : Bool
  join_count : Nat
  has_where : Bool
  has_group_by : Bool
  has_having : Bool
  has_order_by : Bool
  has_limit : Bool
  has_subquery : Bool
  has_aggregate : Bool
  table_count : Nat
deriving DecidableEq, Repr

structure AnRes where
  joins : Nat
  tables : Nat
  subq : Bool
  agg : Bool
deriving DecidableEq, Repr

def AnRes.zero : AnRes := ⟨0, 0, false, false⟩

def AnRes.comb (a b : AnRes) : AnRes :=
  ⟨a.joins + b.joins, a.tables + b.tables, a.subq || b.subq, a.agg || b.agg⟩

def aggNames : List (List Char) :=
  ["COUNT".data, "SUM".data, "AVG".data, "MIN".data, "MAX".data]

mutual

def aExpr : Expr → AnRes
  | .numL _ => .zero
  | .strL _ => .zero
  | .col _ _ => .zero
  | .star => .zero
  | .bin _ l r => (aExpr l).comb (aExpr r)
  | .notE e => aExpr e
  | .negE e => aExpr e
  | .castE e _ => aExpr e
  | .fn nm a =>
    let r := aFArgs a
    if aggNames.contains (upperStr nm) then { r with agg := true } else r
  | .subq q => { aSel q with subq := true }
  | .caseE arms els => (aWhens arms).comb (aOExpr els)

def aWhens : WList → AnRes
  | .nilW => .zero
  | .consW c r rest => (aExpr c).comb ((aExpr r).comb (aWhens rest))

def aFArgs : FArgs → AnRes
  | .starA => .zero
  | .argsA es => aEList es

def aEList : EList → AnRes
  | .nilE => .zero
  | .consE e es => (aExpr e).comb (aEList es)

def aOExpr : OExpr → AnRes
  | .noneE => .zero
  | .someE e => aExpr e

def aSel : Sel → AnRes
  | .mk items fr wh gb hv ob lm off =>
    (aItems items).comb ((aFromPart fr).comb ((aOExpr wh).comb
      ((aEList gb).comb ((aOExpr hv).comb ((aOList ob).comb
      ((aOExpr lm).comb (aOExpr off)))))))

def aItems : IList → AnRes
  | .nilI => .zero
  | .consI it rest => (aItem it).comb (aItems rest)

def aItem : SelItem → AnRes
  | .starI => .zero
  | .exprI e _ => aExpr e

def aFromPart : FromPart → AnRes
  | .noneF => .zero
  | .someF fi js => (aFromIt fi).comb (aJList js)

def aFromIt : FromIt → AnRes
  | .table _ _ => { AnRes.zero with tables := 1 }
  | .subT q _ => { aSel q with subq := true }

def aJList : JList → AnRes
  | .nilJ => .zero
  | .consJ (.mk _ src onE) js =>
    { ((aFromIt src).comb ((aOExpr onE).comb (aJList js))) with
      joins := ((aFromIt src).comb ((aOExpr onE).comb (aJList js))).joins + 1 }

def aOList : OList → AnRes
  | .nilO => .zero
  | .consO e _ os => (aExpr e).comb (aOList os)

end

def aSetOps : List (SetKind × Sel) → AnRes
  | [] => .zero
  | (_, s) :: rest => (aSel s).comb (aSetOps rest)

def aExprList : List Expr → AnRes
  | [] => .zero
  | e :: rest => (aExpr e).comb (aExprList rest)

def aAssignList : List (List Char × Expr) → AnRes
  | [] => .zero
  | (_, e) :: rest => (aExpr e).comb (aAssignList rest)

def aOptExpr : Option Expr → AnRes
  | none => .zero
  | some e => aExpr e

def aStmt : Stmt → AnRes
  | .selectS s ops => (aSel s).comb (aSetOps ops)
  | .insertS _ _ vals => aExprList vals
  | .updateS _ sets wh => (aAssignList sets).comb (aOptExpr wh)
  | .deleteS _ wh => aOptExpr wh
  | .explainS _ _ _ inner => aStmt inner

def Sel.whereE : Sel → OExpr
  | .mk _ _ w _ _ _ _ _ => w

def Sel.groupBy : Sel → EList
  | .mk _ _ _ g _ _ _ _ => g

def Sel.having : Sel → OExpr
  | .mk _ _ _ _ h _ _ _ => h

def Sel.orderBy : Sel → OList
  | .mk _ _ _ _ _ o _ _ => o

def Sel.limit : Sel → OExpr
  | .mk _ _ _ _ _ _ l _ => l

def OExpr.isSomeE : OExpr → Bool
  | .noneE => false
  | .someE _ => true

def EList.isConsE : EList → Bool
  | .nilE => false
  | .consE _ _ => true

def OList.isConsO : OList → Bool
  | .nilO => false
  | .consO _ _ _ => true

/-- Clause flags of a statement read off its top-level Select chain (or the
WHERE of an Update or Delete). -/
def selsOf : Stmt → List Sel
  | .selectS s ops => s :: ops.map Prod.snd
  | .explainS _ _ _ inner => selsOf inner
  | _ => []

def stmtHasWhere : Stmt → Bool
  | .updateS _ _ wh => wh.isSome
  | .deleteS _ wh => wh.isSome
  | st => (selsOf st).any (fun s => s.whereE.isSomeE)

def stmtIsSelect : Stmt → Bool
  | .selectS _ _ => true
  | _ => false

/-- Build the metrics value for a parsed statement. -/
def mkMetrics (st : Stmt) : Metrics :=
  let r := aStmt st
  { has_select := stmtIsSelect st
    has_joins := r.joins != 0
    join_count := r.joins
    has_where := stmtHasWhere st
    has_group_by := (selsOf st).any (fun s => s.groupBy.isConsE)
    has_having := (selsOf st).any (fun s => s.having.isSomeE)
    has_order_by := (selsOf st).any (fun s => s.orderBy.isConsO)
    has_limit := (selsOf st).any (fun s => s.limit.isSomeE)
    has_subquery := r.subq
    has_aggregate := r.agg
    table_count := r.tables }

/-- Public analyze operation: parse then extract structural metrics. -/
def analyze_query (s : String) : Except Err Metrics :=
  match parse_sql s with
  | .error e => .error e
  | .ok st => .ok (mkMetrics st)

/-! ## EXPLAIN detector

Modelled from the spec (section 4.5): the native detector is missing from
the source tree.  Trims leading whitespace and comments from the raw text
without invoking the full lexer, then case-insensitively compares the
leading word with EXPLAIN; total, never fails. -/

def skipWsC : Nat → List Char → List Char
  | 0, cs => cs
  | _ + 1, [] => []
  | f + 1, '-' :: '-' :: cs => skipWsC f (dropLine cs)
  | f + 1, '/' :: '*' :: cs =>
    match dropBlock cs with
    | some rest => skipWsC f rest
    | none => []
  | f + 1, c :: cs => if c.isWhitespace then skipWsC f cs else c :: cs

/-- Public EXPLAIN detection operation. -/
def is_explain_query (s : String) : Bool :=
  let cs := skipWsC (s.data.length + 1) s.data
  upperStr (spanP isWordChar cs).1 == "EXPLAIN".data

/-! ## EXPLAIN plan parser

Modelled from the spec (section 4.6): the native plan parser is missing
from the source tree.  Line oriented: indentation (optionally with an
arrow marker) gives the nesting depth, node lines match
operation [on target] (cost=a..b rows=r width=w) with an optional actual
block, recognized prefixes attach as extra text to the most recently
opened node, blank and summary lines are skipped, and any other line is a
PlanFormatError carrying the line number and raw line.  A node at depth D
becomes a child of the nearest preceding node at smaller depth. -/

/-- Exact decimal number: mantissa and fraction length, value
mant divided by ten to the fracLen.  Costs in plan output are decimal
renderings of floats; this keeps them exact and computable. -/
structure Dec where
  mant : Nat
  fracLen : Nat
deriving DecidableEq, Repr

def Dec.toRat (d : Dec) : ℚ := (d.mant : ℚ) / (10 : ℚ) ^ d.fracLen

structure NData where
  operation : List Char
  target : Option (List Char)
  startup_cost : Dec
  total_cost : Dec
  plan_rows : Nat
  plan_width : Nat
  actual_time : Option (Dec × Dec)
  actual_rows : Option Nat
deriving DecidableEq, Repr

inductive PlanNode where
  | mk (nd : NData) (extra : List (List Char)) (children : List PlanNode)
deriving Repr

def PlanNode.nd : PlanNode → NData
  | .mk d _ _ => d

def PlanNode.extra : PlanNode → List (List Char)
  | .mk _ e _ => e

def PlanNode.children : PlanNode → List PlanNode
  | .mk _ _ c => c

def ndDefault : NData := ⟨[], none, ⟨0, 0⟩, ⟨0, 0⟩, 0, 0, none, none⟩

/-- Split at the first occurrence of the pattern; before and after parts. -/
def splitOnSub (pat : List Char) : List Char → Option (List Char × List Char)
  | [] => none
  | c :: cs =>
    if pat.isPrefixOf (c :: cs) then some ([], (c :: cs).drop pat.length)
    else (splitOnSub pat cs).map (fun r => (c :: r.1, r.2))

def dropExpect (pat cs : List Char) : Option (List Char) :=
  if pat.isPrefixOf cs then some (cs.drop pat.length) else none

/-- Parse a decimal number (digits with optional fraction). -/
def parseDec (cs : List Char) : Option (Dec × List Char) :=
  match spanP Char.isDigit cs with
  | ([], _) => none
  | (ds, r1) =>
    match r1 with
    | '.' :: r2 =>
      match spanP Char.isDigit r2 with
      | (fs, r3) => some (⟨natOfDigits (ds ++ fs), fs.length⟩, r3)
    | _ => some (⟨natOfDigits ds, 0⟩, r1)

def parseNatL (cs : List Char) : Option (Nat × List Char) :=
  match spanP Char.isDigit cs with
  | ([], _) => none
  | (ds, r) => some (natOfDigits ds, r)

def trimEndSp (cs : List Char) : List Char :=
  ((cs.reverse.dropWhile (fun c => c == ' ')).reverse)

def trimStartSp (cs : List Char) : List Char :=
  cs.dropWhile (fun c => c == ' ')

/-- Parse the optional actual block after the cost block. -/
def parseActual (cs : List Char) : Option (Dec × Dec) × Option Nat :=
  match splitOnSub "(actual time=".data cs with
  | none => (none, none)
  | some (_, r1) =>
    match parseDec r1 with
    | none => (none, none)
    | some (a1, r2) =>
      match dropExpect "..".data r2 with
      | none => (none, none)
      | some r3 =>
        match parseDec r3 with
        | none => (none, none)
        | some (a2, r4) =>
          match dropExpect " rows=".data r4 with
          | none => (some (a1, a2), none)
          | some r5 =>
            match parseNatL r5 with
            | none => (some (a1, a2), none)
            | some (n, _) => (some (a1, a2), some n)

/-- Parse the head of a node line (before the cost block) into operation
and optional target. -/
def parseOpTarget (cs : List Char) : List Char × Option (List Char) :=
  match splitOnSub " on ".data cs with
  | none => (trimEndSp cs, none)
  | some (op, tgt) => (trimEndSp op, some (trimEndSp (trimStartSp tgt)))

/-- Try to parse one content line (indentation already removed) as a node
line of the plan grammar. -/
def parseNodeLine (cs : List Char) : Option NData :=
  match splitOnSub "(cost=".data cs with
  | none => none
  | some (head, r1) =>
    match parseDec r1 with
    | none => none
    | some (c1, r2) =>
      match dropExpect "..".data r2 with
      | none => none
      | some r3 =>
        match parseDec r3 with
        | none => none
        | some (c2, r4) =>
          match dropExpect " rows=".data r4 with
          | none => none
          | some r5 =>
            match parseNatL r5 with
            | none => none
            | some (rw, r6) =>
              match dropExpect " width=".data r6 with
              | none => none
              | some r7 =>
                match parseNatL r7 with
                | none => none
                | some (wd, r8) =>
                  match dropExpect ")".data r8 with
                  | none => none
                  | some r9 =>
                    match parseOpTarget head with
                    | (op, tgt) =>
                      match parseActual r9 with
                      | (at2, ar) => some ⟨op, tgt, c1, c2, rw, wd, at2, ar⟩

def extraPrefixes : List (List Char) :=
  ["Filter:".data, "Index Cond:".data, "Sort Key:".data, "Output:".data,
   "Hash Cond:".data, "Join Filter:".data, "Recheck Cond:".data,
   "Merge Cond:".data, "Group Key:".data, "Sort Method:".data,
   "Buffers:".data, "Rows Removed".data]

def summaryPrefixes : List (List Char) :=
  ["Planning Time:".data, "Execution Time:".data, "Planning:".data,
   "Trigger".data, "JIT:".data]

inductive LineC where
  | nodeL (depth : Nat) (nd : NData)
  | extraL (txt : List Char)
  | skipL
  | badL
deriving Repr

/-- Classify one raw line: indentation depth, arrow marker, then node,
extra, summary or blank. -/
def classifyLine (line : List Char) : LineC :=
  match spanP (fun c => c == ' ') line with
  | (sp, r1) =>
    let content :=
      match dropExpect "->".data r1 with
      | some r2 => trimStartSp r2
      | none => r1
    if content.isEmpty then .skipL
    else if summaryPrefixes.any (fun p => p.isPrefixOf content) then .skipL
    else if extraPrefixes.any (fun p => p.isPrefixOf content) then .extraL content
    else
      match parseNodeLine content with
      | some nd => .nodeL sp.length nd
      | none => .badL

/-- Group classified lines: each node line opens a group carrying its
depth; extra lines attach to the most recently opened node. -/
def planGroupsAcc : Nat → List (Nat × NData × List (List Char)) →
    List (List Char) → Except Err (List (Nat × NData × List (List Char)))
  | _, acc, [] => .ok acc.reverse
  | ln, acc, line :: rest =>
    match classifyLine line with
    | .skipL => planGroupsAcc (ln + 1) acc rest
    | .badL => .error (.planFormatErr ln line)
    | .nodeL d nd => planGroupsAcc (ln + 1) ((d, nd, []) :: acc) rest
    | .extraL txt =>
      match acc with
      | [] => .error (.planFormatErr ln line)
      | (d, nd, ex) :: acc2 => planGroupsAcc (ln + 1) ((d, nd, ex ++ [txt]) :: acc2) rest

def splitLinesGo : List Char → List Char → List (List Char)
  | acc, [] => [acc.reverse]
  | acc, '\n' :: cs => acc.reverse :: splitLinesGo [] cs
  | acc, c :: cs => splitLinesGo (c :: acc) cs

def splitLines (cs : List Char) : List (List Char) := splitLinesGo [] cs

/-- Parsed plan lines with depth, node data and extra text, in order. -/
def planGroups (s : String) : Except Err (List (Nat × NData × List (List Char))) :=
  planGroupsAcc 1 [] (splitLines s.data)

/-- Rose tree of line indices realizing the indentation nesting. -/
inductive RTree where
  | node (idx : Nat) (kids : List RTree)
deriving Repr

def RTree.idx : RTree → Nat
  | .node i _ => i

/-- Build the index forest: an item becomes the parent of the maximal run
of following items of strictly larger depth, which is exactly the nearest
preceding shallower node rule. -/
def buildT (ds : List Nat) : Nat → List Nat → List RTree
  | 0, _ => []
  | _ + 1, [] => []
  | f + 1, i :: rest =>
    .node i (buildT ds f (rest.takeWhile (fun j => ds.getD i 0 < ds.getD j 0))) ::
      buildT ds f (rest.dropWhile (fun j => ds.getD i 0 < ds.getD j 0))

mutual

def substT (gs : List (Nat × NData × List (List Char))) : RTree → PlanNode
  | .node i kids =>
    .mk (gs.getD i (0, ndDefault, [])).2.1 (gs.getD i (0, ndDefault, [])).2.2
      (substF gs kids)

def substF (gs : List (Nat × NData × List (List Char))) :
    List RTree → List PlanNode
  | [] => []
  | t :: ts => substT gs t :: substF gs ts

end

/-- Public plan-parsing operation: plan-report text to a forest of plan
nodes nested by indentation. -/
def parse_explain (s : String) : Except Err (List PlanNode) :=
  match planGroups s with
  | .error e => .error e
  | .ok gs =>
    .ok (substF gs (buildT (gs.map (fun g => g.1)) (gs.length + 1)
      (List.range gs.length)))

mutual

/-- Direct parent-child index pairs of an index tree. -/
def pairsT : RTree → List (Nat × Nat)
  | .node i kids => pairsKids i kids

def pairsKids : Nat → List RTree → List (Nat × Nat)
  | _, [] => []
  | p, t :: ts => (p, t.idx) :: pairsT t ++ pairsKids p ts

end

def pairsF : List RTree → List (Nat × Nat)
  | [] => []
  | t :: ts => pairsT t ++ pairsF ts

/-- Specification parent: the nearest preceding index of strictly smaller
depth. -/
def parentSpec (ds : List Nat) (j : Nat) : Option Nat :=
  ((List.range j).filter (fun i => ds.getD i 0 < ds.getD j 0)).getLast?

/-! ## Python host layer

Embedded from src/python/pgrsql/init: the package imports six names from
the native extension module pgrsql._pgrsql and re-exports them unchanged;
the __all__ list names the five operations and the version identifier.
There is no fallback path when the native extension is absent. -/

structure PyModule where
  vId : String
  parse_sql : String → Except Err Stmt
  format_sql : String → Except Err String
  analyze_query : String → Except Err Metrics
  parse_explain : String → Except Err (List PlanNode)
  is_explain_query : String → Bool

/-- The native core as modelled by this development, playing the role of
pgrsql._pgrsql. -/
def nativeCore : PyModule :=
  ⟨"0.1.0", parse_sql, format_sql, analyze_query, parse_explain, is_explain_query⟩

/-- Names bound by the import statement in the package file, source order. -/
def pgrsqlImportNames : List String :=
  ["__version__", "analyze_query", "format_sql", "is_explain_query",
   "parse_explain", "parse_sql"]

/-- The __all__ export list of the pgrsql package, source order. -/
def pgrsqlAll : List String :=
  ["__version__", "parse_sql", "format_sql", "analyze_query",
   "parse_explain", "is_explain_query"]

inductive ImportFailure where
  | moduleNotFound
deriving DecidableEq, Repr

/-- Import semantics of the package file: from pgrsql._pgrsql import the
six names and re-export the bound objects unchanged; when the native
extension cannot be loaded the import itself fails. -/
def importPgrsql : Option PyModule → Except ImportFailure PyModule
  | none => .error .moduleNotFound
  | some core => .ok core

/-! ## Specification join count

An independent count of the Join nodes of a statement, including those
inside nested subqueries reachable from FROM or expression positions, used
to check the analyzer. -/

mutual

def cjExpr : Expr → Nat
  | .numL _ => 0
  | .strL _ => 0
  | .col _ _ => 0
  | .star => 0
  | .bin _ l r => cjExpr l + cjExpr r
  | .notE e => cjExpr e
  | .negE e => cjExpr e
  | .castE e _ => cjExpr e
  | .fn _ a => cjFArgs a
  | .subq q => cjSel q
  | .caseE arms els => cjWhens arms + cjOExpr els

def cjWhens : WList → Nat
  | .nilW => 0
  | .consW c r rest => cjExpr c + cjExpr r + cjWhens rest

def cjFArgs : FArgs → Nat
  | .starA => 0
  | .argsA es => cjEList es

def cjEList : EList → Nat
  | .nilE => 0
  | .consE e es => cjExpr e + cjEList es

def cjOExpr : OExpr → Nat
  | .noneE => 0
  | .someE e => cjExpr e

def cjSel : Sel → Nat
  | .mk items fr wh gb hv ob lm off =>
    cjItems items + cjFromPart fr + cjOExpr wh + cjEList gb + cjOExpr hv +
      cjOList ob + cjOExpr lm + cjOExpr off

def cjItems : IList → Nat
  | .nilI => 0
  | .consI it rest => cjItem it + cjItems rest

def cjItem : SelItem → Nat
  | .starI => 0
  | .exprI e _ => cjExpr e

def cjFromPart : FromPart → Nat
  | .noneF => 0
  | .someF fi js => cjFromIt fi + cjJList js

def cjFromIt : FromIt → Nat
  | .table _ _ => 0
  | .subT q _ => cjSel q

def cjJList : JList → Nat
  | .nilJ => 0
  | .consJ (.mk _ src onE) js => 1 + cjFromIt src + cjOExpr onE + cjJList js

def cjOList : OList → Nat
  | .nilO => 0
  | .consO e _ os => cjExpr e + cjOList os

end

def cjSetOps : List (SetKind × Sel) → Nat
  | [] => 0
  | (_, s) :: rest => cjSel s + cjSetOps rest

def cjExprList : List Expr → Nat
  | [] => 0
  | e :: rest => cjExpr e + cjExprList rest

def cjAssignList : List (List Char × Expr) → Nat
  | [] => 0
  | (_, e) :: rest => cjExpr e + cjAssignList rest

def cjStmt : Stmt → Nat
  | .selectS s ops => cjSel s + cjSetOps ops
  | .insertS _ _ vals => cjExprList vals
  | .updateS _ sets wh => cjAssignList sets + (cjOExpr (match wh with | none => .noneE | some e => .someE e))
  | .deleteS _ wh => cjOExpr (match wh with | none => .noneE | some e => .someE e)
  | .explainS _ _ _ inner => cjStmt inner

/-! ## Theorems -/

/-- C4: parse_plan on the single line
Seq Scan on users  (cost=0.00..35.50 rows=100 width=36)
returns exactly one root PlanNode with operation Seq Scan, target users,
startup cost 0.00, total cost 35.50, 100 plan rows, width 36, and no
children. -/
theorem claim_c4_plan_parsing :
    ∃ n : PlanNode,
      parse_explain "Seq Scan on users  (cost=0.00..35.50 rows=100 width=36)" = .ok [n] ∧
      n.nd.operation = "Seq Scan".data ∧
      n.nd.target = some "users".data ∧
      n.nd.startup_cost.toRat = 0.00 ∧
      n.nd.total_cost.toRat = 35.50 ∧
      n.nd.plan_rows = 100 ∧
      n.nd.plan_width = 36 ∧
      n.children = [] := by
  refine ⟨PlanNode.mk ⟨"Seq Scan".data, some "users".data, ⟨0, 2⟩, ⟨3550, 2⟩,
      100, 36, none, none⟩ [] [], ?_, rfl, rfl, by norm_num [Dec.toRat, PlanNode.nd],
      by norm_num [Dec.toRat, PlanNode.nd], rfl, rfl, rfl⟩
  rfl

/-- C10: importing the pgrsql package fails with an import-time error when
the native extension module is absent; no module value (hence none of the
five operations) is obtainable in that case, and with the core present
the import returns the core, there being no fallback implementation. -/
theorem claim_c10_import_requires_native :
    importPgrsql none = .error .moduleNotFound ∧
      (∀ m : PyModule, importPgrsql none ≠ .ok m) ∧
      (∀ core, importPgrsql (some core) = .ok core) :=
  ⟨rfl, fun _ h => Except.noConfusion h, fun _ => rfl⟩

/-- C9: the package exports exactly the five operations plus the version
identifier (the __all__ list, a permutation of the imported names), and a
successful import re-exports every native-core operation unchanged, so
each package operation is extensionally the core function. -/
theorem claim_c9_host_surface :
    pgrsqlAll = ["__version__", "parse_sql", "format_sql", "analyze_query",
      "parse_explain", "is_explain_query"] ∧
    pgrsqlAll.Perm pgrsqlImportNames ∧
    (∀ core m, importPgrsql (some core) = .ok m →
      m.vId = core.vId ∧
      (∀ s, m.parse_sql s = core.parse_sql s) ∧
      (∀ s, m.format_sql s = core.format_sql s) ∧
      (∀ s, m.analyze_query s = core.analyze_query s) ∧
      (∀ s, m.parse_explain s = core.parse_explain s) ∧
      (∀ s, m.is_explain_query s = core.is_explain_query s)) := by
  refine ⟨rfl, by decide, fun core m h => ?_⟩
  injection h with h2
  subst h2
  exact ⟨rfl, fun _ => rfl, fun _ => rfl, fun _ => rfl, fun _ => rfl, fun _ => rfl⟩

/-- Witness for C9 at the modelled native core. -/
theorem claim_c9_host_surface_witness :
    (importPgrsql (some nativeCore) = .ok nativeCore) ∧
      nativeCore.vId = nativeCore.vId ∧
      (∀ s, nativeCore.parse_sql s = nativeCore.parse_sql s) :=
  ⟨rfl, (claim_c9_host_surface.2.2 nativeCore nativeCore rfl).1,
    (claim_c9_host_surface.2.2 nativeCore nativeCore rfl).2.1⟩

/-- C6: formatting and analysis require a fully successful parse: they
fail exactly when parse of the same text fails, with the same typed error
value, and an error outcome is never also a success. -/
theorem claim_c6_fail_fast :
    ∀ s : String,
      ((format_sql s).isOk = (parse_sql s).isOk) ∧
      ((analyze_query s).isOk = (parse_sql s).isOk) ∧
      (∀ e, format_sql s = .error e ↔ parse_sql s = .error e) ∧
      (∀ e, analyze_query s = .error e ↔ parse_sql s = .error e) ∧
      (∀ e v, parse_sql s = .error e → parse_sql s ≠ .ok v) := by
  intro s
  unfold format_sql analyze_query
  cases h : parse_sql s <;>
    simp [Except.isOk, Except.toBool, h]

/-- C8: statements using a recognized but unsupported construct fail with
UnsupportedConstructError carrying the construct name: any statement whose
first token is the WITH keyword (a CTE) or the MERGE keyword, and a window
function OVER clause; shown universally for WITH and MERGE and on concrete
inputs for all three. -/
theorem claim_c8_unsupported :
    (∀ (s : String) (w : List Char) (ts : List STok),
        tokenize s.data = .ok (⟨.kw, w⟩ :: ts) → upperStr w = "WITH".data →
        parse_sql s = .error (.unsupported "CTE".data)) ∧
    (∀ (s : String) (w : List Char) (ts : List STok),
        tokenize s.data = .ok (⟨.kw, w⟩ :: ts) → upperStr w = "MERGE".data →
        parse_sql s = .error (.unsupported "MERGE".data)) ∧
    parse_sql "WITH t AS (SELECT 1) SELECT * FROM t" = .error (.unsupported "CTE".data) ∧
    parse_sql "MERGE INTO t USING s ON 1" = .error (.unsupported "MERGE".data) ∧
    parse_sql "SELECT row_number() OVER w FROM t" = .error (.unsupported "window function".data) := by
  refine ⟨?_, ?_, rfl, rfl, rfl⟩
  · intro s w ts h hw
    have hf : fuelOf (ts.length + 1) = (16 * ts.length + 79) + 1 := by
      simp [fuelOf]; ring
    simp [parse_sql, parseSqlD, parseToks, h, hf, parseStmt, isKwT, hw]
  · intro s w ts h hw
    have hf : fuelOf (ts.length + 1) = (16 * ts.length + 79) + 1 := by
      simp [fuelOf]; ring
    simp [parse_sql, parseSqlD, parseToks, h, hf, parseStmt, isKwT, hw]

mutual

theorem aExpr_joins : ∀ e : Expr, (aExpr e).joins = cjExpr e
  | .numL _ => rfl
  | .strL _ => rfl
  | .col _ _ => rfl
  | .star => rfl
  | .bin o l r => by
    simp [aExpr, cjExpr, AnRes.comb, aExpr_joins l, aExpr_joins r]
  | .notE e => by simp [aExpr, cjExpr, aExpr_joins e]
  | .negE e => by simp [aExpr, cjExpr, aExpr_joins e]
  | .castE e _ => by simp [aExpr, cjExpr, aExpr_joins e]
  | .fn nm a => by
    simp only [aExpr, cjExpr]
    split <;> simp [aFArgs_joins a]
  | .subq q => by simp [aExpr, cjExpr, aSel_joins q]
  | .caseE arms els => by
    simp [aExpr, cjExpr, AnRes.comb, aWhens_joins arms, aOExpr_joins els]

theorem aWhens_joins : ∀ arms : WList, (aWhens arms).joins = cjWhens arms
  | .nilW => rfl
  | .consW c r rest => by
    simp [aWhens, cjWhens, AnRes.comb, aExpr_joins c, aExpr_joins r,
      aWhens_joins rest]
    omega

theorem aFArgs_joins : ∀ a : FArgs, (aFArgs a).joins = cjFArgs a
  | .starA => rfl
  | .argsA es => by simp [aFArgs, cjFArgs, aEList_joins es]

theorem aEList_joins : ∀ es : EList, (aEList es).joins = cjEList es
  | .nilE => rfl
  | .consE e es => by
    simp [aEList, cjEList, AnRes.comb, aExpr_joins e, aEList_joins es]

theorem aOExpr_joins : ∀ oe : OExpr, (aOExpr oe).joins = cjOExpr oe
  | .noneE => rfl
  | .someE e => by simp [aOExpr, cjOExpr, aExpr_joins e]

theorem aSel_joins : ∀ q : Sel, (aSel q).joins = cjSel q
  | .mk items fr wh gb hv ob lm off => by
    simp [aSel, cjSel, AnRes.comb, aItems_joins items, aFromPart_joins fr,
      aOExpr_joins wh, aEList_joins gb, aOExpr_joins hv, aOList_joins ob,
      aOExpr_joins lm, aOExpr_joins off]
    omega

theorem aItems_joins : ∀ its : IList, (aItems its).joins = cjItems its
  | .nilI => rfl
  | .consI it rest => by
    simp [aItems, cjItems, AnRes.comb, aItem_joins it, aItems_joins rest]

theorem aItem_joins : ∀ it : SelItem, (aItem it).joins = cjItem it
  | .starI => rfl
  | .exprI e _ => by simp [aItem, cjItem, aExpr_joins e]

theorem aFromPart_joins : ∀ fr : FromPart, (aFromPart fr).joins = cjFromPart fr
  | .noneF => rfl
  | .someF fi js => by
    simp [aFromPart, cjFromPart, AnRes.comb, aFromIt_joins fi, aJList_joins js]

theorem aFromIt_joins : ∀ fi : FromIt, (aFromIt fi).joins = cjFromIt fi
  | .table _ _ => rfl
  | .subT q _ => by simp [aFromIt, cjFromIt, aSel_joins q]

theorem aJList_joins : ∀ js : JList, (aJList js).joins = cjJList js
  | .nilJ => rfl
  | .consJ (.mk k src onE) js => by
    simp [aJList, cjJList, AnRes.comb, aFromIt_joins src, aOExpr_joins onE,
      aJList_joins js]
    omega

theorem aOList_joins : ∀ os : OList, (aOList os).joins = cjOList os
  | .nilO => rfl
  | .consO e _ os => by
    simp [aOList, cjOList, AnRes.comb, aExpr_joins e, aOList_joins os]

end

theorem aSetOps_joins : ∀ ops : List (SetKind × Sel), (aSetOps ops).joins = cjSetOps ops
  | [] => rfl
  | (_, s) :: rest => by
    simp [aSetOps, cjSetOps, AnRes.comb, aSel_joins s, aSetOps_joins rest]

theorem aExprList_joins : ∀ l : List Expr, (aExprList l).joins = cjExprList l
  | [] => rfl
  | e :: rest => by
    simp [aExprList, cjExprList, AnRes.comb, aExpr_joins e, aExprList_joins rest]

theorem aAssignList_joins :
    ∀ l : List (List Char × Expr), (aAssignList l).joins = cjAssignList l
  | [] => rfl
  | (_, e) :: rest => by
    simp [aAssignList, cjAssignList, AnRes.comb, aExpr_joins e, aAssignList_joins rest]

theorem aStmt_joins : ∀ st : Stmt, (aStmt st).joins = cjStmt st
  | .selectS s ops => by
    simp [aStmt, cjStmt, AnRes.comb, aSel_joins s, aSetOps_joins ops]
  | .insertS _ _ vals => by simp [aStmt, cjStmt, aExprList_joins vals]
  | .updateS _ sets wh => by
    cases wh <;>
      simp [aStmt, cjStmt, AnRes.comb, AnRes.zero, aAssignList_joins sets,
        aOptExpr, cjOExpr, aExpr_joins]
  | .deleteS _ wh => by
    cases wh <;> simp [aStmt, cjStmt, AnRes.zero, aOptExpr, cjOExpr, aExpr_joins]
  | .explainS _ _ _ inner => by simp [aStmt, cjStmt, aStmt_joins inner]

/-- C2: for every successfully parsed query the analyzer reports a join
count equal to the number of Join nodes in the statement, counting joins
inside nested subqueries toward the total (cjStmt is the independent
count); on the example query the metrics are join count one, has joins,
and table count two. -/
theorem claim_c2_join_counting :
    (∀ (s : String) (st : Stmt), parse_sql s = .ok st →
        analyze_query s = .ok (mkMetrics st) ∧
        (mkMetrics st).join_count = cjStmt st ∧
        (mkMetrics st).has_joins = (cjStmt st != 0)) ∧
    (∃ m, analyze_query "SELECT * FROM a JOIN b ON a.id=b.id" = .ok m ∧
        m.join_count = 1 ∧ m.has_joins = true ∧ m.table_count = 2) := by
  constructor
  · intro s st h
    refine ⟨by simp [analyze_query, h], ?_, ?_⟩ <;>
      simp [mkMetrics, aStmt_joins]
  · exact ⟨_, rfl, rfl, rfl, rfl⟩

/-- Witness for C2 at the example query. -/
theorem claim_c2_join_counting_witness :
    ∃ st, parse_sql "SELECT * FROM a JOIN b ON a.id=b.id" = .ok st ∧
      analyze_query "SELECT * FROM a JOIN b ON a.id=b.id" = .ok (mkMetrics st) ∧
      (mkMetrics st).join_count = cjStmt st := by
  obtain ⟨st, hst⟩ : ∃ st, parse_sql "SELECT * FROM a JOIN b ON a.id=b.id" = .ok st :=
    ⟨_, rfl⟩
  exact ⟨st, hst, (claim_c2_join_counting.1 _ _ hst).1,
    (claim_c2_join_counting.1 _ _ hst).2.1⟩

theorem spanP_split (p : Char → Bool) (cs : List Char) :
    cs = (spanP p cs).1 ++ (spanP p cs).2 ∧
      (∀ c ∈ (spanP p cs).1, p c = true) ∧
      (∀ c, (spanP p cs).2.head? = some c → p c = false) := by
  induction cs with
  | nil => exact ⟨rfl, by simp [spanP], by simp [spanP]⟩
  | cons c cs ih =>
    by_cases h : p c
    · refine ⟨?_, ?_, ?_⟩ <;> simp only [spanP, h, if_pos]
      · simpa using ih.1
      · intro c2 hc2
        rcases List.mem_cons.mp hc2 with h2 | h2
        · exact h2 ▸ h
        · exact ih.2.1 c2 h2
      · exact ih.2.2
    · refine ⟨by simp [spanP, h], by simp [spanP, h], ?_⟩
      simp only [spanP, h, if_neg, Bool.false_eq_true, not_false_iff]
      intro c2 hc2
      simp only [List.head?_cons, Option.some.injEq] at hc2
      rw [← hc2]
      simpa using h

theorem spanP_append (p : Char → Bool) :
    ∀ w r : List Char, (∀ c ∈ w, p c = true) →
      (∀ c, r.head? = some c → p c = false) → spanP p (w ++ r) = (w, r)
  | [], r, _, hr => by
    cases r with
    | nil => rfl
    | cons c cs => simp [spanP, hr c rfl]
  | c :: w, r, hw, hr => by
    simp [spanP, hw c (by simp),
      spanP_append p w r (fun x hx => hw x (by simp [hx])) hr]

/-- The fraction scanner consumes nothing when the input does not start
with a dot. -/
theorem numFrac_stop (cs : List Char)
    (h : ∀ c, cs.head? = some c → c ≠ '.') : numFrac cs = ([], cs) := by
  match cs with
  | [] => rfl
  | [c] => rfl
  | c :: c2 :: rest =>
    have hc := h c rfl
    simp [numFrac, hc]

/-- The exponent scanner consumes nothing when the input does not start
with an exponent marker. -/
theorem numExp_stop (cs : List Char)
    (h : ∀ c, cs.head? = some c → c ≠ 'e' ∧ c ≠ 'E') : numExp cs = ([], cs) := by
  match cs with
  | [] => rfl
  | c :: rest =>
    have hc := h c rfl
    simp [numExp, hc.1, hc.2]

/-- The fraction scanner consumes a dot and a nonempty digit run. -/
theorem numFrac_frac (d : Char) (ds rest : List Char) (hd : d.isDigit = true)
    (hds : ∀ x ∈ ds, x.isDigit = true)
    (hstop : ∀ c, rest.head? = some c → c.isDigit = false) :
    numFrac ('.' :: d :: (ds ++ rest)) = ('.' :: d :: ds, rest) := by
  have hspan : spanP Char.isDigit (d :: (ds ++ rest)) = (d :: ds, rest) := by
    have := spanP_append Char.isDigit (d :: ds) rest
      (fun x hx => by
        rcases List.mem_cons.mp hx with rfl | hx
        · exact hd
        · exact hds x hx) hstop
    simpa using this
  simp [numFrac, hd, hspan]

/-- The exponent scanner consumes a marker and a nonempty digit run. -/
theorem numExp_plain (m d : Char) (ds rest : List Char)
    (hm : m = 'e' ∨ m = 'E') (hd : d.isDigit = true)
    (hds : ∀ x ∈ ds, x.isDigit = true)
    (hstop : ∀ c, rest.head? = some c → c.isDigit = false) :
    numExp (m :: d :: (ds ++ rest)) = (m :: d :: ds, rest) := by
  have hspan : spanP Char.isDigit (d :: (ds ++ rest)) = (d :: ds, rest) := by
    have := spanP_append Char.isDigit (d :: ds) rest
      (fun x hx => by
        rcases List.mem_cons.mp hx with rfl | hx
        · exact hd
        · exact hds x hx) hstop
    simpa using this
  simp [numExp, hm, hd, hspan]

/-- The exponent scanner consumes a marker, a sign and a digit run. -/
theorem numExp_sign (m sg d : Char) (ds rest : List Char)
    (hm : m = 'e' ∨ m = 'E') (hsg : sg = '+' ∨ sg = '-')
    (hd : d.isDigit = true) (hds : ∀ x ∈ ds, x.isDigit = true)
    (hstop : ∀ c, rest.head? = some c → c.isDigit = false) :
    numExp (m :: sg :: d :: (ds ++ rest)) = (m :: sg :: d :: ds, rest) := by
  have hsgd : sg.isDigit = false := by rcases hsg with rfl | rfl <;> decide
  have hspan : spanP Char.isDigit (d :: (ds ++ rest)) = (d :: ds, rest) := by
    have := spanP_append Char.isDigit (d :: ds) rest
      (fun x hx => by
        rcases List.mem_cons.mp hx with rfl | hx
        · exact hd
        · exact hds x hx) hstop
    simpa using this
  simp [numExp, hm, hsg, hsgd, hd, hspan]

/-- A nonempty digit-headed span starts with a digit cons. -/
theorem spanP_digit_cons (c2 : Char) (rest : List Char)
    (h2 : c2.isDigit = true) :
    ∃ d ds, (spanP Char.isDigit (c2 :: rest)).1 = d :: ds := by
  cases he : (spanP Char.isDigit (c2 :: rest)).1 with
  | nil =>
    have hs := (spanP_split Char.isDigit (c2 :: rest)).1
    rw [he, List.nil_append] at hs
    have := (spanP_split Char.isDigit (c2 :: rest)).2.2 c2 (by rw [← hs]; rfl)
    rw [h2] at this
    cases this
  | cons d ds => exact ⟨d, ds, rfl⟩

/-- Shape of the fraction part returned by the fraction scanner. -/
theorem numFrac_split (cs : List Char) :
    cs = (numFrac cs).1 ++ (numFrac cs).2 ∧
      ((numFrac cs).1 = [] ∨ ∃ d ds, (numFrac cs).1 = '.' :: d :: ds ∧
        d.isDigit = true ∧ ∀ x ∈ ds, x.isDigit = true) := by
  match cs with
  | [] => exact ⟨rfl, Or.inl rfl⟩
  | [c] => exact ⟨rfl, Or.inl rfl⟩
  | c :: c2 :: rest =>
    by_cases h : c = '.' ∧ c2.isDigit = true
    · obtain ⟨rfl, h2⟩ := h
      have hred : numFrac ('.' :: c2 :: rest) =
          ('.' :: (spanP Char.isDigit (c2 :: rest)).1,
           (spanP Char.isDigit (c2 :: rest)).2) := by
        simp only [numFrac]
        rw [if_pos ⟨trivial, h2⟩]
      obtain ⟨hs, hall, _⟩ := spanP_split Char.isDigit (c2 :: rest)
      obtain ⟨d, ds, hds⟩ := spanP_digit_cons c2 rest h2
      rw [hred]
      refine ⟨by simpa using hs, Or.inr ⟨d, ds, by rw [hds], ?_, ?_⟩⟩
      · exact hall d (by rw [hds]; simp)
      · exact fun x hx => hall x (by rw [hds]; simp [hx])
    · simp [numFrac, h]

/-- Shape of the exponent part returned by the exponent scanner. -/
theorem numExp_split (cs : List Char) :
    cs = (numExp cs).1 ++ (numExp cs).2 ∧
      ((numExp cs).1 = [] ∨ ∃ m r0, (numExp cs).1 = m :: r0 ∧
        (m = 'e' ∨ m = 'E') ∧
        ((∃ d ds, r0 = d :: ds ∧ d.isDigit = true ∧
            ∀ x ∈ ds, x.isDigit = true) ∨
         (∃ sg d ds, r0 = sg :: d :: ds ∧ (sg = '+' ∨ sg = '-') ∧
            d.isDigit = true ∧ ∀ x ∈ ds, x.isDigit = true))) := by
  match cs with
  | [] => exact ⟨rfl, Or.inl rfl⟩
  | c :: rest =>
    by_cases hm : c = 'e' ∨ c = 'E'
    · match rest with
      | [] => refine ⟨by simp [numExp, hm], by simp [numExp, hm]⟩
      | d :: rest2 =>
        by_cases hd : d.isDigit = true
        · have hred : numExp (c :: d :: rest2) =
              (c :: (spanP Char.isDigit (d :: rest2)).1,
               (spanP Char.isDigit (d :: rest2)).2) := by
            simp only [numExp]
            rw [if_pos hm, if_pos hd]
          obtain ⟨hs, hall, _⟩ := spanP_split Char.isDigit (d :: rest2)
          obtain ⟨d2, ds, hds⟩ := spanP_digit_cons d rest2 hd
          rw [hred]
          refine ⟨by simpa using hs,
            Or.inr ⟨c, (spanP Char.isDigit (d :: rest2)).1, rfl, hm,
              Or.inl ⟨d2, ds, hds, ?_, ?_⟩⟩⟩
          · exact hall d2 (by rw [hds]; simp)
          · exact fun x hx => hall x (by rw [hds]; simp [hx])
        · by_cases hsg : d = '+' ∨ d = '-'
          · match rest2 with
            | [] =>
              refine ⟨by simp [numExp, hm, hd, hsg],
                by simp [numExp, hm, hd, hsg]⟩
            | d2 :: rest3 =>
              by_cases hd2 : d2.isDigit = true
              · have hred : numExp (c :: d :: d2 :: rest3) =
                    (c :: d :: (spanP Char.isDigit (d2 :: rest3)).1,
                     (spanP Char.isDigit (d2 :: rest3)).2) := by
                  simp only [numExp]
                  rw [if_pos hm, if_neg hd, if_pos hsg, if_pos hd2]
                obtain ⟨hs, hall, _⟩ := spanP_split Char.isDigit (d2 :: rest3)
                obtain ⟨d3, ds, hds⟩ := spanP_digit_cons d2 rest3 hd2
                rw [hred]
                refine ⟨by simpa using hs,
                  Or.inr ⟨c, d :: (spanP Char.isDigit (d2 :: rest3)).1, rfl,
                    hm, Or.inr ⟨d, d3, ds, by rw [hds], hsg, ?_, ?_⟩⟩⟩
                · exact hall d3 (by rw [hds]; simp)
                · exact fun x hx => hall x (by rw [hds]; simp [hx])
              · refine ⟨by simp [numExp, hm, hd, hsg, hd2],
                  by simp [numExp, hm, hd, hsg, hd2]⟩
          · refine ⟨by simp [numExp, hm, hd, hsg],
              by simp [numExp, hm, hd, hsg]⟩
    · refine ⟨by simp [numExp, hm], by simp [numExp, hm]⟩

/-- A well-shaped numeric text splits into integer digits, an optional
fraction and an optional exponent. -/
theorem numShapeB_decomp {t : List Char} (h : numShapeB t = true) :
    ∃ c w fp ex, t = c :: (w ++ fp ++ ex) ∧ c.isDigit = true ∧
      (∀ x ∈ w, x.isDigit = true) ∧
      (fp = [] ∨ ∃ d ds, fp = '.' :: d :: ds ∧ d.isDigit = true ∧
        ∀ x ∈ ds, x.isDigit = true) ∧
      (ex = [] ∨ ∃ m r0, ex = m :: r0 ∧ (m = 'e' ∨ m = 'E') ∧
        ((∃ d ds, r0 = d :: ds ∧ d.isDigit = true ∧
            ∀ x ∈ ds, x.isDigit = true) ∨
         (∃ sg d ds, r0 = sg :: d :: ds ∧ (sg = '+' ∨ sg = '-') ∧
            d.isDigit = true ∧ ∀ x ∈ ds, x.isDigit = true))) := by
  simp only [numShapeB, Bool.and_eq_true, Bool.not_eq_true'] at h
  obtain ⟨hne0, hrem0⟩ := h
  have hne : (spanP Char.isDigit t).1 ≠ [] := by
    intro he
    rw [he] at hne0
    exact absurd hne0 (by decide)
  have hrem : (numExp (numFrac (spanP Char.isDigit t).2).2).2 = [] := by
    simpa using hrem0
  obtain ⟨hs, hall, _⟩ := spanP_split Char.isDigit t
  obtain ⟨c, w, hcw⟩ : ∃ c w, (spanP Char.isDigit t).1 = c :: w := by
    cases he : (spanP Char.isDigit t).1 with
    | nil => exact absurd he hne
    | cons c w => exact ⟨c, w, rfl⟩
  obtain ⟨hf, hfshape⟩ := numFrac_split (spanP Char.isDigit t).2
  obtain ⟨he2, heshape⟩ := numExp_split (numFrac (spanP Char.isDigit t).2).2
  refine ⟨c, w, (numFrac (spanP Char.isDigit t).2).1,
    (numExp (numFrac (spanP Char.isDigit t).2).2).1, ?_,
    hall c (by rw [hcw]; simp),
    fun x hx => hall x (by rw [hcw]; simp [hx]), hfshape, heshape⟩
  rw [hrem, List.append_nil] at he2
  have e1 : (numFrac (spanP Char.isDigit t).2).1 ++
      (numExp (numFrac (spanP Char.isDigit t).2).2).1 =
      (spanP Char.isDigit t).2 := by
    conv_rhs => rw [hf]
    exact congrArg _ he2.symm
  have key : c :: (w ++ ((numFrac (spanP Char.isDigit t).2).1 ++
      (numExp (numFrac (spanP Char.isDigit t).2).2).1)) = t := by
    calc c :: (w ++ ((numFrac (spanP Char.isDigit t).2).1 ++
          (numExp (numFrac (spanP Char.isDigit t).2).2).1)) =
        (c :: w) ++ ((numFrac (spanP Char.isDigit t).2).1 ++
          (numExp (numFrac (spanP Char.isDigit t).2).2).1) := by simp
      _ = (spanP Char.isDigit t).1 ++ (spanP Char.isDigit t).2 := by
          rw [← hcw, e1]
      _ = t := hs.symm
  exact key.symm.trans (by simp)

/-- An empty text is not numeric-shaped. -/
theorem numShapeB_ne_nil {t : List Char} (h : numShapeB t = true) :
    t ≠ [] := by
  intro he
  subst he
  exact absurd h (by decide)

/-- The head surviving dropWhile fails the predicate. -/
theorem dropWhile_head_false (p : Char → Bool) :
    ∀ (l : List Char) (c : Char), (l.dropWhile p).head? = some c →
      p c = false
  | [], c, h => by simp at h
  | x :: xs, c, h => by
    by_cases hx : p x
    · rw [List.dropWhile_cons_of_pos hx] at h
      exact dropWhile_head_false p xs c h
    · rw [List.dropWhile_cons_of_neg hx] at h
      simp only [List.head?_cons, Option.some.injEq] at h
      subst h
      simpa using hx

/-- Elements of dropWhile are elements of the list. -/
theorem dropWhile_mem (p : Char → Bool) (l : List Char) (c : Char)
    (h : c ∈ l.dropWhile p) : c ∈ l :=
  (List.dropWhile_sublist p).subset h

/-- The canonical numeric text is itself numeric-shaped. -/
theorem canonNum_shape (t : List Char) : numShapeB (canonNum t) = true := by
  by_cases h : numShapeB t = true
  · rw [canonNum, if_pos h]
    obtain ⟨hs, hall, hstop⟩ := spanP_split Char.isDigit t
    have hrem : (numExp (numFrac (spanP Char.isDigit t).2).2).2 = [] := by
      simp only [numShapeB, Bool.and_eq_true] at h
      simpa using h.2
    have hip : ∀ x ∈ (if ((spanP Char.isDigit t).1.dropWhile
        (· == '0')).isEmpty then ['0'] else
        (spanP Char.isDigit t).1.dropWhile (· == '0')), x.isDigit = true := by
      split
      · intro x hx
        simp only [List.mem_singleton] at hx
        subst hx
        decide
      · intro x hx
        exact hall x (dropWhile_mem _ _ x hx)
    have hipne : (if ((spanP Char.isDigit t).1.dropWhile
        (· == '0')).isEmpty then (['0'] : List Char) else
        (spanP Char.isDigit t).1.dropWhile (· == '0')) ≠ [] := by
      split
      · simp
      · rename_i hni
        simpa using hni
    have hspan2 : spanP Char.isDigit
        ((if ((spanP Char.isDigit t).1.dropWhile (· == '0')).isEmpty then
          (['0'] : List Char) else
          (spanP Char.isDigit t).1.dropWhile (· == '0')) ++
          (spanP Char.isDigit t).2) =
        ((if ((spanP Char.isDigit t).1.dropWhile (· == '0')).isEmpty then
          (['0'] : List Char) else
          (spanP Char.isDigit t).1.dropWhile (· == '0')),
         (spanP Char.isDigit t).2) :=
      spanP_append Char.isDigit _ _ hip hstop
    simp only [numShapeB, hspan2]
    rw [hrem]
    simp only [List.isEmpty_nil, Bool.and_true]
    simpa using hipne
  · rw [canonNum, if_neg h]
    decide

/-- Canonicalizing a numeric text is idempotent. -/
theorem canonNum_idem (t : List Char) : canonNum (canonNum t) = canonNum t := by
  by_cases h : numShapeB t = true
  · have hshape := canonNum_shape t
    have hct : canonNum t =
        (if ((spanP Char.isDigit t).1.dropWhile (· == '0')).isEmpty then
          (['0'] : List Char) else
          (spanP Char.isDigit t).1.dropWhile (· == '0')) ++
          (spanP Char.isDigit t).2 := by
      rw [canonNum, if_pos h]
    rw [hct] at hshape
    rw [hct]
    obtain ⟨hs, hall, hstop⟩ := spanP_split Char.isDigit t
    have hip : ∀ x ∈ (if ((spanP Char.isDigit t).1.dropWhile
        (· == '0')).isEmpty then (['0'] : List Char) else
        (spanP Char.isDigit t).1.dropWhile (· == '0')), x.isDigit = true := by
      split
      · intro x hx
        simp only [List.mem_singleton] at hx
        subst hx
        decide
      · intro x hx
        exact hall x (dropWhile_mem _ _ x hx)
    have hspan2 : spanP Char.isDigit
        ((if ((spanP Char.isDigit t).1.dropWhile (· == '0')).isEmpty then
          (['0'] : List Char) else
          (spanP Char.isDigit t).1.dropWhile (· == '0')) ++
          (spanP Char.isDigit t).2) =
        ((if ((spanP Char.isDigit t).1.dropWhile (· == '0')).isEmpty then
          (['0'] : List Char) else
          (spanP Char.isDigit t).1.dropWhile (· == '0')),
         (spanP Char.isDigit t).2) :=
      spanP_append Char.isDigit _ _ hip hstop
    rw [canonNum, if_pos hshape]
    simp only [hspan2]
    congr 1
    by_cases hni : ((spanP Char.isDigit t).1.dropWhile (· == '0')).isEmpty
    · rw [if_pos hni]
      rw [show (['0'] : List Char).dropWhile (· == '0') = [] from rfl]
      simp
    · rw [if_neg hni]
      have hkeep : ((spanP Char.isDigit t).1.dropWhile (· == '0')).dropWhile
          (· == '0') = (spanP Char.isDigit t).1.dropWhile (· == '0') := by
        cases he : (spanP Char.isDigit t).1.dropWhile (· == '0') with
        | nil => rfl
        | cons x xs =>
          have hx : (x == '0') = false := by
            have := dropWhile_head_false (· == '0') (spanP Char.isDigit t).1 x
              (by rw [he]; rfl)
            simpa using this
          rw [List.dropWhile_cons_of_neg (by simp [hx])]
      rw [hkeep, if_neg hni]
  · have hc : canonNum t = ['0'] := by rw [canonNum, if_neg h]
    rw [hc]
    decide

/-- C3: the EXPLAIN detector is a total boolean function; on the four spec
examples it returns the specified values, and on every input it returns
true exactly when the text remaining after trimming leading whitespace and
comments begins with a maximal word that case-insensitively reads EXPLAIN
(the EXPLAIN token; whatever follows, options or otherwise, is
unconstrained). -/
theorem claim_c3_explain_detection :
    is_explain_query "EXPLAIN SELECT 1" = true ∧
    is_explain_query "explain analyze select 1" = true ∧
    is_explain_query "SELECT 1" = false ∧
    is_explain_query "" = false ∧
    (∀ s : String, is_explain_query s = true ↔
      ∃ w rest, skipWsC (s.data.length + 1) s.data = w ++ rest ∧
        (∀ c ∈ w, isWordChar c = true) ∧
        upperStr w = "EXPLAIN".data ∧
        (∀ c, rest.head? = some c → isWordChar c = false)) := by
  refine ⟨rfl, rfl, rfl, rfl, fun s => ⟨fun h => ?_, fun h => ?_⟩⟩
  · have hs := spanP_split isWordChar (skipWsC (s.data.length + 1) s.data)
    refine ⟨(spanP isWordChar (skipWsC (s.data.length + 1) s.data)).1,
      (spanP isWordChar (skipWsC (s.data.length + 1) s.data)).2,
      hs.1, hs.2.1, ?_, hs.2.2⟩
    simpa [is_explain_query] using h
  · obtain ⟨w, rest, he, hwc, hu, hb⟩ := h
    simp only [is_explain_query, he, spanP_append isWordChar w rest hwc hb]
    simp [hu]

/-- Family of queries whose subquery nesting depth is exactly n. -/
def nestedQ : Nat → String
  | 0 => "SELECT 1"
  | n + 1 => "SELECT (" ++ nestedQ n ++ ")"

/-- Token form of the nested query family. -/
def nestedToks : Nat → List STok
  | 0 => [⟨.kw, "SELECT".data⟩, ⟨.num, "1".data⟩]
  | n + 1 => ⟨.kw, "SELECT".data⟩ :: ⟨.sym, "(".data⟩ :: nestedToks n ++ [⟨.sym, ")".data⟩]

theorem parseSel_nested_tooDeep :
    ∀ n d f rest, d < n → 16 * n ≤ f →
      parseSel f d (nestedToks n ++ rest) = .error .tooDeep := by
  intro n
  induction n with
  | zero => intro d f rest hd _; exact absurd hd (Nat.not_lt_zero d)
  | succ m ih =>
    intro d f rest hd hf
    obtain ⟨g, rfl⟩ : ∃ g, f = g + 13 := ⟨f - 13, by omega⟩
    obtain ⟨tl, htl⟩ : ∃ tl, nestedToks m = ⟨.kw, "SELECT".data⟩ :: tl := by
      cases m <;> exact ⟨_, rfl⟩
    simp only [nestedToks, List.cons_append, List.append_assoc,
      List.singleton_append, htl]
    simp only [parseSel]
    simp only [parseItems, parseItem, parseExprOr, parseExprAnd,
      parseExprNot, parseExprCmp, parseExprAdd, parseExprMul, parseExprUnary,
      parseExprCast, parsePrimary, expectKw, isKwT, isSymT, upperStr]
    simp +decide
    cases d with
    | zero => simp
    | succ d2 =>
      have hih := ih d2 (g + 1) (⟨.sym, ")".data⟩ :: rest) (by omega) (by omega)
      rw [htl] at hih
      simp only [List.cons_append, List.append_assoc] at hih
      simp only [List.cons_append, List.append_assoc]
      rw [hih]

theorem nestedToks_length : ∀ n, (nestedToks n).length = 3 * n + 2
  | 0 => rfl
  | n + 1 => by
    simp [nestedToks, nestedToks_length n]
    ring

/-- C7: the parser is a total function of its input (the embedding is
structurally recursive, so it returns on every input), subquery recursion
carries an explicit depth counter whose ceiling is the configurable
parseSqlD parameter, and inputs whose nesting exceeds the ceiling fail
with the dedicated TooDeepError: universally over every ceiling d for the
canonical family of queries of nesting d plus one, concretely for the
default ceiling, while nesting within the ceiling still parses. -/
theorem claim_c7_depth_ceiling :
    (∀ d : Nat, parseToks d (nestedToks (d + 1)) = .error .tooDeep) ∧
    parse_sql (nestedQ (defaultMaxDepth + 1)) = .error .tooDeep ∧
    (parseSqlD 2 (nestedQ 2)).isOk = true := by
  refine ⟨fun d => ?_, by rfl, by rfl⟩
  have hsel := parseSel_nested_tooDeep (d + 1) d (16 * (3 * d + 5) + 63) []
    (by omega) (by omega)
  rw [List.append_nil] at hsel
  have hf : fuelOf (nestedToks (d + 1)).length = (16 * (3 * d + 5) + 63) + 1 := by
    rw [nestedToks_length]
    simp [fuelOf]
    ring
  unfold parseToks
  rw [hf]
  simp only [nestedToks, List.cons_append, List.append_assoc,
    List.singleton_append] at hsel ⊢
  simp only [parseStmt, isKwT, upperStr]
  simp +decide
  rw [hsel]

/-- Witness for C7 instantiating the universal part at ceiling two. -/
theorem claim_c7_depth_ceiling_witness :
    parseToks 2 (nestedToks 3) = .error .tooDeep :=
  claim_c7_depth_ceiling.1 2

/-- Witness for C8 instantiating the universal parts at concrete inputs. -/
theorem claim_c8_unsupported_witness :
    parse_sql "with 1" = .error (.unsupported "CTE".data) ∧
    parse_sql "merge 1" = .error (.unsupported "MERGE".data) :=
  ⟨claim_c8_unsupported.1 "with 1" "with".data [⟨.num, "1".data⟩] rfl rfl,
   claim_c8_unsupported.2.1 "merge 1" "merge".data [⟨.num, "1".data⟩] rfl rfl⟩

def rootsF (ts : List RTree) : List Nat := ts.map RTree.idx

theorem takeWhile_range' (p : Nat → Bool) :
    ∀ k a, ∃ m, m ≤ k ∧
      (List.range' a k).takeWhile p = List.range' a m ∧
      (List.range' a k).dropWhile p = List.range' (a + m) (k - m) ∧
      (∀ t, a ≤ t → t < a + m → p t = true) ∧
      (m < k → p (a + m) = false) := by
  intro k
  induction k with
  | zero =>
    intro a
    exact ⟨0, le_refl 0, rfl, rfl, fun t h1 h2 => absurd (lt_of_le_of_lt h1 h2)
      (by omega), fun h => absurd h (lt_irrefl 0)⟩
  | succ k ih =>
    intro a
    by_cases hp : p a
    · obtain ⟨m, hm, ht, hd, hall, hb⟩ := ih (a + 1)
      refine ⟨m + 1, by omega, ?_, ?_, ?_, ?_⟩
      · rw [List.range'_succ, List.takeWhile_cons_of_pos hp, ht, List.range'_succ]
      · rw [List.range'_succ, List.dropWhile_cons_of_pos hp, hd]
        congr 1 <;> omega
      · intro t h1 h2
        rcases Nat.eq_or_lt_of_le h1 with h3 | h3
        · exact h3 ▸ hp
        · exact hall t h3 (by omega)
      · intro h
        have := hb (by omega)
        rw [show a + (m + 1) = a + 1 + m by omega]
        exact this
    · refine ⟨0, by omega, ?_, ?_, ?_, ?_⟩
      · rw [List.range'_succ, List.takeWhile_cons_of_neg hp]
        rfl
      · rw [List.range'_succ, List.dropWhile_cons_of_neg hp, ← List.range'_succ]
        congr 1 <;> try omega
      · intro t h1 h2
        omega
      · intro _
        simpa using hp

theorem rootsF_cons (t : RTree) (ts : List RTree) :
    rootsF (t :: ts) = t.idx :: rootsF ts := rfl

theorem pairsF_cons (t : RTree) (ts : List RTree) :
    pairsF (t :: ts) = pairsT t ++ pairsF ts := rfl

theorem pairsT_node (i : Nat) (kids : List RTree) :
    pairsT (.node i kids) = pairsKids i kids := rfl

theorem mem_pairsKids :
    ∀ (pr : Nat × Nat) (p : Nat) (ts : List RTree),
      pr ∈ pairsKids p ts ↔ (pr.1 = p ∧ pr.2 ∈ rootsF ts) ∨ pr ∈ pairsF ts := by
  rintro ⟨a, b⟩ p ts
  induction ts with
  | nil => simp [pairsKids, pairsF, rootsF]
  | cons t ts ih =>
    obtain ⟨i, kids⟩ := t
    simp only [pairsKids, pairsT_node, pairsF_cons, rootsF_cons, RTree.idx,
      List.mem_cons, List.mem_append, Prod.mk.injEq, ih] at *
    tauto

theorem roots_buildT (ds : List Nat) :
    ∀ k f a, k < f →
      ∀ j, j ∈ rootsF (buildT ds f (List.range' a k)) ↔
        (a ≤ j ∧ j < a + k ∧
          ∀ t, a ≤ t → t < j → ¬(ds.getD t 0 < ds.getD j 0)) := by
  intro k
  induction k using Nat.strong_induction_on with
  | _ k ih =>
    intro f a hf j
    match k, hf with
    | 0, hf =>
      obtain ⟨f2, rfl⟩ : ∃ f2, f = f2 + 1 := ⟨f - 1, by omega⟩
      simp [buildT, rootsF]
      omega
    | k + 1, hf =>
      obtain ⟨f2, rfl⟩ : ∃ f2, f = f2 + 1 := ⟨f - 1, by omega⟩
      rw [List.range'_succ]
      obtain ⟨m, hm, ht, hd, hall, hb⟩ :=
        takeWhile_range' (fun j => decide (ds.getD a 0 < ds.getD j 0)) k (a + 1)
      simp only [buildT, ht, hd, rootsF_cons, List.mem_cons, RTree.idx]
      have hroots := ih (k - m) (by omega) f2 (a + 1 + m) (by omega) j
      rw [hroots]
      constructor
      · rintro (rfl | ⟨h1, h2, h3⟩)
        · exact ⟨le_refl j, by omega, fun t ht1 ht2 => by omega⟩
        · have h5 : m < k := by omega
          have h6 := hb h5
          simp only [decide_eq_false_iff_not] at h6
          have hja : ds.getD j 0 ≤ ds.getD a 0 := by
            rcases Nat.eq_or_lt_of_le h1 with hj1 | hj1
            · rw [← hj1]
              omega
            · have h7 := h3 (a + 1 + m) (le_refl _) hj1
              omega
          refine ⟨by omega, by omega, fun t ht1 ht2 => ?_⟩
          by_cases htm : a + 1 + m ≤ t
          · exact h3 t htm ht2
          · rcases Nat.eq_or_lt_of_le ht1 with h4 | h4
            · rw [← h4]
              omega
            · have h8 := hall t (by omega) (by omega)
              simp only [decide_eq_true_eq] at h8
              omega
      · rintro ⟨h1, h2, h3⟩
        rcases Nat.eq_or_lt_of_le h1 with h4 | h4
        · exact Or.inl h4.symm
        · right
          by_cases hj : j < a + 1 + m
          · exfalso
            have h8 := hall j (by omega) (by omega)
            simp only [decide_eq_true_eq] at h8
            exact h3 a (by omega) (by omega) h8
          · exact ⟨by omega, by omega, fun t ht1 ht2 => h3 t (by omega) ht2⟩

theorem pairs_buildT (ds : List Nat) :
    ∀ k f a, k < f →
      ∀ i j, (i, j) ∈ pairsF (buildT ds f (List.range' a k)) ↔
        (a ≤ i ∧ i < j ∧ j < a + k ∧ ds.getD i 0 < ds.getD j 0 ∧
          ∀ t, i < t → t < j → ¬(ds.getD t 0 < ds.getD j 0)) := by
  intro k
  induction k using Nat.strong_induction_on with
  | _ k ih =>
    intro f a hf i j
    match k, hf with
    | 0, hf =>
      obtain ⟨f2, rfl⟩ : ∃ f2, f = f2 + 1 := ⟨f - 1, by omega⟩
      simp [buildT, pairsF]
      omega
    | k + 1, hf =>
      obtain ⟨f2, rfl⟩ : ∃ f2, f = f2 + 1 := ⟨f - 1, by omega⟩
      rw [List.range'_succ]
      obtain ⟨m, hm, ht, hd, hall, hb⟩ :=
        takeWhile_range' (fun j => decide (ds.getD a 0 < ds.getD j 0)) k (a + 1)
      simp only [buildT, ht, hd, pairsF_cons, pairsT_node, List.mem_append,
        mem_pairsKids]
      have hkidsP := ih m (by omega) f2 (a + 1) (by omega) i j
      have hsibsP := ih (k - m) (by omega) f2 (a + 1 + m) (by omega) i j
      have hkidsR := roots_buildT ds m f2 (a + 1) (by omega) j
      constructor
      · rintro ((⟨hi, hj⟩ | hpk) | hps)
        · have hi2 : i = a := hi
          have hj2 : j ∈ rootsF (buildT ds f2 (List.range' (a + 1) m)) := hj
          rw [hkidsR] at hj2
          obtain ⟨hj1, hj2b, hj3⟩ := hj2
          have h8 := hall j (by omega) (by omega)
          simp only [decide_eq_true_eq] at h8
          subst hi2
          exact ⟨le_refl _, by omega, by omega, h8,
            fun t ht1 ht2 => hj3 t (by omega) ht2⟩
        · rw [hkidsP] at hpk
          obtain ⟨p1, p2, p3, p4, p5⟩ := hpk
          exact ⟨by omega, p2, by omega, p4, p5⟩
        · rw [hsibsP] at hps
          obtain ⟨p1, p2, p3, p4, p5⟩ := hps
          exact ⟨by omega, p2, by omega, p4, p5⟩
      · rintro ⟨h1, h2, h3, h4, h5⟩
        rcases Nat.eq_or_lt_of_le h1 with h6 | h6
        · left
          left
          subst h6
          refine ⟨rfl, ?_⟩
          show j ∈ rootsF (buildT ds f2 (List.range' (a + 1) m))
          rw [hkidsR]
          have hjk : j < a + 1 + m := by
            by_contra hjm
            push_neg at hjm
            have h9 : m < k := by omega
            have h10 := hb h9
            simp only [decide_eq_false_iff_not] at h10
            rcases Nat.eq_or_lt_of_le hjm with h11 | h11
            · rw [h11] at h10
              omega
            · exact h5 (a + 1 + m) (by omega) (by omega) (by omega)
          exact ⟨by omega, by omega, fun t ht1 ht2 => h5 t (by omega) ht2⟩
        · by_cases hik : i < a + 1 + m
          · left
            right
            rw [hkidsP]
            have hia := hall i (by omega) (by omega)
            simp only [decide_eq_true_eq] at hia
            have hjk : j < a + 1 + m := by
              by_contra hjm
              push_neg at hjm
              have h9 : m < k := by omega
              have h10 := hb h9
              simp only [decide_eq_false_iff_not] at h10
              rcases Nat.eq_or_lt_of_le hjm with h11 | h11
              · rw [h11] at h10
                omega
              · exact h5 (a + 1 + m) (by omega) (by omega) (by omega)
            exact ⟨by omega, h2, hjk, h4, h5⟩
          · right
            rw [hsibsP]
            exact ⟨by omega, h2, by omega, h4, h5⟩

theorem getLast?_filter_range (p : Nat → Bool) :
    ∀ j i : Nat, ((List.range j).filter p).getLast? = some i ↔
      (i < j ∧ p i = true ∧ ∀ t, i < t → t < j → p t = false) := by
  intro j
  induction j with
  | zero => simp
  | succ j ih =>
    intro i
    rw [List.range_succ, List.filter_append]
    by_cases hp : p j
    · simp only [List.filter_cons, hp, if_pos, List.filter_nil,
        List.getLast?_concat, Option.some.injEq]
      constructor
      · rintro rfl
        exact ⟨by omega, hp, fun t ht1 ht2 => by omega⟩
      · rintro ⟨h1, h2, h3⟩
        rcases Nat.lt_or_ge i j with h4 | h4
        · have := h3 j h4 (by omega)
          rw [hp] at this
          cases this
        · omega
    · simp only [List.filter_cons, hp, List.filter_nil, List.append_nil,
        if_neg, Bool.false_eq_true, not_false_iff, ih i]
      constructor
      · rintro ⟨h1, h2, h3⟩
        refine ⟨by omega, h2, fun t ht1 ht2 => ?_⟩
        rcases Nat.lt_or_ge t j with h4 | h4
        · exact h3 t ht1 h4
        · have : t = j := by omega
          subst this
          simpa using hp
      · rintro ⟨h1, h2, h3⟩
        rcases Nat.lt_or_ge i j with h4 | h4
        · exact ⟨h4, h2, fun t ht1 ht2 => h3 t ht1 (by omega)⟩
        · have : i = j := by omega
          subst this
          rw [h2] at hp
          cases hp rfl

/-- C5: in every forest built by the plan parser, the node of line index j
is a direct child of node i exactly when i is the nearest preceding line
of strictly smaller indentation depth (universally over all depth lists);
parse_plan is exactly the substitution of parsed node data into this index
forest; and in the two-line example the second, deeper, arrow-marked line
becomes the sole child of the first. -/
theorem claim_c5_nesting_by_indentation :
    (∀ (ds : List Nat) (i j : Nat),
        (i, j) ∈ pairsF (buildT ds (ds.length + 1) (List.range ds.length)) ↔
          parentSpec ds j = some i) ∧
    (∀ s gs, planGroups s = .ok gs →
        parse_explain s = .ok (substF gs (buildT (gs.map (fun g => g.1))
          (gs.length + 1) (List.range gs.length)))) ∧
    parse_explain "Nested Loop  (cost=1.00..2.50 rows=10 width=8)\n  ->  Seq Scan on t  (cost=0.00..1.00 rows=5 width=4)" =
      .ok [PlanNode.mk ⟨"Nested Loop".data, none, ⟨100, 2⟩, ⟨250, 2⟩, 10, 8, none, none⟩ []
        [PlanNode.mk ⟨"Seq Scan".data, some "t".data, ⟨0, 2⟩, ⟨100, 2⟩, 5, 4, none, none⟩ [] []]] := by
  refine ⟨fun ds i j => ?_, fun s gs h => ?_, by rfl⟩
  · rw [List.range_eq_range',
      pairs_buildT ds ds.length (ds.length + 1) 0 (by omega) i j,
      parentSpec, getLast?_filter_range]
    constructor
    · rintro ⟨h1, h2, h3, h4, h5⟩
      exact ⟨h2, by simpa using h4, fun t ht1 ht2 => by simpa using h5 t ht1 ht2⟩
    · rintro ⟨h1, h2, h3⟩
      simp only [decide_eq_true_eq] at h2
      have hj : j < ds.length := by
        by_contra hj
        push_neg at hj
        rw [List.getD_eq_default ds 0 (show ds.length ≤ j by omega)] at h2
        omega
      exact ⟨by omega, h1, by omega, h2,
        fun t ht1 ht2 => by simpa using h3 t ht1 ht2⟩
  · simp [parse_explain, h]

/-! ## Lexer round trip

Infrastructure for C1: rendering a well-formed token sequence and lexing
it back returns exactly the same tokens. -/

/-- Symbol texts the formatter can emit. -/
def symList : List (List Char) :=
  ["(".data, ")".data, ",".data, ".".data, "*".data, "=".data, "<".data,
   ">".data, "<=".data, ">=".data, "<>".data, "+".data, "-".data,
   "/".data, "%".data, "::".data]

/-- Well-formedness of a single canonical token. -/
def wfTok : STok → Prop
  | ⟨.kw, t⟩ => t ∈ kwList
  | ⟨.id, _⟩ => True
  | ⟨.str, _⟩ => True
  | ⟨.num, t⟩ => numShapeB t = true
  | ⟨.sym, t⟩ => t ∈ symList

def wfToks (ts : List STok) : Prop := ∀ t ∈ ts, wfTok t

/-- The remainder after a token must be empty or start with whitespace. -/
def wsHead : List Char → Prop
  | [] => True
  | c :: _ => c.isWhitespace = true

theorem ws_enum {c : Char} (h : c.isWhitespace = true) :
    c = ' ' ∨ c = '\t' ∨ c = '\r' ∨ c = '\n' := by
  simp [Char.isWhitespace] at h
  tauto

theorem wordStart_not_ws {c : Char} (h : isWordStart c = true) :
    c.isWhitespace = false := by
  by_contra hw
  simp only [Bool.not_eq_false] at hw
  rcases ws_enum hw with rfl | rfl | rfl | rfl <;> simp [isWordStart] at h

theorem wordStart_ne {c : Char} (h : isWordStart c = true) :
    c ≠ '-' ∧ c ≠ '/' ∧ c ≠ '\'' ∧ c ≠ '"' := by
  refine ⟨?_, ?_, ?_, ?_⟩ <;> rintro rfl <;> simp [isWordStart] at h

theorem wordStart_wordChar {c : Char} (h : isWordStart c = true) :
    isWordChar c = true := by
  simp only [isWordStart, Bool.or_eq_true] at h
  simp only [isWordChar, Char.isAlphanum, Bool.or_eq_true]
  rcases h with h | h
  · exact Or.inl (Or.inl h)
  · exact Or.inr h

theorem digit_not_wordStart {c : Char} (h : c.isDigit = true) :
    isWordStart c = false := by
  by_contra hw
  simp only [Bool.not_eq_false] at hw
  simp only [isWordStart, Bool.or_eq_true, beq_iff_eq] at hw
  rcases hw with hw | hw
  · simp only [Char.isAlpha, Char.isUpper, Char.isLower, Bool.or_eq_true,
      Bool.and_eq_true, decide_eq_true_eq] at hw
    simp only [Char.isDigit, Bool.and_eq_true, decide_eq_true_eq] at h
    rcases hw with ⟨h1, _⟩ | ⟨h1, _⟩ <;>
      exact absurd (UInt32.le_trans h1 h.2) (by decide)
  · subst hw
    exact absurd h (by decide)

theorem digit_not_ws {c : Char} (h : c.isDigit = true) :
    c.isWhitespace = false := by
  by_contra hw
  simp only [Bool.not_eq_false] at hw
  rcases ws_enum hw with rfl | rfl | rfl | rfl <;> exact absurd h (by decide)

theorem digit_ne {c : Char} (h : c.isDigit = true) :
    c ≠ '-' ∧ c ≠ '/' ∧ c ≠ '\'' ∧ c ≠ '"' := by
  refine ⟨?_, ?_, ?_, ?_⟩ <;> rintro rfl <;> exact absurd h (by decide)

theorem digit_wordChar {c : Char} (h : c.isDigit = true) :
    isWordChar c = true := by
  simp [isWordChar, Char.isAlphanum, h]

theorem ws_not_wordChar {c : Char} (h : c.isWhitespace = true) :
    isWordChar c = false := by
  rcases ws_enum h with rfl | rfl | rfl | rfl <;> decide

theorem ws_not_digit {c : Char} (h : c.isWhitespace = true) :
    c.isDigit = false := by
  rcases ws_enum h with rfl | rfl | rfl | rfl <;> decide

theorem ws_ne {c : Char} (h : c.isWhitespace = true) :
    c ≠ '-' ∧ c ≠ '/' ∧ c ≠ '\'' ∧ c ≠ '"' ∧ isWordStart c = false := by
  rcases ws_enum h with rfl | rfl | rfl | rfl <;> exact ⟨by decide, by decide,
    by decide, by decide, by decide⟩

theorem wsHead_head_ne {tail : List Char} (h : wsHead tail) (c : Char)
    (hc : c.isWhitespace = false) : tail.head? ≠ some c := by
  cases tail with
  | nil => simp
  | cons x xs =>
    intro hx
    have hxc : x = c := by simpa using hx
    have h2 : x.isWhitespace = true := h
    rw [hxc] at h2
    rw [h2] at hc
    cases hc

/-- Scanning the escaped content of a quoted region recovers the content
when the remainder does not begin with the quote character. -/
theorem takeQuoted_escQ (q : Char) :
    ∀ (s tail : List Char), tail.head? ≠ some q →
      takeQuoted q (escQ q s ++ q :: tail) = some (s, tail)
  | [], tail, h => by
    cases tail with
    | nil => simp [escQ, takeQuoted]
    | cons c cs =>
      have hcq : ¬(c = q) := fun hc => h (by simp [hc])
      simp [escQ, takeQuoted, hcq]
  | c :: s, tail, h => by
    by_cases hc : c = q
    · subst hc
      simp only [escQ, if_pos, List.cons_append]
      rw [show takeQuoted c (c :: c :: (escQ c s ++ c :: tail)) =
          (takeQuoted c (escQ c s ++ c :: tail)).map
            (fun r => (c :: r.1, r.2)) by
          conv_lhs => rw [takeQuoted.eq_def]
          simp]
      rw [takeQuoted_escQ c s tail h]
      rfl
    · rw [show escQ q (c :: s) = c :: escQ q s by simp [escQ, hc],
        List.cons_append,
        show takeQuoted q (c :: (escQ q s ++ q :: tail)) =
          (takeQuoted q (escQ q s ++ q :: tail)).map
            (fun r => (c :: r.1, r.2)) by
          conv_lhs => rw [takeQuoted.eq_def]
          simp [hc]]
      rw [takeQuoted_escQ q s tail h]
      rfl

/-- Lexing skips one leading whitespace character. -/
theorem lexRun_ws {c : Char} (h : c.isWhitespace = true) (f : Nat)
    (cs : List Char) : lexRun (f + 1) (c :: cs) = lexRun f cs := by
  obtain ⟨h1, h2, h3, h4, h5⟩ := ws_ne h
  simp [lexRun, h, h1, h2, h3, h4]

/-- Lexing a word token at the head of the input. -/
theorem lexRun_word (c : Char) (w tail : List Char) (f : Nat)
    (hs : isWordStart c = true) (hW : ∀ x ∈ w, isWordChar x = true)
    (ht : wsHead tail) :
    lexRun (f + 1) (c :: (w ++ tail)) =
      (lexRun f tail).map (fun ts =>
        ⟨if isKw (c :: w) then TK.kw else TK.id, c :: w⟩ :: ts) := by
  obtain ⟨h1, h2, h3, h4⟩ := wordStart_ne hs
  have hspan : spanP isWordChar (c :: (w ++ tail)) = (c :: w, tail) := by
    have := spanP_append isWordChar (c :: w) tail
      (fun x hx => by
        rcases List.mem_cons.mp hx with rfl | hx
        · exact wordStart_wordChar hs
        · exact hW x hx)
      (fun x hx => by
        cases tail with
        | nil => simp at hx
        | cons y ys =>
          simp only [List.head?_cons, Option.some.injEq] at hx
          subst hx
          exact ws_not_wordChar ht)
    simpa using this
  simp only [lexRun, h1, h2, h3, h4, wordStart_not_ws hs, hs, hspan,
    false_and, if_neg, if_pos, Bool.false_eq_true, not_false_iff, if_true]
  split <;> rfl

theorem ws_ne_num {c : Char} (h : c.isWhitespace = true) :
    c ≠ '.' ∧ c ≠ 'e' ∧ c ≠ 'E' := by
  rcases ws_enum h with rfl | rfl | rfl | rfl <;>
    exact ⟨by decide, by decide, by decide⟩

/-- Lexing a numeric token (integer, decimal or exponent form) at the head
of the input. -/
theorem lexRun_num (c : Char) (w fp ex tail : List Char) (f : Nat)
    (hc : c.isDigit = true) (hw : ∀ x ∈ w, x.isDigit = true)
    (hfp : fp = [] ∨ ∃ d ds, fp = '.' :: d :: ds ∧ d.isDigit = true ∧
      ∀ x ∈ ds, x.isDigit = true)
    (hex : ex = [] ∨ ∃ m r0, ex = m :: r0 ∧ (m = 'e' ∨ m = 'E') ∧
      ((∃ d ds, r0 = d :: ds ∧ d.isDigit = true ∧
          ∀ x ∈ ds, x.isDigit = true) ∨
       (∃ sg d ds, r0 = sg :: d :: ds ∧ (sg = '+' ∨ sg = '-') ∧
          d.isDigit = true ∧ ∀ x ∈ ds, x.isDigit = true)))
    (ht : wsHead tail) :
    lexRun (f + 1) (c :: (w ++ fp ++ ex ++ tail)) =
      (lexRun f tail).map (fun ts => ⟨TK.num, c :: (w ++ fp ++ ex)⟩ :: ts) := by
  obtain ⟨h1, h2, h3, h4⟩ := digit_ne hc
  have hexstop : ∀ x, (ex ++ tail).head? = some x → x.isDigit = false := by
    intro x hx
    rcases hex with rfl | ⟨m, r0, rfl, hm, _⟩
    · rw [List.nil_append] at hx
      cases tail with
      | nil => simp at hx
      | cons y ys =>
        simp only [List.head?_cons, Option.some.injEq] at hx
        subst hx
        exact ws_not_digit ht
    · simp only [List.cons_append, List.head?_cons, Option.some.injEq] at hx
      subst hx
      rcases hm with rfl | rfl <;> decide
  have hfpstop : ∀ x, (fp ++ (ex ++ tail)).head? = some x →
      x.isDigit = false := by
    intro x hx
    rcases hfp with rfl | ⟨d, ds, rfl, _, _⟩
    · rw [List.nil_append] at hx
      exact hexstop x hx
    · simp only [List.cons_append, List.head?_cons, Option.some.injEq] at hx
      subst hx
      decide
  have htailstop : ∀ x, tail.head? = some x → x.isDigit = false := by
    intro x hx
    cases tail with
    | nil => simp at hx
    | cons y ys =>
      simp only [List.head?_cons, Option.some.injEq] at hx
      subst hx
      exact ws_not_digit ht
  have hspan : spanP Char.isDigit (c :: (w ++ (fp ++ (ex ++ tail)))) =
      (c :: w, fp ++ (ex ++ tail)) := by
    have := spanP_append Char.isDigit (c :: w) (fp ++ (ex ++ tail))
      (fun x hx => by
        rcases List.mem_cons.mp hx with rfl | hx
        · exact hc
        · exact hw x hx) hfpstop
    simpa using this
  have hfrac : numFrac (fp ++ (ex ++ tail)) = (fp, ex ++ tail) := by
    rcases hfp with rfl | ⟨d, ds, rfl, hd, hds⟩
    · rw [List.nil_append]
      refine numFrac_stop (ex ++ tail) ?_
      intro x hx
      rcases hex with rfl | ⟨m, r0, rfl, hm, _⟩
      · rw [List.nil_append] at hx
        cases tail with
        | nil => simp at hx
        | cons y ys =>
          simp only [List.head?_cons, Option.some.injEq] at hx
          subst hx
          exact (ws_ne_num ht).1
      · simp only [List.cons_append, List.head?_cons, Option.some.injEq] at hx
        subst hx
        rcases hm with rfl | rfl <;> decide
    · rw [show ('.' :: d :: ds) ++ (ex ++ tail) =
        '.' :: d :: (ds ++ (ex ++ tail)) by simp]
      exact numFrac_frac d ds (ex ++ tail) hd hds hexstop
  have hexp : numExp (ex ++ tail) = (ex, tail) := by
    rcases hex with rfl | ⟨m, r0, rfl, hm, hshape⟩
    · rw [List.nil_append]
      refine numExp_stop tail ?_
      intro x hx
      cases tail with
      | nil => simp at hx
      | cons y ys =>
        simp only [List.head?_cons, Option.some.injEq] at hx
        subst hx
        exact ⟨(ws_ne_num ht).2.1, (ws_ne_num ht).2.2⟩
    · rcases hshape with ⟨d, ds, rfl, hd, hds⟩ | ⟨sg, d, ds, rfl, hsg, hd, hds⟩
      · rw [show (m :: d :: ds) ++ tail = m :: d :: (ds ++ tail) by simp]
        exact numExp_plain m d ds tail hm hd hds htailstop
      · rw [show (m :: sg :: d :: ds) ++ tail =
          m :: sg :: d :: (ds ++ tail) by simp]
        exact numExp_sign m sg d ds tail hm hsg hd hds htailstop
  simp [lexRun, h1, h2, h3, h4, digit_not_ws hc, digit_not_wordStart hc,
    hc, hspan, hfrac, hexp]

/-- Lexing a bare digit-run numeric token at the head of the input. -/
theorem lexRun_digits (c : Char) (w tail : List Char) (f : Nat)
    (hs : c.isDigit = true) (hW : ∀ x ∈ w, x.isDigit = true)
    (ht : wsHead tail) :
    lexRun (f + 1) (c :: (w ++ tail)) =
      (lexRun f tail).map (fun ts => ⟨TK.num, c :: w⟩ :: ts) := by
  have := lexRun_num c w [] [] tail f hs hW (Or.inl rfl) (Or.inl rfl) ht
  simpa using this

/-- Lexing a string literal at the head of the input. -/
theorem lexRun_str (s tail : List Char) (f : Nat) (ht : wsHead tail) :
    lexRun (f + 1) ('\'' :: (escQ '\'' s ++ '\'' :: tail)) =
      (lexRun f tail).map (fun ts => ⟨TK.str, s⟩ :: ts) := by
  have hq := takeQuoted_escQ '\'' s tail
    (wsHead_head_ne ht '\'' (by decide))
  simp [lexRun, hq]

/-- Lexing a quoted identifier at the head of the input. -/
theorem lexRun_qid (s tail : List Char) (f : Nat) (ht : wsHead tail) :
    lexRun (f + 1) ('"' :: (escQ '"' s ++ '"' :: tail)) =
      (lexRun f tail).map (fun ts => ⟨TK.id, s⟩ :: ts) := by
  have hq := takeQuoted_escQ '"' s tail
    (wsHead_head_ne ht '"' (by decide))
  simp [lexRun, hq]

/-- Lexing a symbol token at the head of the input. -/
theorem lexRun_sym (w : List Char) (hw : w ∈ symList) (tail : List Char)
    (f : Nat) (ht : wsHead tail) :
    lexRun (f + 1) (w ++ tail) =
      (lexRun f tail).map (fun ts => ⟨.sym, w⟩ :: ts) := by
  have h1 := wsHead_head_ne ht '-' (by decide)
  have h2 := wsHead_head_ne ht '*' (by decide)
  have h3 := wsHead_head_ne ht '=' (by decide)
  have h4 := wsHead_head_ne ht '>' (by decide)
  have h5 := wsHead_head_ne ht ':' (by decide)
  simp only [symList, List.mem_cons, List.not_mem_nil, or_false] at hw
  rcases hw with rfl | rfl | rfl | rfl | rfl | rfl | rfl | rfl | rfl | rfl |
    rfl | rfl | rfl | rfl | rfl | rfl <;>
    simp +decide [lexRun, h1, h2, h3, h4, h5]

theorem kwList_wf : ∀ w ∈ kwList, w ≠ [] ∧ isWordStart (w.headD 'A') = true ∧
    (∀ x ∈ w.tail, isWordChar x = true) ∧ isKw w = true := by decide

theorem symList_ne_nil : ∀ w ∈ symList, w ≠ [] := by decide

/-- The canonical text of a well-formed token is never empty. -/
theorem tokText_ne_nil (t : STok) (h : wfTok t) : tokText t ≠ [] := by
  obtain ⟨k, w⟩ := t
  cases k
  case kw => exact fun he => (kwList_wf w h).1 (by simpa [tokText] using he)
  case id =>
    simp only [tokText]
    split
    · simp
    · rename_i hq
      cases w with
      | nil => simp [needsQuote] at hq
      | cons c cs => simp
  case str => simp [tokText]
  case num =>
    have h2 : numShapeB w = true := h
    exact fun he => numShapeB_ne_nil h2 (by simpa [tokText] using he)
  case sym => exact fun he => symList_ne_nil w h (by simpa [tokText] using he)

/-- When an identifier does not need quoting its text is a bare word. -/
theorem needsQuote_false {w : List Char} (h : needsQuote w = false) :
    ∃ c w2, w = c :: w2 ∧ isWordStart c = true ∧
      (∀ x ∈ w2, isWordChar x = true) ∧ isKw (c :: w2) = false := by
  cases w with
  | nil => simp [needsQuote] at h
  | cons c w2 =>
    simp only [needsQuote, Bool.not_eq_false', Bool.and_eq_true,
      Bool.not_eq_true', List.all_eq_true] at h
    exact ⟨c, w2, rfl, h.1.1, h.1.2, h.2⟩

/-- Lexing the canonical text of one well-formed token. -/
theorem lexRun_tokText (t : STok) (hw : wfTok t) (tail : List Char) (f : Nat)
    (ht : wsHead tail) :
    lexRun (f + 1) (tokText t ++ tail) =
      (lexRun f tail).map (fun ts => t :: ts) := by
  obtain ⟨k, w⟩ := t
  cases k
  case kw =>
    obtain ⟨hne, hhead, htail2, hkw⟩ := kwList_wf w hw
    obtain ⟨c, w2, rfl⟩ : ∃ c w2, w = c :: w2 := by
      cases w with
      | nil => exact absurd rfl hne
      | cons c w2 => exact ⟨c, w2, rfl⟩
    rw [show tokText ⟨.kw, c :: w2⟩ = c :: w2 from rfl, List.cons_append,
      lexRun_word c w2 tail f (by simpa using hhead)
        (fun x hx => htail2 x (by simpa using hx)) ht]
    simp [hkw]
  case id =>
    by_cases hq : needsQuote w
    · rw [show tokText ⟨.id, w⟩ = '"' :: escQ '"' w ++ ['"'] by
        simp [tokText, hq]]
      rw [show ('"' :: escQ '"' w ++ ['"']) ++ tail =
        '"' :: (escQ '"' w ++ '"' :: tail) by simp]
      exact lexRun_qid w tail f ht
    · obtain ⟨c, w2, rfl, hh, hws, hkw⟩ :=
        needsQuote_false (Bool.not_eq_true _ ▸ hq : needsQuote w = false)
      rw [show tokText ⟨.id, c :: w2⟩ = c :: w2 by
        simp [tokText, Bool.not_eq_true _ ▸ hq]]
      rw [List.cons_append, lexRun_word c w2 tail f hh hws ht]
      simp [hkw]
  case str =>
    rw [show tokText ⟨.str, w⟩ = '\'' :: escQ '\'' w ++ ['\''] from rfl]
    rw [show ('\'' :: escQ '\'' w ++ ['\'']) ++ tail =
      '\'' :: (escQ '\'' w ++ '\'' :: tail) by simp]
    exact lexRun_str w tail f ht
  case num =>
    have h2 : numShapeB w = true := hw
    obtain ⟨c, w2, fp, ex, rfl, hc, hw2, hfp, hex⟩ := numShapeB_decomp h2
    rw [show tokText ⟨.num, c :: (w2 ++ fp ++ ex)⟩ = c :: (w2 ++ fp ++ ex)
      from rfl]
    rw [show (c :: (w2 ++ fp ++ ex)) ++ tail = c :: (w2 ++ fp ++ ex ++ tail)
      by simp]
    exact lexRun_num c w2 fp ex tail f hc hw2 hfp hex ht
  case sym =>
    rw [show tokText ⟨.sym, w⟩ = w from rfl]
    exact lexRun_sym w hw tail f ht

/-- Rendering a well-formed token list and lexing it back returns exactly
the token list. -/
theorem lexRun_render : ∀ (ts : List STok) (f : Nat), wfToks ts →
    (renderToks ts).length < f → lexRun f (renderToks ts) = .ok ts
  | [], f, _, hf => by
    obtain ⟨g, rfl⟩ : ∃ g, f = g + 1 := ⟨f - 1, by omega⟩
    rfl
  | [t], f, hwf, hf => by
    obtain ⟨g, rfl⟩ : ∃ g, f = g + 1 := ⟨f - 1, by omega⟩
    have h1 : 1 ≤ (tokText t).length :=
      List.length_pos.mpr (tokText_ne_nil t (hwf t (by simp)))
    rw [show renderToks [t] = tokText t ++ [] by simp [renderToks]]
    rw [lexRun_tokText t (hwf t (by simp)) [] g trivial]
    obtain ⟨g2, rfl⟩ : ∃ g2, g = g2 + 1 := by
      refine ⟨g - 1, ?_⟩
      simp only [renderToks] at hf
      omega
    rfl
  | t :: t2 :: rest, f, hwf, hf => by
    obtain ⟨g, rfl⟩ : ∃ g, f = g + 1 := ⟨f - 1, by omega⟩
    have h1 : 1 ≤ (tokText t).length :=
      List.length_pos.mpr (tokText_ne_nil t (hwf t (by simp)))
    have hsep : ((if isClauseTok t2 || isSymT "," t then '\n' else ' ')).isWhitespace = true := by
      split <;> decide
    rw [show renderToks (t :: t2 :: rest) = tokText t ++
      ((if isClauseTok t2 || isSymT "," t then '\n' else ' ') :: renderToks (t2 :: rest))
      from rfl]
    rw [lexRun_tokText t (hwf t (by simp)) _ g
      (show wsHead ((if isClauseTok t2 || isSymT "," t then '\n' else ' ') ::
        renderToks (t2 :: rest)) from hsep)]
    obtain ⟨g2, rfl⟩ : ∃ g2, g = g2 + 1 := by
      refine ⟨g - 1, ?_⟩
      simp only [renderToks, List.length_append, List.length_cons] at hf ⊢
      omega
    rw [lexRun_ws hsep g2]
    rw [lexRun_render (t2 :: rest) g2 (fun x hx => hwf x (by simp [List.mem_cons] at hx ⊢; tauto)) ?_]
    · rfl
    · simp only [renderToks, List.length_append, List.length_cons] at hf ⊢
      omega

/-- Tokenizing the rendering of a well-formed token list is the identity. -/
theorem tokenize_render (ts : List STok) (hwf : wfToks ts) :
    tokenize (renderToks ts) = .ok ts :=
  lexRun_render ts ((renderToks ts).length + 1) hwf (by omega)

/-! ## Numeric literal round trip -/

theorem digitOf_toNat : ∀ k : Nat, k < 10 → (digitOf k).toNat = 48 + k := by
  intro k hk
  interval_cases k <;> rfl

theorem digitOf_isDigit : ∀ k : Nat, k < 10 → (digitOf k).isDigit = true := by
  intro k hk
  interval_cases k <;> rfl

theorem natOfDigits_append_one (a : List Char) (c : Char) :
    natOfDigits (a ++ [c]) = 10 * natOfDigits a + (c.toNat - 48) := by
  simp [natOfDigits, List.foldl_append]
  omega

theorem natDigitsAux_inv : ∀ f n, n < f → natOfDigits (natDigitsAux f n) = n := by
  intro f
  induction f with
  | zero => intro n hn; omega
  | succ f2 ih =>
    intro n hn
    rw [natDigitsAux]
    split
    · rename_i hlt
      have hd := digitOf_toNat n hlt
      simp [natOfDigits, hd]
      try omega
    · rename_i hge
      have h10 : 10 ≤ n := by omega
      have hdiv : n / 10 < f2 := by
        have := Nat.div_lt_self (show 0 < n by omega) (show 1 < 10 by omega)
        omega
      rw [natOfDigits_append_one, ih (n / 10) hdiv,
        digitOf_toNat (n % 10) (Nat.mod_lt n (by omega))]
      omega

theorem natOfDigits_natDigits (n : Nat) : natOfDigits (natDigits n) = n :=
  natDigitsAux_inv (n + 1) n (by omega)

theorem natDigitsAux_digits : ∀ f n c, c ∈ natDigitsAux f n → c.isDigit = true := by
  intro f
  induction f with
  | zero => intro n c hc; simp [natDigitsAux] at hc
  | succ f2 ih =>
    intro n c hc
    rw [natDigitsAux] at hc
    split at hc
    · rename_i hlt
      simp at hc
      subst hc
      exact digitOf_isDigit n hlt
    · rcases List.mem_append.mp hc with h1 | h2
      · exact ih _ _ h1
      · simp at h2
        subst h2
        exact digitOf_isDigit _ (Nat.mod_lt n (by omega))

/-! ## Parser-reachable abstract syntax

A statement produced by the parser at subquery ceiling d satisfies these
predicates: the star expression appears only as a select item or a
whole function-argument list, the item, column and value lists that the
grammar requires to be nonempty are nonempty, and subquery nesting is
within the ceiling (each subquery entry consumes one level). -/

def neI : IList → Bool
  | .nilI => false
  | .consI _ _ => true

def neW : WList → Bool
  | .nilW => false
  | .consW _ _ _ => true

mutual

def okE : Nat → Expr → Bool
  | _, .numL t => canonNum t == t
  | _, .strL _ => true
  | _, .col _ _ => true
  | _, .star => false
  | d, .bin _ l r => okE d l && okE d r
  | d, .notE e => okE d e
  | d, .negE e => okE d e
  | d, .castE e _ => okE d e
  | d, .fn _ a => okFA d a
  | d, .subq q => match d with | 0 => false | d2 + 1 => okSel d2 q
  | d, .caseE arms els => neW arms && okW d arms && okOE d els

def okW : Nat → WList → Bool
  | _, .nilW => true
  | d, .consW c r rest => okE d c && okE d r && okW d rest

def okFA : Nat → FArgs → Bool
  | _, .starA => true
  | d, .argsA es => okEL d es

def okEL : Nat → EList → Bool
  | _, .nilE => true
  | d, .consE e es => okE d e && okEL d es

def okOE : Nat → OExpr → Bool
  | _, .noneE => true
  | d, .someE e => okE d e

def okItem : Nat → SelItem → Bool
  | _, .starI => true
  | d, .exprI e _ => okE d e

def okIL : Nat → IList → Bool
  | _, .nilI => true
  | d, .consI it rest => okItem d it && okIL d rest

def okFI : Nat → FromIt → Bool
  | _, .table _ _ => true
  | d, .subT q _ => match d with | 0 => false | d2 + 1 => okSel d2 q

def okJ : Nat → Join → Bool
  | d, .mk _ src onE => okFI d src && okOE d onE

def okJL : Nat → JList → Bool
  | _, .nilJ => true
  | d, .consJ j js => okJ d j && okJL d js

def okOL : Nat → OList → Bool
  | _, .nilO => true
  | d, .consO e _ os => okE d e && okOL d os

def okFP : Nat → FromPart → Bool
  | _, .noneF => true
  | d, .someF fi js => okFI d fi && okJL d js

def okSel : Nat → Sel → Bool
  | d, .mk items fr wh gb hv ob lm off =>
    neI items && okIL d items && okFP d fr && okOE d wh && okEL d gb &&
      okOE d hv && okOL d ob && okOE d lm && okOE d off

end

def okStmt : Nat → Stmt → Bool
  | d, .selectS s ops => okSel d s && ops.all (fun p => okSel d p.2)
  | d, .insertS _ cols vals =>
    !cols.isEmpty && !vals.isEmpty && vals.all (okE d)
  | d, .updateS _ sets wh =>
    !sets.isEmpty && sets.all (fun p => okE d p.2) &&
      (match wh with | none => true | some e => okE d e)
  | d, .deleteS _ wh => match wh with | none => true | some e => okE d e
  | d, .explainS _ _ _ inner => okStmt d inner

/-! ## Formatter output tokens are well formed -/

instance : (t : STok) → Decidable (wfTok t)
  | ⟨.kw, t⟩ => inferInstanceAs (Decidable (t ∈ kwList))
  | ⟨.id, _⟩ => inferInstanceAs (Decidable True)
  | ⟨.str, _⟩ => inferInstanceAs (Decidable True)
  | ⟨.num, t⟩ => inferInstanceAs (Decidable (numShapeB t = true))
  | ⟨.sym, t⟩ => inferInstanceAs (Decidable (t ∈ symList))

instance (ts : List STok) : Decidable (wfToks ts) :=
  inferInstanceAs (Decidable (∀ t ∈ ts, wfTok t))

theorem wfToks_nil : wfToks [] := fun t ht => absurd ht (List.not_mem_nil t)

theorem wfToks_cons {t : STok} {ts : List STok} (h1 : wfTok t)
    (h2 : wfToks ts) : wfToks (t :: ts) := by
  intro u hu
  rcases List.mem_cons.mp hu with rfl | hm
  · exact h1
  · exact h2 u hm

theorem wfToks_append {a b : List STok} (h1 : wfToks a) (h2 : wfToks b) :
    wfToks (a ++ b) := by
  intro u hu
  rcases List.mem_append.mp hu with hm | hm
  · exact h1 u hm
  · exact h2 u hm

theorem wfTok_opTok (o : BinOp) : wfTok (opTok o) := by
  cases o <;> decide

theorem wfToks_joinKw (k : JKind) : wfToks (joinKwToks k) := by
  cases k <;> decide

theorem wfToks_setKw (k : SetKind) : wfToks (setKwToks k) := by
  cases k <;> decide

theorem wfToks_alias (al : Option (List Char)) : wfToks (aliasToks al) := by
  cases al with
  | none => exact wfToks_nil
  | some a =>
    exact wfToks_cons (by decide) (wfToks_cons trivial wfToks_nil)

mutual

theorem wfFmtExpr : ∀ e : Expr, wfToks (fmtExpr e)
  | .numL n => by
    intro t ht
    simp [fmtExpr] at ht
    subst ht
    exact canonNum_shape n
  | .strL _ => by
    intro t ht
    simp [fmtExpr] at ht
    subst ht
    trivial
  | .col none _ => by
    intro t ht
    simp [fmtExpr] at ht
    subst ht
    trivial
  | .col (some _) _ => by
    intro t ht
    simp [fmtExpr] at ht
    rcases ht with rfl | rfl | rfl
    · trivial
    · decide
    · trivial
  | .star => by
    intro t ht
    simp [fmtExpr] at ht
    subst ht
    decide
  | .bin o l r => by
    intro t ht
    simp [fmtExpr] at ht
    rcases ht with rfl | h | rfl | h | rfl
    · decide
    · exact wfFmtExpr l t h
    · exact wfTok_opTok o
    · exact wfFmtExpr r t h
    · decide
  | .notE e => by
    intro t ht
    simp [fmtExpr] at ht
    rcases ht with rfl | rfl | h | rfl
    · decide
    · decide
    · exact wfFmtExpr e t h
    · decide
  | .negE e => by
    intro t ht
    simp [fmtExpr] at ht
    rcases ht with rfl | rfl | h | rfl
    · decide
    · decide
    · exact wfFmtExpr e t h
    · decide
  | .castE e _ => by
    intro t ht
    simp [fmtExpr] at ht
    rcases ht with rfl | h | rfl | rfl | rfl
    · decide
    · exact wfFmtExpr e t h
    · decide
    · trivial
    · decide
  | .fn _ a => by
    intro t ht
    simp [fmtExpr] at ht
    rcases ht with rfl | rfl | h | rfl
    · trivial
    · decide
    · exact wfFmtFArgs a t h
    · decide
  | .subq q => by
    intro t ht
    simp [fmtExpr] at ht
    rcases ht with rfl | h | rfl
    · decide
    · exact wfFmtSel q t h
    · decide
  | .caseE arms els => by
    intro t ht
    simp [fmtExpr] at ht
    rcases ht with rfl | h | h | rfl
    · decide
    · exact wfFmtWhens arms t h
    · exact wfFmtElse els t h
    · decide

theorem wfFmtWhens : ∀ arms : WList, wfToks (fmtWhens arms)
  | .nilW => by
    intro t ht
    simp [fmtWhens] at ht
  | .consW c r rest => by
    intro t ht
    simp [fmtWhens] at ht
    rcases ht with rfl | h | rfl | h | h
    · decide
    · exact wfFmtExpr c t h
    · decide
    · exact wfFmtExpr r t h
    · exact wfFmtWhens rest t h

theorem wfFmtElse : ∀ els : OExpr, wfToks (fmtElse els)
  | .noneE => by
    intro t ht
    simp [fmtElse] at ht
  | .someE e => by
    intro t ht
    simp [fmtElse] at ht
    rcases ht with rfl | h
    · decide
    · exact wfFmtExpr e t h

theorem wfFmtFArgs : ∀ a : FArgs, wfToks (fmtFArgs a)
  | .starA => by
    intro t ht
    simp [fmtFArgs] at ht
    subst ht
    decide
  | .argsA .nilE => by
    intro t ht
    simp [fmtFArgs] at ht
  | .argsA (.consE e es) => by
    intro t ht
    simp [fmtFArgs] at ht
    rcases ht with h | h
    · exact wfFmtExpr e t h
    · exact wfFmtEListMore es t h

theorem wfFmtEListMore : ∀ es : EList, wfToks (fmtEListMore es)
  | .nilE => by
    intro t ht
    simp [fmtEListMore] at ht
  | .consE e es => by
    intro t ht
    simp [fmtEListMore] at ht
    rcases ht with rfl | h | h
    · decide
    · exact wfFmtExpr e t h
    · exact wfFmtEListMore es t h

theorem wfFmtSel : ∀ q : Sel, wfToks (fmtSel q)
  | .mk items fr wh gb hv ob lm off => by
    intro t ht
    simp [fmtSel] at ht
    rcases ht with rfl | h | h | h | h | h | h | h | h
    · decide
    · exact wfFmtItems items t h
    · exact wfFmtFromPart fr t h
    · exact wfFmtOWhere wh t h
    · exact wfFmtGroupBy gb t h
    · exact wfFmtOHaving hv t h
    · exact wfFmtOrderBy ob t h
    · exact wfFmtOLimit lm t h
    · exact wfFmtOOffset off t h

theorem wfFmtItems : ∀ its : IList, wfToks (fmtItems its)
  | .nilI => by
    intro t ht
    simp [fmtItems] at ht
  | .consI it rest => by
    intro t ht
    simp [fmtItems] at ht
    rcases ht with h | h
    · exact wfFmtItem it t h
    · exact wfFmtItemsMore rest t h

theorem wfFmtItemsMore : ∀ its : IList, wfToks (fmtItemsMore its)
  | .nilI => by
    intro t ht
    simp [fmtItemsMore] at ht
  | .consI it rest => by
    intro t ht
    simp [fmtItemsMore] at ht
    rcases ht with rfl | h | h
    · decide
    · exact wfFmtItem it t h
    · exact wfFmtItemsMore rest t h

theorem wfFmtItem : ∀ it : SelItem, wfToks (fmtItem it)
  | .starI => by
    intro t ht
    simp [fmtItem] at ht
    subst ht
    decide
  | .exprI e al => by
    intro t ht
    simp [fmtItem] at ht
    rcases ht with h | h
    · exact wfFmtExpr e t h
    · exact wfToks_alias al t h

theorem wfFmtFromPart : ∀ fr : FromPart, wfToks (fmtFromPart fr)
  | .noneF => by
    intro t ht
    simp [fmtFromPart] at ht
  | .someF fi js => by
    intro t ht
    simp [fmtFromPart] at ht
    rcases ht with rfl | h | h
    · decide
    · exact wfFmtFromIt fi t h
    · exact wfFmtJoins js t h

theorem wfFmtFromIt : ∀ fi : FromIt, wfToks (fmtFromIt fi)
  | .table _ al => by
    intro t ht
    simp [fmtFromIt] at ht
    rcases ht with rfl | h
    · trivial
    · exact wfToks_alias al t h
  | .subT q _ => by
    intro t ht
    simp [fmtFromIt] at ht
    rcases ht with rfl | h | rfl | rfl | rfl
    · decide
    · exact wfFmtSel q t h
    · decide
    · decide
    · trivial

theorem wfFmtJoins : ∀ js : JList, wfToks (fmtJoins js)
  | .nilJ => by
    intro t ht
    simp [fmtJoins] at ht
  | .consJ (.mk k src onE) js => by
    intro t ht
    simp [fmtJoins] at ht
    rcases ht with h | h | h | h
    · exact wfToks_joinKw k t h
    · exact wfFmtFromIt src t h
    · exact wfFmtOnE onE t h
    · exact wfFmtJoins js t h

theorem wfFmtOnE : ∀ oe : OExpr, wfToks (fmtOnE oe)
  | .noneE => by
    intro t ht
    simp [fmtOnE] at ht
  | .someE e => by
    intro t ht
    simp [fmtOnE] at ht
    rcases ht with rfl | h
    · decide
    · exact wfFmtExpr e t h

theorem wfFmtOWhere : ∀ oe : OExpr, wfToks (fmtOWhere oe)
  | .noneE => by
    intro t ht
    simp [fmtOWhere] at ht
  | .someE e => by
    intro t ht
    simp [fmtOWhere] at ht
    rcases ht with rfl | h
    · decide
    · exact wfFmtExpr e t h

theorem wfFmtOHaving : ∀ oe : OExpr, wfToks (fmtOHaving oe)
  | .noneE => by
    intro t ht
    simp [fmtOHaving] at ht
  | .someE e => by
    intro t ht
    simp [fmtOHaving] at ht
    rcases ht with rfl | h
    · decide
    · exact wfFmtExpr e t h

theorem wfFmtOLimit : ∀ oe : OExpr, wfToks (fmtOLimit oe)
  | .noneE => by
    intro t ht
    simp [fmtOLimit] at ht
  | .someE e => by
    intro t ht
    simp [fmtOLimit] at ht
    rcases ht with rfl | h
    · decide
    · exact wfFmtExpr e t h

theorem wfFmtOOffset : ∀ oe : OExpr, wfToks (fmtOOffset oe)
  | .noneE => by
    intro t ht
    simp [fmtOOffset] at ht
  | .someE e => by
    intro t ht
    simp [fmtOOffset] at ht
    rcases ht with rfl | h
    · decide
    · exact wfFmtExpr e t h

theorem wfFmtGroupBy : ∀ es : EList, wfToks (fmtGroupBy es)
  | .nilE => by
    intro t ht
    simp [fmtGroupBy] at ht
  | .consE e es => by
    intro t ht
    simp [fmtGroupBy] at ht
    rcases ht with rfl | rfl | h | h
    · decide
    · decide
    · exact wfFmtExpr e t h
    · exact wfFmtEListMore es t h

theorem wfFmtOrderBy : ∀ os : OList, wfToks (fmtOrderBy os)
  | .nilO => by
    intro t ht
    simp [fmtOrderBy] at ht
  | .consO e asc os => by
    intro t ht
    simp [fmtOrderBy] at ht
    rcases ht with rfl | rfl | h | rfl | h
    · decide
    · decide
    · exact wfFmtExpr e t h
    · cases asc <;> decide
    · exact wfFmtOrderMore os t h

theorem wfFmtOrderMore : ∀ os : OList, wfToks (fmtOrderMore os)
  | .nilO => by
    intro t ht
    simp [fmtOrderMore] at ht
  | .consO e asc os => by
    intro t ht
    simp [fmtOrderMore] at ht
    rcases ht with rfl | h | rfl | h
    · decide
    · exact wfFmtExpr e t h
    · cases asc <;> decide
    · exact wfFmtOrderMore os t h

end

theorem wfFmtExprsC : ∀ l : List Expr, wfToks (fmtExprsC l)
  | [] => by
    intro t ht
    simp [fmtExprsC] at ht
  | [e] => by
    intro t ht
    simp only [fmtExprsC] at ht
    exact wfFmtExpr e t ht
  | e :: e2 :: rest => by
    intro t ht
    simp [fmtExprsC] at ht
    rcases ht with h | rfl | h
    · exact wfFmtExpr e t h
    · decide
    · exact wfFmtExprsC (e2 :: rest) t h

theorem wfFmtAssigns : ∀ l : List (List Char × Expr), wfToks (fmtAssigns l)
  | [] => by
    intro t ht
    simp [fmtAssigns] at ht
  | [(_, e)] => by
    intro t ht
    simp [fmtAssigns] at ht
    rcases ht with rfl | rfl | h
    · trivial
    · decide
    · exact wfFmtExpr e t h
  | (_, e) :: p :: rest => by
    intro t ht
    simp [fmtAssigns] at ht
    rcases ht with rfl | rfl | h | rfl | h
    · trivial
    · decide
    · exact wfFmtExpr e t h
    · decide
    · exact wfFmtAssigns (p :: rest) t h

theorem wfIdentCToks : ∀ l : List (List Char), wfToks (identCToks l)
  | [] => by
    intro t ht
    simp [identCToks] at ht
  | [_] => by
    intro t ht
    simp [identCToks] at ht
    subst ht
    trivial
  | _ :: y :: rest => by
    intro t ht
    simp [identCToks] at ht
    rcases ht with rfl | rfl | h
    · trivial
    · decide
    · exact wfIdentCToks (y :: rest) t h

theorem wfFmtOptWhere : ∀ oe : Option Expr, wfToks (fmtOptWhere oe)
  | none => by
    intro t ht
    simp [fmtOptWhere] at ht
  | some e => by
    intro t ht
    simp [fmtOptWhere] at ht
    rcases ht with rfl | h
    · decide
    · exact wfFmtExpr e t h

theorem wfFmtSetOps : ∀ ops : List (SetKind × Sel), wfToks (fmtSetOps ops)
  | [] => by
    intro t ht
    simp [fmtSetOps] at ht
  | (k, s) :: rest => by
    intro t ht
    simp [fmtSetOps] at ht
    rcases ht with h | h | h
    · exact wfToks_setKw k t h
    · exact wfFmtSel s t h
    · exact wfFmtSetOps rest t h

theorem wfFmtStmt : ∀ st : Stmt, wfToks (fmtStmt st)
  | .selectS s ops => by
    intro t ht
    simp [fmtStmt] at ht
    rcases ht with h | h
    · exact wfFmtSel s t h
    · exact wfFmtSetOps ops t h
  | .insertS _ cols vals => by
    intro t ht
    simp [fmtStmt] at ht
    rcases ht with rfl | rfl | rfl | rfl | h | rfl | rfl | rfl | h | rfl
    · decide
    · decide
    · trivial
    · decide
    · exact wfIdentCToks cols t h
    · decide
    · decide
    · decide
    · exact wfFmtExprsC vals t h
    · decide
  | .updateS _ sets wh => by
    intro t ht
    simp [fmtStmt] at ht
    rcases ht with rfl | rfl | rfl | h | h
    · decide
    · trivial
    · decide
    · exact wfFmtAssigns sets t h
    · exact wfFmtOptWhere wh t h
  | .deleteS _ wh => by
    intro t ht
    simp [fmtStmt] at ht
    rcases ht with rfl | rfl | rfl | h
    · decide
    · decide
    · trivial
    · exact wfFmtOptWhere wh t h
  | .explainS an vb fo inner => by
    intro t ht
    simp only [fmtStmt, List.mem_append, List.mem_cons, or_assoc] at ht
    rcases ht with rfl | ht | ht | ht | ht
    · decide
    · cases an
      · simp at ht
      · simp at ht
        subst ht
        decide
    · cases vb
      · simp at ht
      · simp at ht
        subst ht
        decide
    · cases fo with
      | none => simp at ht
      | some w =>
        simp at ht
        rcases ht with rfl | rfl
        · decide
        · trivial
    · exact wfFmtStmt inner t ht

/-! ## Parser soundness: every parse result is parser-reachable syntax -/

theorem sound_fnFinish : ∀ (nm : List Char) (a : FArgs) (ts : List STok)
    (r : Expr × List STok) (d : Nat), okFA d a = true →
    fnFinish nm a ts = Except.ok r → okE d r.1 = true := by
  intro nm a ts r d ha h
  cases ts with
  | nil =>
    simp only [fnFinish] at h
    cases h
    simpa [okE] using ha
  | cons t ts1 =>
    simp only [fnFinish] at h
    split at h
    · exact Except.noConfusion h
    · cases h
      simpa [okE] using ha

theorem soundIdentCL : ∀ f ts r, parseIdentCList f ts = Except.ok r →
    r.1.isEmpty = false
  | 0, _, _ => by intro h; simp [parseIdentCList] at h
  | f + 1, ts, r => by
    intro h
    simp only [parseIdentCList] at h
    split at h
    · exact Except.noConfusion h
    rename_i x ts1 h1
    split at h
    · rename_i t2 ts2
      split at h
      · cases hrec : parseIdentCList f ts2 with
        | error e =>
          rw [hrec] at h
          simp [Except.map] at h
        | ok r2 =>
          rw [hrec] at h
          simp only [Except.map] at h
          cases h
          simp
      · cases h
        simp
    · cases h
      simp

mutual

theorem soundStmt : ∀ f d ts r, parseStmt f d ts = Except.ok r →
    okStmt d r.1 = true
  | 0, _, _, _ => by intro h; simp [parseStmt] at h
  | f + 1, d, ts, r => by
    intro h
    cases ts with
    | nil => simp [parseStmt] at h
    | cons t ts1 =>
      simp only [parseStmt] at h
      split at h
      · exact Except.noConfusion h
      split at h
      · exact Except.noConfusion h
      split at h
      · split at h
        · exact Except.noConfusion h
        rename_i h2
        split at h
        · exact Except.noConfusion h
        rename_i h3
        cases h
        have i2 := soundSel f d _ _ h2
        have i3 := soundSetLoop f d _ _ h3
        simp [okStmt, i2, i3]
      split at h
      · exact soundInsert f d ts1 r h
      split at h
      · exact soundUpdate f d ts1 r h
      split at h
      · exact soundDelete f d ts1 r h
      split at h
      · exact soundExplainStmt f d ts1 r h
      · exact Except.noConfusion h

termination_by structural f _ _ _ => f

theorem soundSetLoop : ∀ f d ts r, parseSetLoop f d ts = Except.ok r →
    r.1.all (fun p => okSel d p.2) = true
  | 0, _, _, _ => by intro h; simp [parseSetLoop] at h
  | f + 1, d, ts, r => by
    intro h
    cases ts with
    | nil =>
      simp only [parseSetLoop] at h
      cases h
      rfl
    | cons t ts1 =>
      cases ts1 with
      | nil =>
        simp only [parseSetLoop] at h
        split at h
        · exact soundSetRhs f d .unionK [] r h
        split at h
        · exact soundSetRhs f d .intersectK [] r h
        split at h
        · exact soundSetRhs f d .exceptK [] r h
        · cases h
          rfl
      | cons t2 ts2 =>
        simp only [parseSetLoop] at h
        split at h
        · split at h
          · exact soundSetRhs f d .unionAllK ts2 r h
          · exact soundSetRhs f d .unionK (t2 :: ts2) r h
        split at h
        · exact soundSetRhs f d .intersectK (t2 :: ts2) r h
        split at h
        · exact soundSetRhs f d .exceptK (t2 :: ts2) r h
        · cases h
          rfl

termination_by structural f _ _ _ => f

theorem soundSetRhs : ∀ f d k ts r, parseSetRhs f d k ts = Except.ok r →
    r.1.all (fun p => okSel d p.2) = true
  | 0, _, _, _, _ => by intro h; simp [parseSetRhs] at h
  | f + 1, d, k, ts, r => by
    intro h
    simp only [parseSetRhs] at h
    split at h
    · exact Except.noConfusion h
    rename_i h1
    split at h
    · exact Except.noConfusion h
    rename_i h2
    cases h
    have i1 := soundSel f d _ _ h1
    have i2 := soundSetLoop f d _ _ h2
    simp [i1, i2]

termination_by structural f _ _ _ _ => f

theorem soundSel : ∀ f d ts r, parseSel f d ts = Except.ok r →
    okSel d r.1 = true
  | 0, _, _, _ => by intro h; simp [parseSel] at h
  | f + 1, d, ts, r => by
    intro h
    simp only [parseSel] at h
    split at h
    · exact Except.noConfusion h
    rename_i h1
    split at h
    · exact Except.noConfusion h
    rename_i h2
    split at h
    · exact Except.noConfusion h
    rename_i h3
    split at h
    · exact Except.noConfusion h
    rename_i h4
    split at h
    · exact Except.noConfusion h
    rename_i h5
    split at h
    · exact Except.noConfusion h
    rename_i h6
    split at h
    · exact Except.noConfusion h
    rename_i h7
    split at h
    · exact Except.noConfusion h
    rename_i h8
    split at h
    · exact Except.noConfusion h
    rename_i h9
    cases h
    have i2 := soundItems f d _ _ h2
    simp only [Bool.and_eq_true] at i2
    have i3 := soundFromPart f d _ _ h3
    have i4 := soundOptKw "WHERE" f d _ _ h4
    have i5 := soundGroupBy f d _ _ h5
    have i6 := soundOptKw "HAVING" f d _ _ h6
    have i7 := soundOrderBy f d _ _ h7
    have i8 := soundOptKw "LIMIT" f d _ _ h8
    have i9 := soundOptKw "OFFSET" f d _ _ h9
    simp [okSel, i2.1, i2.2, i3, i4, i5, i6, i7, i8, i9]

termination_by structural f _ _ _ => f

theorem soundItems : ∀ f d ts r, parseItems f d ts = Except.ok r →
    (neI r.1 && okIL d r.1) = true
  | 0, _, _, _ => by intro h; simp [parseItems] at h
  | f + 1, d, ts, r => by
    intro h
    simp only [parseItems] at h
    split at h
    · exact Except.noConfusion h
    rename_i it ts1 h1
    split at h
    · split at h
      · rename_i t2 ts2 hcomma
        cases hrec : parseItems f d ts2 with
        | error e =>
          rw [hrec] at h
          simp [Except.map] at h
        | ok r2 =>
          rw [hrec] at h
          simp only [Except.map] at h
          cases h
          have i1 := soundItem f d _ _ h1
          have i2 := soundItems f d ts2 r2 hrec
          simp only [Bool.and_eq_true] at i2
          simp [neI, okIL, i1, i2.2]
      · cases h
        simp [neI, okIL, soundItem f d _ _ h1]
    · cases h
      simp [neI, okIL, soundItem f d _ _ h1]

termination_by structural f _ _ _ => f

theorem soundItem : ∀ f d ts r, parseItem f d ts = Except.ok r →
    okItem d r.1 = true
  | 0, _, _, _ => by intro h; simp [parseItem] at h
  | f + 1, d, ts, r => by
    intro h
    cases ts with
    | nil => simp [parseItem] at h
    | cons t ts1 =>
      simp only [parseItem] at h
      split at h
      · cases h
        rfl
      split at h
      · exact Except.noConfusion h
      rename_i h2
      split at h
      · exact Except.noConfusion h
      rename_i h3
      cases h
      simpa [okItem] using soundExprOr f d _ _ h2

termination_by structural f _ _ _ => f

theorem soundFromPart : ∀ f d ts r, parseFromPart f d ts = Except.ok r →
    okFP d r.1 = true
  | 0, _, _, _ => by intro h; simp [parseFromPart] at h
  | f + 1, d, ts, r => by
    intro h
    cases ts with
    | nil =>
      simp only [parseFromPart] at h
      cases h
      rfl
    | cons t ts1 =>
      simp only [parseFromPart] at h
      split at h
      · split at h
        · exact Except.noConfusion h
        rename_i h2
        split at h
        · exact Except.noConfusion h
        rename_i h3
        cases h
        have i2 := soundFromItem f d _ _ h2
        have i3 := soundJoins f d _ _ h3
        simp [okFP, i2, i3]
      · cases h
        rfl

termination_by structural f _ _ _ => f

theorem soundFromItem : ∀ f d ts r, parseFromItem f d ts = Except.ok r →
    okFI d r.1 = true
  | 0, _, _, _ => by intro h; simp [parseFromItem] at h
  | f + 1, d, ts, r => by
    intro h
    cases ts with
    | nil => simp [parseFromItem] at h
    | cons t ts1 =>
      obtain ⟨k, w⟩ := t
      cases k
      case id =>
        simp only [parseFromItem] at h
        split at h
        · exact Except.noConfusion h
        rename_i h1
        cases h
        rfl
      all_goals
        simp only [parseFromItem] at h
        split at h
        case isFalse => exact Except.noConfusion h
        case isTrue =>
          split at h
          · exact Except.noConfusion h
          rename_i dep
          split at h
          · exact Except.noConfusion h
          rename_i q ts2 h2
          split at h
          · exact Except.noConfusion h
          rename_i h3
          split at h
          · exact Except.noConfusion h
          rename_i h4
          split at h
          · exact Except.noConfusion h
          rename_i a ts5 h5
          cases h
          simpa [okFI] using soundSel f dep _ _ h2

termination_by structural f _ _ _ => f

theorem soundJoins : ∀ f d ts r, parseJoins f d ts = Except.ok r →
    okJL d r.1 = true
  | 0, _, _, _ => by intro h; simp [parseJoins] at h
  | f + 1, d, ts, r => by
    intro h
    cases ts with
    | nil =>
      simp only [parseJoins] at h
      cases h
      rfl
    | cons t ts1 =>
      simp only [parseJoins] at h
      split at h
      · exact soundJoinTail f d .innerJ ts1 r h
      split at h
      · split at h
        · exact Except.noConfusion h
        rename_i ts2 h2
        exact soundJoinTail f d .innerJ ts2 r h
      split at h
      · exact soundJoinOuter f d .leftJ ts1 r h
      split at h
      · exact soundJoinOuter f d .rightJ ts1 r h
      split at h
      · exact soundJoinOuter f d .fullJ ts1 r h
      split at h
      · split at h
        · exact Except.noConfusion h
        rename_i ts2 h2
        exact soundJoinTail f d .crossJ ts2 r h
      · cases h
        rfl

termination_by structural f _ _ _ => f

theorem soundJoinOuter : ∀ f d k ts r, parseJoinOuter f d k ts = Except.ok r →
    okJL d r.1 = true
  | 0, _, _, _, _ => by intro h; simp [parseJoinOuter] at h
  | f + 1, d, k, ts, r => by
    intro h
    cases ts with
    | nil => simp [parseJoinOuter] at h
    | cons t ts1 =>
      simp only [parseJoinOuter] at h
      split at h
      · split at h
        · exact Except.noConfusion h
        rename_i ts2 h2
        exact soundJoinTail f d k ts2 r h
      · split at h
        · exact Except.noConfusion h
        rename_i ts2 h2
        exact soundJoinTail f d k ts2 r h

termination_by structural f _ _ _ _ => f

theorem soundJoinTail : ∀ f d k ts r, parseJoinTail f d k ts = Except.ok r →
    okJL d r.1 = true
  | 0, _, _, _, _ => by intro h; simp [parseJoinTail] at h
  | f + 1, d, k, ts, r => by
    intro h
    simp only [parseJoinTail] at h
    split at h
    · exact Except.noConfusion h
    rename_i src ts1 h1
    split at h
    · split at h
      · split at h
        · exact Except.noConfusion h
        rename_i e2 ts3 h2
        split at h
        · exact Except.noConfusion h
        rename_i js ts4 h3
        cases h
        have i1 := soundFromItem f d _ _ h1
        have i2 := soundExprOr f d _ _ h2
        have i3 := soundJoins f d _ _ h3
        simp [okJL, okJ, okOE, i1, i2, i3]
      · split at h
        · exact Except.noConfusion h
        rename_i js ts4 h3
        cases h
        have i1 := soundFromItem f d _ _ h1
        have i3 := soundJoins f d _ _ h3
        simp [okJL, okJ, okOE, i1, i3]
    · cases h
      have i1 := soundFromItem f d _ _ h1
      simp [okJL, okJ, okOE, i1]

termination_by structural f _ _ _ _ => f

theorem soundOptKw : ∀ w f d ts r, parseOptKwExprO w f d ts = Except.ok r →
    okOE d r.1 = true
  | _, 0, _, _, _ => by intro h; simp [parseOptKwExprO] at h
  | w, f + 1, d, ts, r => by
    intro h
    cases ts with
    | nil =>
      simp only [parseOptKwExprO] at h
      cases h
      rfl
    | cons t ts1 =>
      simp only [parseOptKwExprO] at h
      split at h
      · split at h
        · exact Except.noConfusion h
        rename_i e2 ts2 h2
        cases h
        simpa [okOE] using soundExprOr f d _ _ h2
      · cases h
        rfl

termination_by structural _ f _ _ _ => f

theorem soundGroupBy : ∀ f d ts r, parseGroupBy f d ts = Except.ok r →
    okEL d r.1 = true
  | 0, _, _, _ => by intro h; simp [parseGroupBy] at h
  | f + 1, d, ts, r => by
    intro h
    cases ts with
    | nil =>
      simp only [parseGroupBy] at h
      cases h
      rfl
    | cons t ts1 =>
      simp only [parseGroupBy] at h
      split at h
      · split at h
        · exact Except.noConfusion h
        rename_i ts2 h2
        exact soundExprCList f d ts2 r h
      · cases h
        rfl

termination_by structural f _ _ _ => f

theorem soundOrderBy : ∀ f d ts r, parseOrderBy f d ts = Except.ok r →
    okOL d r.1 = true
  | 0, _, _, _ => by intro h; simp [parseOrderBy] at h
  | f + 1, d, ts, r => by
    intro h
    cases ts with
    | nil =>
      simp only [parseOrderBy] at h
      cases h
      rfl
    | cons t ts1 =>
      simp only [parseOrderBy] at h
      split at h
      · split at h
        · exact Except.noConfusion h
        rename_i ts2 h2
        exact soundOrderList f d ts2 r h
      · cases h
        rfl

termination_by structural f _ _ _ => f

theorem soundOrderList : ∀ f d ts r, parseOrderList f d ts = Except.ok r →
    okOL d r.1 = true
  | 0, _, _, _ => by intro h; simp [parseOrderList] at h
  | f + 1, d, ts, r => by
    intro h
    simp only [parseOrderList] at h
    split at h
    · exact Except.noConfusion h
    rename_i e2 ts1 h1
    split at h
    · split at h
      · exact soundOrderMore f d e2 true _ r
          (by simpa using soundExprOr f d _ _ h1) h
      split at h
      · exact soundOrderMore f d e2 false _ r
          (by simpa using soundExprOr f d _ _ h1) h
      · exact soundOrderMore f d e2 true _ r
          (by simpa using soundExprOr f d _ _ h1) h
    · cases h
      simpa [okOL] using soundExprOr f d _ _ h1

termination_by structural f _ _ _ => f

theorem soundOrderMore : ∀ f d e asc ts r, okE d e = true →
    parseOrderMore f d e asc ts = Except.ok r → okOL d r.1 = true
  | 0, _, _, _, _, _ => by intro _ h; simp [parseOrderMore] at h
  | f + 1, d, e, asc, ts, r => by
    intro hacc h
    cases ts with
    | nil =>
      simp only [parseOrderMore] at h
      cases h
      simp [okOL, hacc]
    | cons t ts1 =>
      simp only [parseOrderMore] at h
      split at h
      · split at h
        · exact Except.noConfusion h
        rename_i os ts2 h2
        cases h
        have i2 := soundOrderList f d _ _ h2
        simp [okOL, hacc, i2]
      · cases h
        simp [okOL, hacc]

termination_by structural f _ _ _ _ _ => f

theorem soundExprCList : ∀ f d ts r, parseExprCList f d ts = Except.ok r →
    okEL d r.1 = true
  | 0, _, _, _ => by intro h; simp [parseExprCList] at h
  | f + 1, d, ts, r => by
    intro h
    simp only [parseExprCList] at h
    split at h
    · exact Except.noConfusion h
    rename_i e2 ts1 h1
    split at h
    · split at h
      · rename_i t2 ts2 hcomma
        cases hrec : parseExprCList f d ts2 with
        | error er =>
          rw [hrec] at h
          simp [Except.map] at h
        | ok r2 =>
          rw [hrec] at h
          simp only [Except.map] at h
          cases h
          have i1 := soundExprOr f d _ _ h1
          have i2 := soundExprCList f d ts2 r2 hrec
          simp [okEL, i1, i2]
      · cases h
        simpa [okEL] using soundExprOr f d _ _ h1
    · cases h
      simpa [okEL] using soundExprOr f d _ _ h1

termination_by structural f _ _ _ => f

theorem soundExprsP : ∀ f d ts r, parseExprsP f d ts = Except.ok r →
    (!r.1.isEmpty && r.1.all (okE d)) = true
  | 0, _, _, _ => by intro h; simp [parseExprsP] at h
  | f + 1, d, ts, r => by
    intro h
    simp only [parseExprsP] at h
    split at h
    · exact Except.noConfusion h
    rename_i e2 ts1 h1
    split at h
    · split at h
      · rename_i t2 ts2 hcomma
        cases hrec : parseExprsP f d ts2 with
        | error er =>
          rw [hrec] at h
          simp [Except.map] at h
        | ok r2 =>
          rw [hrec] at h
          simp only [Except.map] at h
          cases h
          have i1 := soundExprOr f d _ _ h1
          have i2 := soundExprsP f d ts2 r2 hrec
          simp only [Bool.and_eq_true] at i2
          simp [i1, i2.2]
      · cases h
        simpa using soundExprOr f d _ _ h1
    · cases h
      simpa using soundExprOr f d _ _ h1

termination_by structural f _ _ _ => f

theorem soundAssigns : ∀ f d ts r, parseAssigns f d ts = Except.ok r →
    (!r.1.isEmpty && r.1.all (fun p => okE d p.2)) = true
  | 0, _, _, _ => by intro h; simp [parseAssigns] at h
  | f + 1, d, ts, r => by
    intro h
    simp only [parseAssigns] at h
    split at h
    · exact Except.noConfusion h
    rename_i x ts1 h1
    split at h
    · exact Except.noConfusion h
    rename_i h2
    split at h
    · exact Except.noConfusion h
    rename_i e2 ts3 h3
    split at h
    · split at h
      · rename_i t2 ts4 hcomma
        cases hrec : parseAssigns f d ts4 with
        | error er =>
          rw [hrec] at h
          simp [Except.map] at h
        | ok r2 =>
          rw [hrec] at h
          simp only [Except.map] at h
          cases h
          have i1 := soundExprOr f d _ _ h3
          have i2 := soundAssigns f d ts4 r2 hrec
          simp only [Bool.and_eq_true] at i2
          simp [i1, i2.2]
      · cases h
        simpa using soundExprOr f d _ _ h3
    · cases h
      simpa using soundExprOr f d _ _ h3

termination_by structural f _ _ _ => f

theorem soundInsert : ∀ f d ts r, parseInsert f d ts = Except.ok r →
    okStmt d r.1 = true
  | 0, _, _, _ => by intro h; simp [parseInsert] at h
  | f + 1, d, ts, r => by
    intro h
    simp only [parseInsert] at h
    split at h
    · exact Except.noConfusion h
    rename_i h1
    split at h
    · exact Except.noConfusion h
    rename_i h2
    split at h
    · exact Except.noConfusion h
    rename_i h3
    split at h
    · exact Except.noConfusion h
    rename_i h4
    split at h
    · exact Except.noConfusion h
    rename_i h5
    split at h
    · exact Except.noConfusion h
    rename_i h6
    split at h
    · exact Except.noConfusion h
    rename_i h7
    split at h
    · exact Except.noConfusion h
    rename_i h8
    split at h
    · exact Except.noConfusion h
    rename_i h9
    cases h
    have i4 := soundIdentCL f _ _ h4
    have i8 := soundExprsP f d _ _ h8
    simp only [Bool.and_eq_true] at i8
    simp [okStmt, i4, i8.1, i8.2]

termination_by structural f _ _ _ => f

theorem soundUpdate : ∀ f d ts r, parseUpdate f d ts = Except.ok r →
    okStmt d r.1 = true
  | 0, _, _, _ => by intro h; simp [parseUpdate] at h
  | f + 1, d, ts, r => by
    intro h
    simp only [parseUpdate] at h
    split at h
    · exact Except.noConfusion h
    rename_i tbl ts1 h1
    split at h
    · exact Except.noConfusion h
    rename_i h2
    split at h
    · exact Except.noConfusion h
    rename_i sets ts3 h3
    have i3 := soundAssigns f d _ _ h3
    simp only [Bool.and_eq_true] at i3
    split at h
    · split at h
      · split at h
        · exact Except.noConfusion h
        rename_i e2 ts5 h4
        cases h
        have i4 := soundExprOr f d _ _ h4
        simp [okStmt, i3.1, i3.2, i4]
      · cases h
        simp [okStmt, i3.1, i3.2]
    · cases h
      simp [okStmt, i3.1, i3.2]

termination_by structural f _ _ _ => f

theorem soundDelete : ∀ f d ts r, parseDelete f d ts = Except.ok r →
    okStmt d r.1 = true
  | 0, _, _, _ => by intro h; simp [parseDelete] at h
  | f + 1, d, ts, r => by
    intro h
    simp only [parseDelete] at h
    split at h
    · exact Except.noConfusion h
    rename_i h1
    split at h
    · exact Except.noConfusion h
    rename_i tbl ts2 h2
    split at h
    · split at h
      · split at h
        · exact Except.noConfusion h
        rename_i e2 ts4 h3
        cases h
        have i3 := soundExprOr f d _ _ h3
        simp [okStmt, i3]
      · cases h
        simp [okStmt]
    · cases h
      simp [okStmt]

termination_by structural f _ _ _ => f

theorem soundExplainStmt : ∀ f d ts r, parseExplainStmt f d ts = Except.ok r →
    okStmt d r.1 = true
  | 0, _, _, _ => by intro h; simp [parseExplainStmt] at h
  | f + 1, d, ts, r => by
    intro h
    cases ts with
    | nil =>
      simp only [parseExplainStmt] at h
      exact soundExplainVb f d false [] r h
    | cons t ts1 =>
      simp only [parseExplainStmt] at h
      split at h
      · exact soundExplainVb f d true ts1 r h
      · exact soundExplainVb f d false (t :: ts1) r h

termination_by structural f _ _ _ => f

theorem soundExplainVb : ∀ f d an ts r, parseExplainVb f d an ts = Except.ok r →
    okStmt d r.1 = true
  | 0, _, _, _, _ => by intro h; simp [parseExplainVb] at h
  | f + 1, d, an, ts, r => by
    intro h
    cases ts with
    | nil =>
      simp only [parseExplainVb] at h
      exact soundExplainFo f d an false [] r h
    | cons t ts1 =>
      simp only [parseExplainVb] at h
      split at h
      · exact soundExplainFo f d an true ts1 r h
      · exact soundExplainFo f d an false (t :: ts1) r h

termination_by structural f _ _ _ _ => f

theorem soundExplainFo : ∀ f d an vb ts r, parseExplainFo f d an vb ts = Except.ok r →
    okStmt d r.1 = true
  | 0, _, _, _, _, _ => by intro h; simp [parseExplainFo] at h
  | f + 1, d, an, vb, ts, r => by
    intro h
    cases ts with
    | nil =>
      simp only [parseExplainFo] at h
      split at h
      · exact Except.noConfusion h
      rename_i inner ts3 h2
      cases h
      simpa [okStmt] using soundStmt f d _ _ h2
    | cons t ts1 =>
      simp only [parseExplainFo] at h
      split at h
      · split at h
        · exact Except.noConfusion h
        rename_i fo ts2 h2
        split at h
        · exact Except.noConfusion h
        rename_i inner ts3 h3
        cases h
        simpa [okStmt] using soundStmt f d _ _ h3
      · split at h
        · exact Except.noConfusion h
        rename_i inner ts3 h2
        cases h
        simpa [okStmt] using soundStmt f d _ _ h2

termination_by structural f _ _ _ _ _ => f

theorem soundExprOr : ∀ f d ts r, parseExprOr f d ts = Except.ok r →
    okE d r.1 = true
  | 0, _, _, _ => by intro h; simp [parseExprOr] at h
  | f + 1, d, ts, r => by
    intro h
    simp only [parseExprOr] at h
    split at h
    · exact Except.noConfusion h
    rename_i l ts1 h1
    exact soundOrTail f d l ts1 r
      (by simpa using soundExprAnd f d _ _ h1) h

termination_by structural f _ _ _ => f

theorem soundOrTail : ∀ f d acc ts r, okE d acc = true →
    parseOrTail f d acc ts = Except.ok r → okE d r.1 = true
  | 0, _, _, _, _ => by intro _ h; simp [parseOrTail] at h
  | f + 1, d, acc, ts, r => by
    intro hacc h
    cases ts with
    | nil =>
      simp only [parseOrTail] at h
      cases h
      exact hacc
    | cons t ts1 =>
      simp only [parseOrTail] at h
      split at h
      · split at h
        · exact Except.noConfusion h
        rename_i e2 ts2 h2
        exact soundOrTail f d _ ts2 r
          (by simp [okE, hacc, soundExprAnd f d _ _ h2]) h
      · cases h
        exact hacc

termination_by structural f _ _ _ _ => f

theorem soundExprAnd : ∀ f d ts r, parseExprAnd f d ts = Except.ok r →
    okE d r.1 = true
  | 0, _, _, _ => by intro h; simp [parseExprAnd] at h
  | f + 1, d, ts, r => by
    intro h
    simp only [parseExprAnd] at h
    split at h
    · exact Except.noConfusion h
    rename_i l ts1 h1
    exact soundAndTail f d l ts1 r
      (by simpa using soundExprNot f d _ _ h1) h

termination_by structural f _ _ _ => f

theorem soundAndTail : ∀ f d acc ts r, okE d acc = true →
    parseAndTail f d acc ts = Except.ok r → okE d r.1 = true
  | 0, _, _, _, _ => by intro _ h; simp [parseAndTail] at h
  | f + 1, d, acc, ts, r => by
    intro hacc h
    cases ts with
    | nil =>
      simp only [parseAndTail] at h
      cases h
      exact hacc
    | cons t ts1 =>
      simp only [parseAndTail] at h
      split at h
      · split at h
        · exact Except.noConfusion h
        rename_i e2 ts2 h2
        exact soundAndTail f d _ ts2 r
          (by simp [okE, hacc, soundExprNot f d _ _ h2]) h
      · cases h
        exact hacc

termination_by structural f _ _ _ _ => f

theorem soundExprNot : ∀ f d ts r, parseExprNot f d ts = Except.ok r →
    okE d r.1 = true
  | 0, _, _, _ => by intro h; simp [parseExprNot] at h
  | f + 1, d, ts, r => by
    intro h
    cases ts with
    | nil =>
      simp only [parseExprNot] at h
      exact soundExprCmp f d [] r h
    | cons t ts1 =>
      simp only [parseExprNot] at h
      split at h
      · split at h
        · exact Except.noConfusion h
        rename_i e2 ts2 h2
        cases h
        simpa [okE] using soundExprNot f d _ _ h2
      · exact soundExprCmp f d (t :: ts1) r h

termination_by structural f _ _ _ => f

theorem soundExprCmp : ∀ f d ts r, parseExprCmp f d ts = Except.ok r →
    okE d r.1 = true
  | 0, _, _, _ => by intro h; simp [parseExprCmp] at h
  | f + 1, d, ts, r => by
    intro h
    simp only [parseExprCmp] at h
    split at h
    · exact Except.noConfusion h
    rename_i l ts1 h1
    exact soundCmpTail f d l ts1 r
      (by simpa using soundExprAdd f d _ _ h1) h

termination_by structural f _ _ _ => f

theorem soundCmpTail : ∀ f d acc ts r, okE d acc = true →
    parseCmpTail f d acc ts = Except.ok r → okE d r.1 = true
  | 0, _, _, _, _ => by intro _ h; simp [parseCmpTail] at h
  | f + 1, d, acc, ts, r => by
    intro hacc h
    cases ts with
    | nil =>
      simp only [parseCmpTail] at h
      cases h
      exact hacc
    | cons t ts1 =>
      obtain ⟨k, w⟩ := t
      cases k
      case sym =>
        simp only [parseCmpTail] at h
        split at h
        · rename_i o ho
          split at h
          · exact Except.noConfusion h
          rename_i e2 ts2 h2
          exact soundCmpTail f d _ ts2 r
            (by simp [okE, hacc, soundExprAdd f d _ _ h2]) h
        · cases h
          exact hacc
      all_goals
        simp only [parseCmpTail] at h
        cases h
        exact hacc

termination_by structural f _ _ _ _ => f

theorem soundExprAdd : ∀ f d ts r, parseExprAdd f d ts = Except.ok r →
    okE d r.1 = true
  | 0, _, _, _ => by intro h; simp [parseExprAdd] at h
  | f + 1, d, ts, r => by
    intro h
    simp only [parseExprAdd] at h
    split at h
    · exact Except.noConfusion h
    rename_i l ts1 h1
    exact soundAddTail f d l ts1 r
      (by simpa using soundExprMul f d _ _ h1) h

termination_by structural f _ _ _ => f

theorem soundAddTail : ∀ f d acc ts r, okE d acc = true →
    parseAddTail f d acc ts = Except.ok r → okE d r.1 = true
  | 0, _, _, _, _ => by intro _ h; simp [parseAddTail] at h
  | f + 1, d, acc, ts, r => by
    intro hacc h
    cases ts with
    | nil =>
      simp only [parseAddTail] at h
      cases h
      exact hacc
    | cons t ts1 =>
      obtain ⟨k, w⟩ := t
      cases k
      case sym =>
        simp only [parseAddTail] at h
        split at h
        · rename_i o ho
          split at h
          · exact Except.noConfusion h
          rename_i e2 ts2 h2
          exact soundAddTail f d _ ts2 r
            (by simp [okE, hacc, soundExprMul f d _ _ h2]) h
        · cases h
          exact hacc
      all_goals
        simp only [parseAddTail] at h
        cases h
        exact hacc

termination_by structural f _ _ _ _ => f

theorem soundExprMul : ∀ f d ts r, parseExprMul f d ts = Except.ok r →
    okE d r.1 = true
  | 0, _, _, _ => by intro h; simp [parseExprMul] at h
  | f + 1, d, ts, r => by
    intro h
    simp only [parseExprMul] at h
    split at h
    · exact Except.noConfusion h
    rename_i l ts1 h1
    exact soundMulTail f d l ts1 r
      (by simpa using soundExprUnary f d _ _ h1) h

termination_by structural f _ _ _ => f

theorem soundMulTail : ∀ f d acc ts r, okE d acc = true →
    parseMulTail f d acc ts = Except.ok r → okE d r.1 = true
  | 0, _, _, _, _ => by intro _ h; simp [parseMulTail] at h
  | f + 1, d, acc, ts, r => by
    intro hacc h
    cases ts with
    | nil =>
      simp only [parseMulTail] at h
      cases h
      exact hacc
    | cons t ts1 =>
      obtain ⟨k, w⟩ := t
      cases k
      case sym =>
        simp only [parseMulTail] at h
        split at h
        · rename_i o ho
          split at h
          · exact Except.noConfusion h
          rename_i e2 ts2 h2
          exact soundMulTail f d _ ts2 r
            (by simp [okE, hacc, soundExprUnary f d _ _ h2]) h
        · cases h
          exact hacc
      all_goals
        simp only [parseMulTail] at h
        cases h
        exact hacc

termination_by structural f _ _ _ _ => f

theorem soundExprUnary : ∀ f d ts r, parseExprUnary f d ts = Except.ok r →
    okE d r.1 = true
  | 0, _, _, _ => by intro h; simp [parseExprUnary] at h
  | f + 1, d, ts, r => by
    intro h
    cases ts with
    | nil =>
      simp only [parseExprUnary] at h
      exact soundExprCast f d [] r h
    | cons t ts1 =>
      simp only [parseExprUnary] at h
      split at h
      · split at h
        · exact Except.noConfusion h
        rename_i e2 ts2 h2
        cases h
        simpa [okE] using soundExprUnary f d _ _ h2
      · exact soundExprCast f d (t :: ts1) r h

termination_by structural f _ _ _ => f

theorem soundExprCast : ∀ f d ts r, parseExprCast f d ts = Except.ok r →
    okE d r.1 = true
  | 0, _, _, _ => by intro h; simp [parseExprCast] at h
  | f + 1, d, ts, r => by
    intro h
    simp only [parseExprCast] at h
    split at h
    · exact Except.noConfusion h
    rename_i e2 ts1 h1
    exact soundCastTail f d e2 ts1 r
      (by simpa using soundPrimary f d _ _ h1) h

termination_by structural f _ _ _ => f

theorem soundCastTail : ∀ f d acc ts r, okE d acc = true →
    parseCastTail f d acc ts = Except.ok r → okE d r.1 = true
  | 0, _, _, _, _ => by intro _ h; simp [parseCastTail] at h
  | f + 1, d, acc, ts, r => by
    intro hacc h
    cases ts with
    | nil =>
      simp only [parseCastTail] at h
      cases h
      exact hacc
    | cons t ts1 =>
      simp only [parseCastTail] at h
      split at h
      · split at h
        · exact Except.noConfusion h
        rename_i ty ts2 h2
        exact soundCastTail f d _ ts2 r (by simp [okE, hacc]) h
      · cases h
        exact hacc

termination_by structural f _ _ _ _ => f

theorem soundPrimary : ∀ f d ts r, parsePrimary f d ts = Except.ok r →
    okE d r.1 = true
  | 0, _, _, _ => by intro h; simp [parsePrimary] at h
  | f + 1, d, ts, r => by
    intro h
    cases ts with
    | nil => simp [parsePrimary] at h
    | cons t rest =>
      obtain ⟨k, w⟩ := t
      cases k with
      | num =>
        simp only [parsePrimary] at h
        cases h
        simp [okE, canonNum_idem]
      | str =>
        simp only [parsePrimary] at h
        cases h
        rfl
      | id =>
        cases rest with
        | nil =>
          simp only [parsePrimary] at h
          cases h
          rfl
        | cons t2 ts2 =>
          obtain ⟨k2, s⟩ := t2
          cases k2 with
          | sym =>
            simp only [parsePrimary] at h
            split at h
            · split at h
              · exact Except.noConfusion h
              rename_i c ts3 h3
              cases h
              rfl
            · split at h
              · exact soundFnArgs f d w _ r h
              · cases h
                rfl
          | kw =>
            simp only [parsePrimary] at h
            cases h
            rfl
          | id =>
            simp only [parsePrimary] at h
            cases h
            rfl
          | str =>
            simp only [parsePrimary] at h
            cases h
            rfl
          | num =>
            simp only [parsePrimary] at h
            cases h
            rfl
      | sym =>
        cases rest with
        | nil =>
          simp only [parsePrimary] at h
          split at h
          · exact Except.noConfusion h
          · exact Except.noConfusion h
        | cons t2 rest2 =>
          simp only [parsePrimary] at h
          split at h
          · split at h
            · split at h
              · exact Except.noConfusion h
              rename_i dep
              split at h
              · exact Except.noConfusion h
              rename_i q ts2 h2
              split at h
              · exact Except.noConfusion h
              rename_i ts3 h3
              cases h
              simpa [okE] using soundSel f dep (t2 :: rest2) (q, ts2) h2
            · split at h
              · exact Except.noConfusion h
              rename_i e2 ts2 h2
              split at h
              · exact Except.noConfusion h
              rename_i ts3 h3
              cases h
              exact soundExprOr f d (t2 :: rest2) (e2, ts2) h2
          · exact Except.noConfusion h
      | kw =>
        simp only [parsePrimary] at h
        split at h
        · split at h
          · exact Except.noConfusion h
          · rename_i arms els ts2 h2
            cases h
            simpa [okE] using soundWhenArms f d rest (arms, els, ts2) h2
        · exact Except.noConfusion h

termination_by structural f _ _ _ => f

theorem soundWhenArms : ∀ f d ts r, parseWhenArms f d ts = Except.ok r →
    (neW r.1 && okW d r.1 && okOE d r.2.1) = true
  | 0, _, _, _ => by intro h; simp [parseWhenArms] at h
  | f + 1, d, ts, r => by
    intro h
    simp only [parseWhenArms] at h
    split at h
    · exact Except.noConfusion h
    rename_i ts1 h1
    split at h
    · exact Except.noConfusion h
    rename_i c ts2 h2
    split at h
    · exact Except.noConfusion h
    rename_i ts3 h3
    split at h
    · exact Except.noConfusion h
    rename_i r0 ts4 h4
    have hc : okE d c = true := soundExprOr f d ts1 (c, ts2) h2
    have hr : okE d r0 = true := soundExprOr f d ts3 (r0, ts4) h4
    split at h
    · rename_i t2 ts5
      split at h
      · split at h
        · exact Except.noConfusion h
        rename_i arms els ts6 h6
        cases h
        have htl := soundWhenArms f d (t2 :: ts5) (arms, els, ts6) h6
        simp only [Bool.and_eq_true] at htl
        simp [neW, okW, hc, hr, htl.1.2, htl.2]
      · split at h
        · split at h
          · exact Except.noConfusion h
          rename_i e0 ts6 h6
          split at h
          · exact Except.noConfusion h
          rename_i ts7 h7
          cases h
          have he0 : okE d e0 = true := soundExprOr f d ts5 (e0, ts6) h6
          simp [neW, okW, okOE, hc, hr, he0]
        · split at h
          · exact Except.noConfusion h
          rename_i ts7 h7
          cases h
          simp [neW, okW, okOE, hc, hr]
    · exact Except.noConfusion h

termination_by structural f _ _ _ => f

theorem soundFnArgs : ∀ f d nm ts r, parseFnArgs f d nm ts = Except.ok r →
    okE d r.1 = true
  | 0, _, _, _, _ => by intro h; simp [parseFnArgs] at h
  | f + 1, d, nm, ts, r => by
    intro h
    cases ts with
    | nil => simp [parseFnArgs] at h
    | cons t ts1 =>
      simp only [parseFnArgs] at h
      split at h
      · split at h
        · exact Except.noConfusion h
        rename_i ts2 h2
        exact sound_fnFinish nm .starA ts2 r d rfl h
      split at h
      · exact sound_fnFinish nm (.argsA .nilE) ts1 r d rfl h
      · split at h
        · exact Except.noConfusion h
        rename_i es ts2 h2
        split at h
        · exact Except.noConfusion h
        rename_i ts3 h3
        exact sound_fnFinish nm (.argsA es) ts3 r d
          (by simpa [okFA] using soundExprCList f d _ _ h2) h

termination_by structural f _ _ _ _ => f

end


theorem sound_parseToks (d : Nat) (ts : List STok) (st : Stmt)
    (h : parseToks d ts = Except.ok st) : okStmt d st = true := by
  simp only [parseToks] at h
  split at h
  · exact Except.noConfusion h
  · rename_i s h1
    cases h
    simpa using soundStmt _ d ts _ h1
  · exact Except.noConfusion h

theorem sound_parseSqlD (d : Nat) (s : String) (st : Stmt)
    (h : parseSqlD d s = Except.ok st) : okStmt d st = true := by
  simp only [parseSqlD] at h
  split at h
  · exact Except.noConfusion h
  · rename_i ts h1
    exact sound_parseToks d ts st h

/-! ## Parser round trip: stop conditions and level composition

Reparsing the formatter output: a fragment lemma states that parsing the
canonical tokens of a piece of syntax followed by a continuation returns
exactly that piece and the continuation, provided the continuation head
cannot be absorbed by the pending tail parsers.  The stop predicates below
name, per precedence level, the head tokens that end the fragment. -/

def hdOK (p : STok → Prop) : List STok → Prop
  | [] => True
  | t :: _ => p t

def castStopB (t : STok) : Bool := !(isSymT "::" t)

def mulStopB (t : STok) : Bool :=
  castStopB t && !(isSymT "*" t) && !(isSymT "/" t) && !(isSymT "%" t)

def addStopB (t : STok) : Bool :=
  mulStopB t && !(isSymT "+" t) && !(isSymT "-" t)

def cmpStopB (t : STok) : Bool :=
  addStopB t && !(isSymT "=" t) && !(isSymT "<" t) && !(isSymT ">" t) &&
    !(isSymT "<=" t) && !(isSymT ">=" t) && !(isSymT "<>" t) && !(isSymT "!=" t)

def andStopB (t : STok) : Bool := cmpStopB t && !(isKwT "AND" t)

def exprStopB (t : STok) : Bool := andStopB t && !(isKwT "OR" t)

def primStopB (t : STok) : Bool :=
  !(isSymT "." t) && !(isSymT "(" t) && !(isKwT "OVER" t)

def eStop (ts : List STok) : Prop := hdOK (fun t => exprStopB t = true) ts

def pStop (ts : List STok) : Prop := hdOK (fun t => primStopB t = true) ts

/-- Continuations a completed select may meet: a closing parenthesis, a
set-operation keyword, or the end of the input. -/
def selStop (ts : List STok) : Prop :=
  hdOK (fun t => t = symTok ")" ∨ t = kwTok "UNION" ∨ t = kwTok "INTERSECT" ∨
    t = kwTok "EXCEPT") ts

theorem hdOK_mono {P Q : STok → Prop} (h : ∀ t, P t → Q t) :
    ∀ {ts : List STok}, hdOK P ts → hdOK Q ts := by
  intro ts hp
  cases ts with
  | nil => trivial
  | cons t ts1 => exact h t hp

theorem hdOK_cons {P : STok → Prop} {t : STok} {ts : List STok} (h : P t) :
    hdOK P (t :: ts) := h

theorem selStop_hdOK {P : STok → Prop} {C : List STok} (hC : selStop C)
    (h1 : P (symTok ")")) (h2 : P (kwTok "UNION")) (h3 : P (kwTok "INTERSECT"))
    (h4 : P (kwTok "EXCEPT")) : hdOK P C := by
  cases C with
  | nil => trivial
  | cons t ts =>
    rcases hC with rfl | rfl | rfl | rfl
    · exact h1
    · exact h2
    · exact h3
    · exact h4

/-! Tail parsers return immediately on a stopped head. -/

theorem castTail_stop (g d : Nat) (e : Expr) (ts : List STok)
    (hs : hdOK (fun t => castStopB t = true) ts) :
    parseCastTail (g + 1) d e ts = Except.ok (e, ts) := by
  cases ts with
  | nil => simp [parseCastTail]
  | cons t ts1 =>
    have hx : isSymT "::" t = false := by
      simpa [castStopB] using hs
    simp [parseCastTail, hx]

theorem mulTail_stop (g d : Nat) (e : Expr) (ts : List STok)
    (hs : hdOK (fun t => mulStopB t = true) ts) :
    parseMulTail (g + 1) d e ts = Except.ok (e, ts) := by
  cases ts with
  | nil => simp [parseMulTail]
  | cons t ts1 =>
    obtain ⟨k, w⟩ := t
    cases k with
    | sym =>
      have hs2 : mulStopB ⟨.sym, w⟩ = true := hs
      simp only [mulStopB, castStopB, isSymT, beq_self_eq_true,
        Bool.true_and, Bool.and_eq_true, Bool.not_eq_true',
        beq_eq_false_iff_ne] at hs2
      have hmul : mulOpOf w = none := by
        simp only [mulOpOf]
        split_ifs <;> first | rfl | tauto
      simp [parseMulTail, hmul]
    | kw => simp [parseMulTail]
    | id => simp [parseMulTail]
    | str => simp [parseMulTail]
    | num => simp [parseMulTail]

theorem addTail_stop (g d : Nat) (e : Expr) (ts : List STok)
    (hs : hdOK (fun t => addStopB t = true) ts) :
    parseAddTail (g + 1) d e ts = Except.ok (e, ts) := by
  cases ts with
  | nil => simp [parseAddTail]
  | cons t ts1 =>
    obtain ⟨k, w⟩ := t
    cases k with
    | sym =>
      have hs2 : addStopB ⟨.sym, w⟩ = true := hs
      simp only [addStopB, mulStopB, castStopB, isSymT, beq_self_eq_true,
        Bool.true_and, Bool.and_eq_true, Bool.not_eq_true',
        beq_eq_false_iff_ne] at hs2
      have hadd : addOpOf w = none := by
        simp only [addOpOf]
        split_ifs <;> first | rfl | tauto
      simp [parseAddTail, hadd]
    | kw => simp [parseAddTail]
    | id => simp [parseAddTail]
    | str => simp [parseAddTail]
    | num => simp [parseAddTail]

theorem cmpTail_stop (g d : Nat) (e : Expr) (ts : List STok)
    (hs : hdOK (fun t => cmpStopB t = true) ts) :
    parseCmpTail (g + 1) d e ts = Except.ok (e, ts) := by
  cases ts with
  | nil => simp [parseCmpTail]
  | cons t ts1 =>
    obtain ⟨k, w⟩ := t
    cases k with
    | sym =>
      have hs2 : cmpStopB ⟨.sym, w⟩ = true := hs
      simp only [cmpStopB, addStopB, mulStopB, castStopB, isSymT,
        beq_self_eq_true, Bool.true_and, Bool.and_eq_true, Bool.not_eq_true',
        beq_eq_false_iff_ne] at hs2
      have hcmp : cmpOpOf w = none := by
        simp only [cmpOpOf]
        split_ifs <;> first | rfl | tauto
      simp [parseCmpTail, hcmp]
    | kw => simp [parseCmpTail]
    | id => simp [parseCmpTail]
    | str => simp [parseCmpTail]
    | num => simp [parseCmpTail]

theorem andTail_stop (g d : Nat) (e : Expr) (ts : List STok)
    (hs : hdOK (fun t => andStopB t = true) ts) :
    parseAndTail (g + 1) d e ts = Except.ok (e, ts) := by
  cases ts with
  | nil => simp [parseAndTail]
  | cons t ts1 =>
    have hx : isKwT "AND" t = false := by
      have hs2 : andStopB t = true := hs
      simp only [andStopB, Bool.and_eq_true, Bool.not_eq_true'] at hs2
      exact hs2.2
    simp [parseAndTail, hx]

theorem orTail_stop (g d : Nat) (e : Expr) (ts : List STok)
    (hs : hdOK (fun t => exprStopB t = true) ts) :
    parseOrTail (g + 1) d e ts = Except.ok (e, ts) := by
  cases ts with
  | nil => simp [parseOrTail]
  | cons t ts1 =>
    have hx : isKwT "OR" t = false := by
      have hs2 : exprStopB t = true := hs
      simp only [exprStopB, Bool.and_eq_true, Bool.not_eq_true'] at hs2
      exact hs2.2
    simp [parseOrTail, hx]

/-! Stop-predicate weakening. -/

theorem exprStop_to_and {t : STok} (h : exprStopB t = true) : andStopB t = true := by
  simp only [exprStopB, Bool.and_eq_true] at h
  exact h.1

theorem andStop_to_cmp {t : STok} (h : andStopB t = true) : cmpStopB t = true := by
  simp only [andStopB, Bool.and_eq_true] at h
  exact h.1

theorem cmpStop_to_add {t : STok} (h : cmpStopB t = true) : addStopB t = true := by
  simp only [cmpStopB, Bool.and_eq_true] at h
  exact h.1.1.1.1.1.1.1

theorem addStop_to_mul {t : STok} (h : addStopB t = true) : mulStopB t = true := by
  simp only [addStopB, Bool.and_eq_true] at h
  exact h.1.1

theorem mulStop_to_cast {t : STok} (h : mulStopB t = true) : castStopB t = true := by
  simp only [mulStopB, Bool.and_eq_true] at h
  exact h.1.1.1

/-! Level pass-through: each precedence level with a stopped continuation. -/

theorem castC (g d : Nat) (ts : List STok) (e : Expr) (ts2 : List STok)
    (h : parsePrimary g d ts = Except.ok (e, ts2))
    (hs : hdOK (fun t => castStopB t = true) ts2) :
    parseExprCast (g + 1) d ts = Except.ok (e, ts2) := by
  simp only [parseExprCast, h]
  cases g with
  | zero => simp [parsePrimary] at h
  | succ g2 => exact castTail_stop g2 d e ts2 hs

theorem unC (g d : Nat) (ts : List STok) (e : Expr) (ts2 : List STok)
    (h : parsePrimary g d ts = Except.ok (e, ts2))
    (hn : hdOK (fun t => isSymT "-" t = false) ts)
    (hs : hdOK (fun t => castStopB t = true) ts2) :
    parseExprUnary (g + 2) d ts = Except.ok (e, ts2) := by
  have hc := castC g d ts e ts2 h hs
  cases ts with
  | nil => simpa [parseExprUnary] using hc
  | cons t ts1 =>
    have hx : isSymT "-" t = false := hn
    simpa [parseExprUnary, hx] using hc

theorem mulC (g d : Nat) (ts : List STok) (e : Expr) (ts2 : List STok)
    (h : parsePrimary g d ts = Except.ok (e, ts2))
    (hn : hdOK (fun t => isSymT "-" t = false) ts)
    (hs : hdOK (fun t => mulStopB t = true) ts2) :
    parseExprMul (g + 3) d ts = Except.ok (e, ts2) := by
  have hu := unC g d ts e ts2 h hn (hdOK_mono (fun t => mulStop_to_cast) hs)
  simp only [parseExprMul, hu]
  exact mulTail_stop (g + 1) d e ts2 hs

theorem addC (g d : Nat) (ts : List STok) (e : Expr) (ts2 : List STok)
    (h : parsePrimary g d ts = Except.ok (e, ts2))
    (hn : hdOK (fun t => isSymT "-" t = false) ts)
    (hs : hdOK (fun t => addStopB t = true) ts2) :
    parseExprAdd (g + 4) d ts = Except.ok (e, ts2) := by
  have hm := mulC g d ts e ts2 h hn (hdOK_mono (fun t => addStop_to_mul) hs)
  simp only [parseExprAdd, hm]
  exact addTail_stop (g + 2) d e ts2 hs

theorem cmpC (g d : Nat) (ts : List STok) (e : Expr) (ts2 : List STok)
    (h : parsePrimary g d ts = Except.ok (e, ts2))
    (hn : hdOK (fun t => isSymT "-" t = false) ts)
    (hs : hdOK (fun t => cmpStopB t = true) ts2) :
    parseExprCmp (g + 5) d ts = Except.ok (e, ts2) := by
  have ha := addC g d ts e ts2 h hn (hdOK_mono (fun t => cmpStop_to_add) hs)
  simp only [parseExprCmp, ha]
  exact cmpTail_stop (g + 3) d e ts2 hs

theorem notC (g d : Nat) (ts : List STok) (e : Expr) (ts2 : List STok)
    (h : parsePrimary g d ts = Except.ok (e, ts2))
    (hn : hdOK (fun t => isSymT "-" t = false) ts)
    (hn2 : hdOK (fun t => isKwT "NOT" t = false) ts)
    (hs : hdOK (fun t => cmpStopB t = true) ts2) :
    parseExprNot (g + 6) d ts = Except.ok (e, ts2) := by
  have hc := cmpC g d ts e ts2 h hn hs
  cases ts with
  | nil => simpa [parseExprNot] using hc
  | cons t ts1 =>
    have hx : isKwT "NOT" t = false := hn2
    simpa [parseExprNot, hx] using hc

theorem andC (g d : Nat) (ts : List STok) (e : Expr) (ts2 : List STok)
    (h : parsePrimary g d ts = Except.ok (e, ts2))
    (hn : hdOK (fun t => isSymT "-" t = false) ts)
    (hn2 : hdOK (fun t => isKwT "NOT" t = false) ts)
    (hs : hdOK (fun t => andStopB t = true) ts2) :
    parseExprAnd (g + 7) d ts = Except.ok (e, ts2) := by
  have hn3 := notC g d ts e ts2 h hn hn2 (hdOK_mono (fun t => andStop_to_cmp) hs)
  simp only [parseExprAnd, hn3]
  exact andTail_stop (g + 5) d e ts2 hs

theorem orC (g d : Nat) (ts : List STok) (e : Expr) (ts2 : List STok)
    (h : parsePrimary g d ts = Except.ok (e, ts2))
    (hn : hdOK (fun t => isSymT "-" t = false) ts)
    (hn2 : hdOK (fun t => isKwT "NOT" t = false) ts)
    (hs : hdOK (fun t => exprStopB t = true) ts2) :
    parseExprOr (g + 8) d ts = Except.ok (e, ts2) := by
  have ha := andC g d ts e ts2 h hn hn2 (hdOK_mono (fun t => exprStop_to_and) hs)
  simp only [parseExprOr, ha]
  exact orTail_stop (g + 6) d e ts2 hs

/-! Shapes of formatter fragments. -/

theorem fmtExpr_len_pos : ∀ e : Expr, 1 ≤ (fmtExpr e).length := by
  intro e
  cases e <;> try simp [fmtExpr]
  case col tbl nm => cases tbl <;> simp [fmtExpr]

theorem fmtSel_len_pos : ∀ q : Sel, 1 ≤ (fmtSel q).length := by
  intro q
  obtain ⟨items, fr, wh, gb, hv, ob, lm, off⟩ := q
  simp [fmtSel]

theorem fmtItem_len_pos : ∀ it : SelItem, 1 ≤ (fmtItem it).length := by
  intro it
  cases it with
  | starI => simp [fmtItem]
  | exprI e al =>
    have := fmtExpr_len_pos e
    simp [fmtItem]
    omega

theorem fmtFromIt_len_pos : ∀ fi : FromIt, 1 ≤ (fmtFromIt fi).length := by
  intro fi
  cases fi <;> simp [fmtFromIt]

/-- The first token of a formatted expression is a literal, an identifier
or an opening parenthesis; formatted well-formed expressions never start
with a keyword, a star, a minus or a closing delimiter. -/
theorem fmtExprHead (e : Expr) (d : Nat) (he : okE d e = true) :
    ∃ c cs, fmtExpr e = c :: cs ∧
      isSymT "-" c = false ∧ isKwT "NOT" c = false ∧ isSymT "*" c = false ∧
      isSymT ")" c = false ∧ isKwT "SELECT" c = false := by
  cases e with
  | numL n => exact ⟨_, _, rfl, rfl, rfl, rfl, rfl, rfl⟩
  | strL s => exact ⟨_, _, rfl, rfl, rfl, rfl, rfl, rfl⟩
  | col tbl nm =>
    cases tbl with
    | none => exact ⟨_, _, rfl, rfl, rfl, rfl, rfl, rfl⟩
    | some t => exact ⟨_, _, rfl, rfl, rfl, rfl, rfl, rfl⟩
  | star => simp [okE] at he
  | bin o l r => exact ⟨_, _, rfl, by decide, by decide, by decide, by decide, by decide⟩
  | notE e2 => exact ⟨_, _, rfl, by decide, by decide, by decide, by decide, by decide⟩
  | negE e2 => exact ⟨_, _, rfl, by decide, by decide, by decide, by decide, by decide⟩
  | castE e2 ty => exact ⟨_, _, rfl, by decide, by decide, by decide, by decide, by decide⟩
  | fn nm a => exact ⟨_, _, rfl, rfl, rfl, rfl, rfl, rfl⟩
  | subq q => exact ⟨_, _, rfl, by decide, by decide, by decide, by decide, by decide⟩
  | caseE arms els => exact ⟨_, _, rfl, by decide, by decide, by decide, by decide, by decide⟩

/-- Canonical token sequence of a full expression comma list. -/
def fmtEListFull : EList → List STok
  | .nilE => []
  | .consE e es => fmtExpr e ++ fmtEListMore es

theorem fmtFArgs_args (es : EList) : fmtFArgs (.argsA es) = fmtEListFull es := by
  cases es <;> rfl

/-- Canonical token sequence of a full order-by list. -/
def fmtOrderFull : OList → List STok
  | .nilO => []
  | .consO e asc os =>
    fmtExpr e ++ kwTok (if asc then "ASC" else "DESC") :: fmtOrderMore os

theorem fmtOrderMore_full (os : OList) (h : os ≠ .nilO) :
    fmtOrderMore os = symTok "," :: fmtOrderFull os := by
  cases os with
  | nilO => exact absurd rfl h
  | consO e asc os2 => rfl

theorem fmtOrderBy_full (e : Expr) (asc : Bool) (os : OList) :
    fmtOrderBy (.consO e asc os) =
      kwTok "ORDER" :: kwTok "BY" :: fmtOrderFull (.consO e asc os) := rfl

/-- Canonical token sequence of an optional keyword-guarded expression. -/
def fmtOKw (w : String) : OExpr → List STok
  | .noneE => []
  | .someE e => kwTok w :: fmtExpr e

theorem fmtOWhere_okw (oe : OExpr) : fmtOWhere oe = fmtOKw "WHERE" oe := by
  cases oe <;> rfl

theorem fmtOHaving_okw (oe : OExpr) : fmtOHaving oe = fmtOKw "HAVING" oe := by
  cases oe <;> rfl

theorem fmtOLimit_okw (oe : OExpr) : fmtOLimit oe = fmtOKw "LIMIT" oe := by
  cases oe <;> rfl

theorem fmtOOffset_okw (oe : OExpr) : fmtOOffset oe = fmtOKw "OFFSET" oe := by
  cases oe <;> rfl

/-! Head conditions across formatter fragments. -/

theorem hdOK_append_left {P : STok → Prop} {a b : List STok}
    (hne : a ≠ []) (h : hdOK P a) : hdOK P (a ++ b) := by
  cases a with
  | nil => exact absurd rfl hne
  | cons t ts => exact h

theorem hdOK_okw {P : STok → Prop} (w : String) (oe : OExpr) {X : List STok}
    (h1 : P (kwTok w)) (hX : hdOK P X) : hdOK P (fmtOKw w oe ++ X) := by
  cases oe with
  | noneE => simpa [fmtOKw] using hX
  | someE e => exact h1

theorem hdOK_groupBy {P : STok → Prop} (gb : EList) {X : List STok}
    (h1 : P (kwTok "GROUP")) (hX : hdOK P X) : hdOK P (fmtGroupBy gb ++ X) := by
  cases gb with
  | nilE => simpa [fmtGroupBy] using hX
  | consE e es => exact h1

theorem hdOK_orderBy {P : STok → Prop} (ob : OList) {X : List STok}
    (h1 : P (kwTok "ORDER")) (hX : hdOK P X) : hdOK P (fmtOrderBy ob ++ X) := by
  cases ob with
  | nilO => simpa [fmtOrderBy] using hX
  | consO e asc os => exact h1

theorem hdOK_fromPart {P : STok → Prop} (fr : FromPart) {X : List STok}
    (h1 : P (kwTok "FROM")) (hX : hdOK P X) : hdOK P (fmtFromPart fr ++ X) := by
  cases fr with
  | noneF => simpa [fmtFromPart] using hX
  | someF fi js => exact h1

theorem hdOK_joins {P : STok → Prop} (js : JList) {X : List STok}
    (h1 : P (kwTok "INNER")) (h2 : P (kwTok "LEFT")) (h3 : P (kwTok "RIGHT"))
    (h4 : P (kwTok "FULL")) (h5 : P (kwTok "CROSS")) (hX : hdOK P X) :
    hdOK P (fmtJoins js ++ X) := by
  cases js with
  | nilJ => simpa [fmtJoins] using hX
  | consJ j js2 =>
    obtain ⟨k, src, onE⟩ := j
    cases k with
    | innerJ => exact h1
    | leftJ => exact h2
    | rightJ => exact h3
    | fullJ => exact h4
    | crossJ => exact h5

theorem hdOK_onE {P : STok → Prop} (oe : OExpr) {X : List STok}
    (h1 : P (kwTok "ON")) (hX : hdOK P X) : hdOK P (fmtOnE oe ++ X) := by
  cases oe with
  | noneE => simpa [fmtOnE] using hX
  | someE e => exact h1

theorem hdOK_alias {P : STok → Prop} (al : Option (List Char)) {X : List STok}
    (h1 : P (kwTok "AS")) (hX : hdOK P X) : hdOK P (aliasToks al ++ X) := by
  cases al with
  | none => simpa [aliasToks] using hX
  | some a => exact h1

theorem hdOK_itemsMore {P : STok → Prop} (its : IList) {X : List STok}
    (h1 : P (symTok ",")) (hX : hdOK P X) : hdOK P (fmtItemsMore its ++ X) := by
  cases its with
  | nilI => simpa [fmtItemsMore] using hX
  | consI it rest => exact h1

theorem hdOK_eListMore {P : STok → Prop} (es : EList) {X : List STok}
    (h1 : P (symTok ",")) (hX : hdOK P X) : hdOK P (fmtEListMore es ++ X) := by
  cases es with
  | nilE => simpa [fmtEListMore] using hX
  | consE e es2 => exact h1

theorem hdOK_orderMore {P : STok → Prop} (os : OList) {X : List STok}
    (h1 : P (symTok ",")) (hX : hdOK P X) : hdOK P (fmtOrderMore os ++ X) := by
  cases os with
  | nilO => simpa [fmtOrderMore] using hX
  | consO e asc os2 => exact h1

theorem hdOK_setOps {P : STok → Prop} (ops : List (SetKind × Sel)) {X : List STok}
    (h1 : P (kwTok "UNION")) (h2 : P (kwTok "INTERSECT"))
    (h3 : P (kwTok "EXCEPT")) (hX : hdOK P X) : hdOK P (fmtSetOps ops ++ X) := by
  cases ops with
  | nil => simpa [fmtSetOps] using hX
  | cons p rest =>
    obtain ⟨k, s⟩ := p
    cases k with
    | unionK => exact h1
    | unionAllK => exact h1
    | intersectK => exact h2
    | exceptK => exact h3

theorem hdOK_whens {P : STok → Prop} (arms : WList) {X : List STok}
    (h1 : P (kwTok "WHEN")) (hX : hdOK P X) : hdOK P (fmtWhens arms ++ X) := by
  cases arms with
  | nilW => simpa [fmtWhens] using hX
  | consW c r rest => exact h1

theorem hdOK_elseE {P : STok → Prop} (els : OExpr) {X : List STok}
    (h1 : P (kwTok "ELSE")) (hX : hdOK P X) : hdOK P (fmtElse els ++ X) := by
  cases els with
  | noneE => simpa [fmtElse] using hX
  | someE e => exact h1

theorem fmtSelHead (q : Sel) : ∃ tl, fmtSel q = kwTok "SELECT" :: tl := by
  obtain ⟨items, fr, wh, gb, hv, ob, lm, off⟩ := q
  exact ⟨_, rfl⟩

theorem fmtStmtHead (st : Stmt) :
    hdOK (fun t => t = kwTok "SELECT" ∨ t = kwTok "INSERT" ∨ t = kwTok "UPDATE" ∨
      t = kwTok "DELETE" ∨ t = kwTok "EXPLAIN") (fmtStmt st) := by
  cases st with
  | selectS s ops =>
    obtain ⟨tl, htl⟩ := fmtSelHead s
    simp only [fmtStmt, htl]
    exact Or.inl rfl
  | insertS t cols vals => exact Or.inr (Or.inl rfl)
  | updateS t sets wh => exact Or.inr (Or.inr (Or.inl rfl))
  | deleteS t wh => exact Or.inr (Or.inr (Or.inr (Or.inl rfl)))
  | explainS an vb fo inner => exact Or.inr (Or.inr (Or.inr (Or.inr rfl)))

theorem fnFinish_ok (nm : List Char) (a : FArgs) (C : List STok)
    (hC : hdOK (fun t => isKwT "OVER" t = false) C) :
    fnFinish nm a C = Except.ok (.fn nm a, C) := by
  cases C with
  | nil => rfl
  | cons t ts =>
    have hx : isKwT "OVER" t = false := hC
    simp [fnFinish, hx]

theorem fmtJoins_ne_nil (j : Join) (js : JList) :
    fmtJoins (.consJ j js) ≠ [] := by
  obtain ⟨k, src, onE⟩ := j
  cases k <;> simp [fmtJoins, joinKwToks]

/-! Ladder composition: a fully parenthesized binary expression body. -/

theorem parenWrap (g1 d : Nat) (inner : List STok) (e : Expr) (C : List STok)
    (c : STok) (cs : List STok) (hcons : inner = c :: cs)
    (hkw : isKwT "SELECT" c = false)
    (hinner : parseExprOr g1 d inner = Except.ok (e, symTok ")" :: C)) :
    parsePrimary (g1 + 1) d (symTok "(" :: inner) = Except.ok (e, C) := by
  subst hcons
  simp [parsePrimary, symTok, kwTok, hkw, hinner, expectSym, isSymT]

/-! One-step unfolding equations, with opaque fuel to keep rewriting local. -/

theorem parseExprOr_step (f d : Nat) (ts : List STok) :
    parseExprOr (f + 1) d ts =
      match parseExprAnd f d ts with
      | .error e => .error e
      | .ok (l, ts1) => parseOrTail f d l ts1 := by
  simp only [parseExprOr]

theorem parseOrTail_step (f d : Nat) (acc : Expr) (ts : List STok) :
    parseOrTail (f + 1) d acc ts =
      match ts with
      | t :: ts1 =>
        if isKwT "OR" t then
          match parseExprAnd f d ts1 with
          | .error e => .error e
          | .ok (r, ts2) => parseOrTail f d (.bin .orB acc r) ts2
        else .ok (acc, ts)
      | [] => .ok (acc, []) := by
  simp only [parseOrTail]

theorem parseExprAnd_step (f d : Nat) (ts : List STok) :
    parseExprAnd (f + 1) d ts =
      match parseExprNot f d ts with
      | .error e => .error e
      | .ok (l, ts1) => parseAndTail f d l ts1 := by
  simp only [parseExprAnd]

theorem parseAndTail_step (f d : Nat) (acc : Expr) (ts : List STok) :
    parseAndTail (f + 1) d acc ts =
      match ts with
      | t :: ts1 =>
        if isKwT "AND" t then
          match parseExprNot f d ts1 with
          | .error e => .error e
          | .ok (r, ts2) => parseAndTail f d (.bin .andB acc r) ts2
        else .ok (acc, ts)
      | [] => .ok (acc, []) := by
  simp only [parseAndTail]

theorem parseExprNot_step (f d : Nat) (ts : List STok) :
    parseExprNot (f + 1) d ts =
      match ts with
      | t :: ts1 =>
        if isKwT "NOT" t then
          match parseExprNot f d ts1 with
          | .error e => .error e
          | .ok (e, ts2) => .ok (.notE e, ts2)
        else parseExprCmp f d ts
      | [] => parseExprCmp f d ts := by
  simp only [parseExprNot]

theorem parseExprCmp_step (f d : Nat) (ts : List STok) :
    parseExprCmp (f + 1) d ts =
      match parseExprAdd f d ts with
      | .error e => .error e
      | .ok (l, ts1) => parseCmpTail f d l ts1 := by
  simp only [parseExprCmp]

theorem parseCmpTail_step (f d : Nat) (acc : Expr) (ts : List STok) :
    parseCmpTail (f + 1) d acc ts =
      match ts with
      | ⟨.sym, w⟩ :: ts1 =>
        match cmpOpOf w with
        | some o =>
          match parseExprAdd f d ts1 with
          | .error e => .error e
          | .ok (r, ts2) => parseCmpTail f d (.bin o acc r) ts2
        | none => .ok (acc, ts)
      | _ => .ok (acc, ts) := by
  simp only [parseCmpTail]

theorem parseExprAdd_step (f d : Nat) (ts : List STok) :
    parseExprAdd (f + 1) d ts =
      match parseExprMul f d ts with
      | .error e => .error e
      | .ok (l, ts1) => parseAddTail f d l ts1 := by
  simp only [parseExprAdd]

theorem parseAddTail_step (f d : Nat) (acc : Expr) (ts : List STok) :
    parseAddTail (f + 1) d acc ts =
      match ts with
      | ⟨.sym, w⟩ :: ts1 =>
        match addOpOf w with
        | some o =>
          match parseExprMul f d ts1 with
          | .error e => .error e
          | .ok (r, ts2) => parseAddTail f d (.bin o acc r) ts2
        | none => .ok (acc, ts)
      | _ => .ok (acc, ts) := by
  simp only [parseAddTail]

theorem parseExprMul_step (f d : Nat) (ts : List STok) :
    parseExprMul (f + 1) d ts =
      match parseExprUnary f d ts with
      | .error e => .error e
      | .ok (l, ts1) => parseMulTail f d l ts1 := by
  simp only [parseExprMul]

theorem parseMulTail_step (f d : Nat) (acc : Expr) (ts : List STok) :
    parseMulTail (f + 1) d acc ts =
      match ts with
      | ⟨.sym, w⟩ :: ts1 =>
        match mulOpOf w with
        | some o =>
          match parseExprUnary f d ts1 with
          | .error e => .error e
          | .ok (r, ts2) => parseMulTail f d (.bin o acc r) ts2
        | none => .ok (acc, ts)
      | _ => .ok (acc, ts) := by
  simp only [parseMulTail]

theorem parseExprUnary_step (f d : Nat) (ts : List STok) :
    parseExprUnary (f + 1) d ts =
      match ts with
      | t :: ts1 =>
        if isSymT "-" t then
          match parseExprUnary f d ts1 with
          | .error e => .error e
          | .ok (e, ts2) => .ok (.negE e, ts2)
        else parseExprCast f d ts
      | [] => parseExprCast f d ts := by
  simp only [parseExprUnary]

theorem parseExprCast_step (f d : Nat) (ts : List STok) :
    parseExprCast (f + 1) d ts =
      match parsePrimary f d ts with
      | .error e => .error e
      | .ok (e, ts1) => parseCastTail f d e ts1 := by
  simp only [parseExprCast]

theorem parseCastTail_step (f d : Nat) (acc : Expr) (ts : List STok) :
    parseCastTail (f + 1) d acc ts =
      match ts with
      | t :: ts1 =>
        if isSymT "::" t then
          match expectIdent ts1 with
          | .error e => .error e
          | .ok (ty, ts2) => parseCastTail f d (.castE acc ty) ts2
        else .ok (acc, ts)
      | [] => .ok (acc, []) := by
  simp only [parseCastTail]

/-! Single-level pass-through with variable fuel. -/

theorem orPass (f d : Nat) (ts : List STok) (e : Expr) (ts2 : List STok)
    (h : parseExprAnd f d ts = Except.ok (e, ts2)) (hf : 1 ≤ f)
    (hs : hdOK (fun t => exprStopB t = true) ts2) :
    parseExprOr (f + 1) d ts = Except.ok (e, ts2) := by
  rw [parseExprOr_step]
  simp only [h]
  obtain ⟨f1, rfl⟩ : ∃ f1, f = f1 + 1 := ⟨f - 1, by omega⟩
  exact orTail_stop f1 d e ts2 hs

theorem andPass (f d : Nat) (ts : List STok) (e : Expr) (ts2 : List STok)
    (h : parseExprNot f d ts = Except.ok (e, ts2)) (hf : 1 ≤ f)
    (hs : hdOK (fun t => andStopB t = true) ts2) :
    parseExprAnd (f + 1) d ts = Except.ok (e, ts2) := by
  rw [parseExprAnd_step]
  simp only [h]
  obtain ⟨f1, rfl⟩ : ∃ f1, f = f1 + 1 := ⟨f - 1, by omega⟩
  exact andTail_stop f1 d e ts2 hs

theorem notPass (f d : Nat) (ts : List STok) (e : Expr) (ts2 : List STok)
    (h : parseExprCmp f d ts = Except.ok (e, ts2))
    (hn : hdOK (fun t => isKwT "NOT" t = false) ts) :
    parseExprNot (f + 1) d ts = Except.ok (e, ts2) := by
  rw [parseExprNot_step]
  cases ts with
  | nil => exact h
  | cons t ts1 =>
    have hx : isKwT "NOT" t = false := hn
    simp only [hx, Bool.false_eq_true, if_false]
    exact h

theorem cmpPass (f d : Nat) (ts : List STok) (e : Expr) (ts2 : List STok)
    (h : parseExprAdd f d ts = Except.ok (e, ts2)) (hf : 1 ≤ f)
    (hs : hdOK (fun t => cmpStopB t = true) ts2) :
    parseExprCmp (f + 1) d ts = Except.ok (e, ts2) := by
  rw [parseExprCmp_step]
  simp only [h]
  obtain ⟨f1, rfl⟩ : ∃ f1, f = f1 + 1 := ⟨f - 1, by omega⟩
  exact cmpTail_stop f1 d e ts2 hs

theorem addPass (f d : Nat) (ts : List STok) (e : Expr) (ts2 : List STok)
    (h : parseExprMul f d ts = Except.ok (e, ts2)) (hf : 1 ≤ f)
    (hs : hdOK (fun t => addStopB t = true) ts2) :
    parseExprAdd (f + 1) d ts = Except.ok (e, ts2) := by
  rw [parseExprAdd_step]
  simp only [h]
  obtain ⟨f1, rfl⟩ : ∃ f1, f = f1 + 1 := ⟨f - 1, by omega⟩
  exact addTail_stop f1 d e ts2 hs

theorem mulPass (f d : Nat) (ts : List STok) (e : Expr) (ts2 : List STok)
    (h : parseExprUnary f d ts = Except.ok (e, ts2)) (hf : 1 ≤ f)
    (hs : hdOK (fun t => mulStopB t = true) ts2) :
    parseExprMul (f + 1) d ts = Except.ok (e, ts2) := by
  rw [parseExprMul_step]
  simp only [h]
  obtain ⟨f1, rfl⟩ : ∃ f1, f = f1 + 1 := ⟨f - 1, by omega⟩
  exact mulTail_stop f1 d e ts2 hs

theorem unPass (f d : Nat) (ts : List STok) (e : Expr) (ts2 : List STok)
    (h : parseExprCast f d ts = Except.ok (e, ts2))
    (hn : hdOK (fun t => isSymT "-" t = false) ts) :
    parseExprUnary (f + 1) d ts = Except.ok (e, ts2) := by
  rw [parseExprUnary_step]
  cases ts with
  | nil => exact h
  | cons t ts1 =>
    have hx : isSymT "-" t = false := hn
    simp only [hx, Bool.false_eq_true, if_false]
    exact h

/-! Binary, unary and cast ladders. -/

theorem orLadder (f d : Nat) (l r : Expr) (ts1 rest ts2 : List STok)
    (hl : parseExprAnd f d ts1 = Except.ok (l, kwTok "OR" :: rest))
    (hr : parseExprAnd (f - 1) d rest = Except.ok (r, ts2))
    (hs : hdOK (fun t => exprStopB t = true) ts2) (hf : 2 ≤ f) :
    parseExprOr (f + 1) d ts1 = Except.ok (.bin .orB l r, ts2) := by
  rw [parseExprOr_step]
  simp only [hl]
  obtain ⟨f1, rfl⟩ : ∃ f1, f = f1 + 1 := ⟨f - 1, by omega⟩
  simp only [parseOrTail_step]
  rw [if_pos (by decide : isKwT "OR" (kwTok "OR") = true)]
  rw [show f1 + 1 - 1 = f1 from rfl] at hr
  simp only [hr]
  obtain ⟨f2, rfl⟩ : ∃ f2, f1 = f2 + 1 := ⟨f1 - 1, by omega⟩
  exact orTail_stop f2 d _ ts2 hs

theorem andLadder (f d : Nat) (l r : Expr) (ts1 rest ts2 : List STok)
    (hl : parseExprNot f d ts1 = Except.ok (l, kwTok "AND" :: rest))
    (hr : parseExprNot (f - 1) d rest = Except.ok (r, ts2))
    (hs : hdOK (fun t => andStopB t = true) ts2) (hf : 2 ≤ f) :
    parseExprAnd (f + 1) d ts1 = Except.ok (.bin .andB l r, ts2) := by
  rw [parseExprAnd_step]
  simp only [hl]
  obtain ⟨f1, rfl⟩ : ∃ f1, f = f1 + 1 := ⟨f - 1, by omega⟩
  simp only [parseAndTail_step]
  rw [if_pos (by decide : isKwT "AND" (kwTok "AND") = true)]
  rw [show f1 + 1 - 1 = f1 from rfl] at hr
  simp only [hr]
  obtain ⟨f2, rfl⟩ : ∃ f2, f1 = f2 + 1 := ⟨f1 - 1, by omega⟩
  exact andTail_stop f2 d _ ts2 hs

theorem cmpLadder (f d : Nat) (o : BinOp) (w : List Char) (l r : Expr)
    (ts1 rest ts2 : List STok) (hw : cmpOpOf w = some o)
    (hl : parseExprAdd f d ts1 = Except.ok (l, ⟨.sym, w⟩ :: rest))
    (hr : parseExprAdd (f - 1) d rest = Except.ok (r, ts2))
    (hs : hdOK (fun t => cmpStopB t = true) ts2) (hf : 2 ≤ f) :
    parseExprCmp (f + 1) d ts1 = Except.ok (.bin o l r, ts2) := by
  rw [parseExprCmp_step]
  simp only [hl]
  obtain ⟨f1, rfl⟩ : ∃ f1, f = f1 + 1 := ⟨f - 1, by omega⟩
  simp only [parseCmpTail_step, hw]
  rw [show f1 + 1 - 1 = f1 from rfl] at hr
  simp only [hr]
  obtain ⟨f2, rfl⟩ : ∃ f2, f1 = f2 + 1 := ⟨f1 - 1, by omega⟩
  exact cmpTail_stop f2 d _ ts2 hs

theorem addLadder (f d : Nat) (o : BinOp) (w : List Char) (l r : Expr)
    (ts1 rest ts2 : List STok) (hw : addOpOf w = some o)
    (hl : parseExprMul f d ts1 = Except.ok (l, ⟨.sym, w⟩ :: rest))
    (hr : parseExprMul (f - 1) d rest = Except.ok (r, ts2))
    (hs : hdOK (fun t => addStopB t = true) ts2) (hf : 2 ≤ f) :
    parseExprAdd (f + 1) d ts1 = Except.ok (.bin o l r, ts2) := by
  rw [parseExprAdd_step]
  simp only [hl]
  obtain ⟨f1, rfl⟩ : ∃ f1, f = f1 + 1 := ⟨f - 1, by omega⟩
  simp only [parseAddTail_step, hw]
  rw [show f1 + 1 - 1 = f1 from rfl] at hr
  simp only [hr]
  obtain ⟨f2, rfl⟩ : ∃ f2, f1 = f2 + 1 := ⟨f1 - 1, by omega⟩
  exact addTail_stop f2 d _ ts2 hs

theorem mulLadder (f d : Nat) (o : BinOp) (w : List Char) (l r : Expr)
    (ts1 rest ts2 : List STok) (hw : mulOpOf w = some o)
    (hl : parseExprUnary f d ts1 = Except.ok (l, ⟨.sym, w⟩ :: rest))
    (hr : parseExprUnary (f - 1) d rest = Except.ok (r, ts2))
    (hs : hdOK (fun t => mulStopB t = true) ts2) (hf : 2 ≤ f) :
    parseExprMul (f + 1) d ts1 = Except.ok (.bin o l r, ts2) := by
  rw [parseExprMul_step]
  simp only [hl]
  obtain ⟨f1, rfl⟩ : ∃ f1, f = f1 + 1 := ⟨f - 1, by omega⟩
  simp only [parseMulTail_step, hw]
  rw [show f1 + 1 - 1 = f1 from rfl] at hr
  simp only [hr]
  obtain ⟨f2, rfl⟩ : ∃ f2, f1 = f2 + 1 := ⟨f1 - 1, by omega⟩
  exact mulTail_stop f2 d _ ts2 hs

theorem negLadder (f d : Nat) (e : Expr) (ts ts2 : List STok)
    (h : parseExprUnary f d ts = Except.ok (e, ts2)) :
    parseExprUnary (f + 1) d (symTok "-" :: ts) = Except.ok (.negE e, ts2) := by
  simp only [parseExprUnary_step]
  rw [if_pos (by decide : isSymT "-" (symTok "-") = true)]
  simp only [h]

theorem notLadder (f d : Nat) (e : Expr) (ts ts2 : List STok)
    (h : parseExprNot f d ts = Except.ok (e, ts2)) :
    parseExprNot (f + 1) d (kwTok "NOT" :: ts) = Except.ok (.notE e, ts2) := by
  simp only [parseExprNot_step]
  rw [if_pos (by decide : isKwT "NOT" (kwTok "NOT") = true)]
  simp only [h]

theorem castLadder (f d : Nat) (e : Expr) (ty : List Char) (ts ts2 : List STok)
    (h : parsePrimary f d ts = Except.ok (e, symTok "::" :: ⟨.id, ty⟩ :: ts2))
    (hs : hdOK (fun t => castStopB t = true) ts2) (hf : 2 ≤ f) :
    parseExprCast (f + 1) d ts = Except.ok (.castE e ty, ts2) := by
  rw [parseExprCast_step]
  simp only [h]
  obtain ⟨f1, rfl⟩ : ∃ f1, f = f1 + 1 := ⟨f - 1, by omega⟩
  simp only [parseCastTail_step]
  rw [if_pos (by decide : isSymT "::" (symTok "::") = true)]
  simp only [expectIdent]
  obtain ⟨f2, rfl⟩ : ∃ f2, f1 = f2 + 1 := ⟨f1 - 1, by omega⟩
  exact castTail_stop f2 d _ ts2 hs

theorem binInner (γ d : Nat) (o : BinOp) (l r : Expr) (C : List STok)
    (hl : parsePrimary (γ + 2) d
      (fmtExpr l ++ (opTok o :: (fmtExpr r ++ (symTok ")" :: C)))) =
      Except.ok (l, opTok o :: (fmtExpr r ++ (symTok ")" :: C))))
    (hr : parsePrimary (γ + 1) d (fmtExpr r ++ (symTok ")" :: C)) =
      Except.ok (r, symTok ")" :: C))
    (hl1 : hdOK (fun t => isSymT "-" t = false)
      (fmtExpr l ++ (opTok o :: (fmtExpr r ++ (symTok ")" :: C)))))
    (hl2 : hdOK (fun t => isKwT "NOT" t = false)
      (fmtExpr l ++ (opTok o :: (fmtExpr r ++ (symTok ")" :: C)))))
    (hr1 : hdOK (fun t => isSymT "-" t = false)
      (fmtExpr r ++ (symTok ")" :: C)))
    (hr2 : hdOK (fun t => isKwT "NOT" t = false)
      (fmtExpr r ++ (symTok ")" :: C))) :
    parseExprOr (γ + 10) d
      (fmtExpr l ++ (opTok o :: (fmtExpr r ++ (symTok ")" :: C)))) =
      Except.ok (.bin o l r, symTok ")" :: C) := by
  cases o
  case orB =>
    have aL := andC (γ + 2) d _ l _ hl hl1 hl2
      (by exact (by decide : andStopB (opTok BinOp.orB) = true))
    have aR := andC (γ + 1) d _ r _ hr hr1 hr2
      (by exact (by decide : andStopB (symTok ")") = true))
    have aL9 : parseExprAnd (γ + 9) d
        (fmtExpr l ++ (opTok BinOp.orB :: (fmtExpr r ++ (symTok ")" :: C)))) =
        Except.ok (l, opTok BinOp.orB :: (fmtExpr r ++ (symTok ")" :: C))) := by
      rw [show γ + 9 = γ + 2 + 7 by omega]
      exact aL
    have aR8 : parseExprAnd (γ + 9 - 1) d (fmtExpr r ++ (symTok ")" :: C)) =
        Except.ok (r, symTok ")" :: C) := by
      rw [show γ + 9 - 1 = γ + 1 + 7 by omega]
      exact aR
    rw [show γ + 10 = γ + 9 + 1 by omega]
    exact orLadder (γ + 9) d l r _ _ _ aL9 aR8
      (by exact (by decide : exprStopB (symTok ")") = true)) (by omega)
  case andB =>
    have nL := notC (γ + 2) d _ l _ hl hl1 hl2
      (by exact (by decide : cmpStopB (opTok BinOp.andB) = true))
    have nR := notC (γ + 1) d _ r _ hr hr1 hr2
      (by exact (by decide : cmpStopB (symTok ")") = true))
    have nL8 : parseExprNot (γ + 8) d
        (fmtExpr l ++ (opTok BinOp.andB :: (fmtExpr r ++ (symTok ")" :: C)))) =
        Except.ok (l, opTok BinOp.andB :: (fmtExpr r ++ (symTok ")" :: C))) := by
      rw [show γ + 8 = γ + 2 + 6 by omega]
      exact nL
    have nR7 : parseExprNot (γ + 8 - 1) d (fmtExpr r ++ (symTok ")" :: C)) =
        Except.ok (r, symTok ")" :: C) := by
      rw [show γ + 8 - 1 = γ + 1 + 6 by omega]
      exact nR
    have aA := andLadder (γ + 8) d l r _ _ _ nL8 nR7
      (by exact (by decide : andStopB (symTok ")") = true)) (by omega)
    rw [show γ + 10 = γ + 9 + 1 by omega]
    refine orPass (γ + 9) d _ _ _ ?_ (by omega)
      (by exact (by decide : exprStopB (symTok ")") = true))
    rw [show γ + 9 = γ + 8 + 1 by omega]
    exact aA
  case eqB =>
    have dL := addC (γ + 2) d _ l _ hl hl1
      (by exact (by decide : addStopB (opTok BinOp.eqB) = true))
    have dR := addC (γ + 1) d _ r _ hr hr1
      (by exact (by decide : addStopB (symTok ")") = true))
    have dL6 : parseExprAdd (γ + 6) d
        (fmtExpr l ++ (opTok BinOp.eqB :: (fmtExpr r ++ (symTok ")" :: C)))) =
        Except.ok (l, (⟨.sym, "=".data⟩ : STok) :: (fmtExpr r ++ (symTok ")" :: C))) := by
      rw [show γ + 6 = γ + 2 + 4 by omega]
      exact dL
    have dR5 : parseExprAdd (γ + 6 - 1) d (fmtExpr r ++ (symTok ")" :: C)) =
        Except.ok (r, symTok ")" :: C) := by
      rw [show γ + 6 - 1 = γ + 1 + 4 by omega]
      exact dR
    have cL := cmpLadder (γ + 6) d BinOp.eqB "=".data l r _ _ _
      (by decide) dL6 dR5
      (by exact (by decide : cmpStopB (symTok ")") = true)) (by omega)
    have nP : parseExprNot (γ + 8) d
        (fmtExpr l ++ (opTok BinOp.eqB :: (fmtExpr r ++ (symTok ")" :: C)))) =
        Except.ok (.bin BinOp.eqB l r, symTok ")" :: C) := by
      rw [show γ + 8 = γ + 7 + 1 by omega]
      exact notPass (γ + 7) d _ _ _ cL hl2
    have aP : parseExprAnd (γ + 9) d
        (fmtExpr l ++ (opTok BinOp.eqB :: (fmtExpr r ++ (symTok ")" :: C)))) =
        Except.ok (.bin BinOp.eqB l r, symTok ")" :: C) := by
      rw [show γ + 9 = γ + 8 + 1 by omega]
      exact andPass (γ + 8) d _ _ _ nP (by omega)
        (by exact (by decide : andStopB (symTok ")") = true))
    rw [show γ + 10 = γ + 9 + 1 by omega]
    exact orPass (γ + 9) d _ _ _ aP (by omega)
      (by exact (by decide : exprStopB (symTok ")") = true))
  case ltB =>
    have dL := addC (γ + 2) d _ l _ hl hl1
      (by exact (by decide : addStopB (opTok BinOp.ltB) = true))
    have dR := addC (γ + 1) d _ r _ hr hr1
      (by exact (by decide : addStopB (symTok ")") = true))
    have dL6 : parseExprAdd (γ + 6) d
        (fmtExpr l ++ (opTok BinOp.ltB :: (fmtExpr r ++ (symTok ")" :: C)))) =
        Except.ok (l, (⟨.sym, "<".data⟩ : STok) :: (fmtExpr r ++ (symTok ")" :: C))) := by
      rw [show γ + 6 = γ + 2 + 4 by omega]
      exact dL
    have dR5 : parseExprAdd (γ + 6 - 1) d (fmtExpr r ++ (symTok ")" :: C)) =
        Except.ok (r, symTok ")" :: C) := by
      rw [show γ + 6 - 1 = γ + 1 + 4 by omega]
      exact dR
    have cL := cmpLadder (γ + 6) d BinOp.ltB "<".data l r _ _ _
      (by decide) dL6 dR5
      (by exact (by decide : cmpStopB (symTok ")") = true)) (by omega)
    have nP : parseExprNot (γ + 8) d
        (fmtExpr l ++ (opTok BinOp.ltB :: (fmtExpr r ++ (symTok ")" :: C)))) =
        Except.ok (.bin BinOp.ltB l r, symTok ")" :: C) := by
      rw [show γ + 8 = γ + 7 + 1 by omega]
      exact notPass (γ + 7) d _ _ _ cL hl2
    have aP : parseExprAnd (γ + 9) d
        (fmtExpr l ++ (opTok BinOp.ltB :: (fmtExpr r ++ (symTok ")" :: C)))) =
        Except.ok (.bin BinOp.ltB l r, symTok ")" :: C) := by
      rw [show γ + 9 = γ + 8 + 1 by omega]
      exact andPass (γ + 8) d _ _ _ nP (by omega)
        (by exact (by decide : andStopB (symTok ")") = true))
    rw [show γ + 10 = γ + 9 + 1 by omega]
    exact orPass (γ + 9) d _ _ _ aP (by omega)
      (by exact (by decide : exprStopB (symTok ")") = true))
  case gtB =>
    have dL := addC (γ + 2) d _ l _ hl hl1
      (by exact (by decide : addStopB (opTok BinOp.gtB) = true))
    have dR := addC (γ + 1) d _ r _ hr hr1
      (by exact (by decide : addStopB (symTok ")") = true))
    have dL6 : parseExprAdd (γ + 6) d
        (fmtExpr l ++ (opTok BinOp.gtB :: (fmtExpr r ++ (symTok ")" :: C)))) =
        Except.ok (l, (⟨.sym, ">".data⟩ : STok) :: (fmtExpr r ++ (symTok ")" :: C))) := by
      rw [show γ + 6 = γ + 2 + 4 by omega]
      exact dL
    have dR5 : parseExprAdd (γ + 6 - 1) d (fmtExpr r ++ (symTok ")" :: C)) =
        Except.ok (r, symTok ")" :: C) := by
      rw [show γ + 6 - 1 = γ + 1 + 4 by omega]
      exact dR
    have cL := cmpLadder (γ + 6) d BinOp.gtB ">".data l r _ _ _
      (by decide) dL6 dR5
      (by exact (by decide : cmpStopB (symTok ")") = true)) (by omega)
    have nP : parseExprNot (γ + 8) d
        (fmtExpr l ++ (opTok BinOp.gtB :: (fmtExpr r ++ (symTok ")" :: C)))) =
        Except.ok (.bin BinOp.gtB l r, symTok ")" :: C) := by
      rw [show γ + 8 = γ + 7 + 1 by omega]
      exact notPass (γ + 7) d _ _ _ cL hl2
    have aP : parseExprAnd (γ + 9) d
        (fmtExpr l ++ (opTok BinOp.gtB :: (fmtExpr r ++ (symTok ")" :: C)))) =
        Except.ok (.bin BinOp.gtB l r, symTok ")" :: C) := by
      rw [show γ + 9 = γ + 8 + 1 by omega]
      exact andPass (γ + 8) d _ _ _ nP (by omega)
        (by exact (by decide : andStopB (symTok ")") = true))
    rw [show γ + 10 = γ + 9 + 1 by omega]
    exact orPass (γ + 9) d _ _ _ aP (by omega)
      (by exact (by decide : exprStopB (symTok ")") = true))
  case leB =>
    have dL := addC (γ + 2) d _ l _ hl hl1
      (by exact (by decide : addStopB (opTok BinOp.leB) = true))
    have dR := addC (γ + 1) d _ r _ hr hr1
      (by exact (by decide : addStopB (symTok ")") = true))
    have dL6 : parseExprAdd (γ + 6) d
        (fmtExpr l ++ (opTok BinOp.leB :: (fmtExpr r ++ (symTok ")" :: C)))) =
        Except.ok (l, (⟨.sym, "<=".data⟩ : STok) :: (fmtExpr r ++ (symTok ")" :: C))) := by
      rw [show γ + 6 = γ + 2 + 4 by omega]
      exact dL
    have dR5 : parseExprAdd (γ + 6 - 1) d (fmtExpr r ++ (symTok ")" :: C)) =
        Except.ok (r, symTok ")" :: C) := by
      rw [show γ + 6 - 1 = γ + 1 + 4 by omega]
      exact dR
    have cL := cmpLadder (γ + 6) d BinOp.leB "<=".data l r _ _ _
      (by decide) dL6 dR5
      (by exact (by decide : cmpStopB (symTok ")") = true)) (by omega)
    have nP : parseExprNot (γ + 8) d
        (fmtExpr l ++ (opTok BinOp.leB :: (fmtExpr r ++ (symTok ")" :: C)))) =
        Except.ok (.bin BinOp.leB l r, symTok ")" :: C) := by
      rw [show γ + 8 = γ + 7 + 1 by omega]
      exact notPass (γ + 7) d _ _ _ cL hl2
    have aP : parseExprAnd (γ + 9) d
        (fmtExpr l ++ (opTok BinOp.leB :: (fmtExpr r ++ (symTok ")" :: C)))) =
        Except.ok (.bin BinOp.leB l r, symTok ")" :: C) := by
      rw [show γ + 9 = γ + 8 + 1 by omega]
      exact andPass (γ + 8) d _ _ _ nP (by omega)
        (by exact (by decide : andStopB (symTok ")") = true))
    rw [show γ + 10 = γ + 9 + 1 by omega]
    exact orPass (γ + 9) d _ _ _ aP (by omega)
      (by exact (by decide : exprStopB (symTok ")") = true))
  case geB =>
    have dL := addC (γ + 2) d _ l _ hl hl1
      (by exact (by decide : addStopB (opTok BinOp.geB) = true))
    have dR := addC (γ + 1) d _ r _ hr hr1
      (by exact (by decide : addStopB (symTok ")") = true))
    have dL6 : parseExprAdd (γ + 6) d
        (fmtExpr l ++ (opTok BinOp.geB :: (fmtExpr r ++ (symTok ")" :: C)))) =
        Except.ok (l, (⟨.sym, ">=".data⟩ : STok) :: (fmtExpr r ++ (symTok ")" :: C))) := by
      rw [show γ + 6 = γ + 2 + 4 by omega]
      exact dL
    have dR5 : parseExprAdd (γ + 6 - 1) d (fmtExpr r ++ (symTok ")" :: C)) =
        Except.ok (r, symTok ")" :: C) := by
      rw [show γ + 6 - 1 = γ + 1 + 4 by omega]
      exact dR
    have cL := cmpLadder (γ + 6) d BinOp.geB ">=".data l r _ _ _
      (by decide) dL6 dR5
      (by exact (by decide : cmpStopB (symTok ")") = true)) (by omega)
    have nP : parseExprNot (γ + 8) d
        (fmtExpr l ++ (opTok BinOp.geB :: (fmtExpr r ++ (symTok ")" :: C)))) =
        Except.ok (.bin BinOp.geB l r, symTok ")" :: C) := by
      rw [show γ + 8 = γ + 7 + 1 by omega]
      exact notPass (γ + 7) d _ _ _ cL hl2
    have aP : parseExprAnd (γ + 9) d
        (fmtExpr l ++ (opTok BinOp.geB :: (fmtExpr r ++ (symTok ")" :: C)))) =
        Except.ok (.bin BinOp.geB l r, symTok ")" :: C) := by
      rw [show γ + 9 = γ + 8 + 1 by omega]
      exact andPass (γ + 8) d _ _ _ nP (by omega)
        (by exact (by decide : andStopB (symTok ")") = true))
    rw [show γ + 10 = γ + 9 + 1 by omega]
    exact orPass (γ + 9) d _ _ _ aP (by omega)
      (by exact (by decide : exprStopB (symTok ")") = true))
  case neB =>
    have dL := addC (γ + 2) d _ l _ hl hl1
      (by exact (by decide : addStopB (opTok BinOp.neB) = true))
    have dR := addC (γ + 1) d _ r _ hr hr1
      (by exact (by decide : addStopB (symTok ")") = true))
    have dL6 : parseExprAdd (γ + 6) d
        (fmtExpr l ++ (opTok BinOp.neB :: (fmtExpr r ++ (symTok ")" :: C)))) =
        Except.ok (l, (⟨.sym, "<>".data⟩ : STok) :: (fmtExpr r ++ (symTok ")" :: C))) := by
      rw [show γ + 6 = γ + 2 + 4 by omega]
      exact dL
    have dR5 : parseExprAdd (γ + 6 - 1) d (fmtExpr r ++ (symTok ")" :: C)) =
        Except.ok (r, symTok ")" :: C) := by
      rw [show γ + 6 - 1 = γ + 1 + 4 by omega]
      exact dR
    have cL := cmpLadder (γ + 6) d BinOp.neB "<>".data l r _ _ _
      (by decide) dL6 dR5
      (by exact (by decide : cmpStopB (symTok ")") = true)) (by omega)
    have nP : parseExprNot (γ + 8) d
        (fmtExpr l ++ (opTok BinOp.neB :: (fmtExpr r ++ (symTok ")" :: C)))) =
        Except.ok (.bin BinOp.neB l r, symTok ")" :: C) := by
      rw [show γ + 8 = γ + 7 + 1 by omega]
      exact notPass (γ + 7) d _ _ _ cL hl2
    have aP : parseExprAnd (γ + 9) d
        (fmtExpr l ++ (opTok BinOp.neB :: (fmtExpr r ++ (symTok ")" :: C)))) =
        Except.ok (.bin BinOp.neB l r, symTok ")" :: C) := by
      rw [show γ + 9 = γ + 8 + 1 by omega]
      exact andPass (γ + 8) d _ _ _ nP (by omega)
        (by exact (by decide : andStopB (symTok ")") = true))
    rw [show γ + 10 = γ + 9 + 1 by omega]
    exact orPass (γ + 9) d _ _ _ aP (by omega)
      (by exact (by decide : exprStopB (symTok ")") = true))
  case addB =>
    have mL := mulC (γ + 2) d _ l _ hl hl1
      (by exact (by decide : mulStopB (opTok BinOp.addB) = true))
    have mR := mulC (γ + 1) d _ r _ hr hr1
      (by exact (by decide : mulStopB (symTok ")") = true))
    have mL5 : parseExprMul (γ + 5) d
        (fmtExpr l ++ (opTok BinOp.addB :: (fmtExpr r ++ (symTok ")" :: C)))) =
        Except.ok (l, (⟨.sym, "+".data⟩ : STok) :: (fmtExpr r ++ (symTok ")" :: C))) := by
      rw [show γ + 5 = γ + 2 + 3 by omega]
      exact mL
    have mR4 : parseExprMul (γ + 5 - 1) d (fmtExpr r ++ (symTok ")" :: C)) =
        Except.ok (r, symTok ")" :: C) := by
      rw [show γ + 5 - 1 = γ + 1 + 3 by omega]
      exact mR
    have dL := addLadder (γ + 5) d BinOp.addB "+".data l r _ _ _
      (by decide) mL5 mR4
      (by exact (by decide : addStopB (symTok ")") = true)) (by omega)
    have cP : parseExprCmp (γ + 7) d
        (fmtExpr l ++ (opTok BinOp.addB :: (fmtExpr r ++ (symTok ")" :: C)))) =
        Except.ok (.bin BinOp.addB l r, symTok ")" :: C) := by
      rw [show γ + 7 = γ + 6 + 1 by omega]
      exact cmpPass (γ + 6) d _ _ _ dL (by omega)
        (by exact (by decide : cmpStopB (symTok ")") = true))
    have nP : parseExprNot (γ + 8) d
        (fmtExpr l ++ (opTok BinOp.addB :: (fmtExpr r ++ (symTok ")" :: C)))) =
        Except.ok (.bin BinOp.addB l r, symTok ")" :: C) := by
      rw [show γ + 8 = γ + 7 + 1 by omega]
      exact notPass (γ + 7) d _ _ _ cP hl2
    have aP : parseExprAnd (γ + 9) d
        (fmtExpr l ++ (opTok BinOp.addB :: (fmtExpr r ++ (symTok ")" :: C)))) =
        Except.ok (.bin BinOp.addB l r, symTok ")" :: C) := by
      rw [show γ + 9 = γ + 8 + 1 by omega]
      exact andPass (γ + 8) d _ _ _ nP (by omega)
        (by exact (by decide : andStopB (symTok ")") = true))
    rw [show γ + 10 = γ + 9 + 1 by omega]
    exact orPass (γ + 9) d _ _ _ aP (by omega)
      (by exact (by decide : exprStopB (symTok ")") = true))
  case subB =>
    have mL := mulC (γ + 2) d _ l _ hl hl1
      (by exact (by decide : mulStopB (opTok BinOp.subB) = true))
    have mR := mulC (γ + 1) d _ r _ hr hr1
      (by exact (by decide : mulStopB (symTok ")") = true))
    have mL5 : parseExprMul (γ + 5) d
        (fmtExpr l ++ (opTok BinOp.subB :: (fmtExpr r ++ (symTok ")" :: C)))) =
        Except.ok (l, (⟨.sym, "-".data⟩ : STok) :: (fmtExpr r ++ (symTok ")" :: C))) := by
      rw [show γ + 5 = γ + 2 + 3 by omega]
      exact mL
    have mR4 : parseExprMul (γ + 5 - 1) d (fmtExpr r ++ (symTok ")" :: C)) =
        Except.ok (r, symTok ")" :: C) := by
      rw [show γ + 5 - 1 = γ + 1 + 3 by omega]
      exact mR
    have dL := addLadder (γ + 5) d BinOp.subB "-".data l r _ _ _
      (by decide) mL5 mR4
      (by exact (by decide : addStopB (symTok ")") = true)) (by omega)
    have cP : parseExprCmp (γ + 7) d
        (fmtExpr l ++ (opTok BinOp.subB :: (fmtExpr r ++ (symTok ")" :: C)))) =
        Except.ok (.bin BinOp.subB l r, symTok ")" :: C) := by
      rw [show γ + 7 = γ + 6 + 1 by omega]
      exact cmpPass (γ + 6) d _ _ _ dL (by omega)
        (by exact (by decide : cmpStopB (symTok ")") = true))
    have nP : parseExprNot (γ + 8) d
        (fmtExpr l ++ (opTok BinOp.subB :: (fmtExpr r ++ (symTok ")" :: C)))) =
        Except.ok (.bin BinOp.subB l r, symTok ")" :: C) := by
      rw [show γ + 8 = γ + 7 + 1 by omega]
      exact notPass (γ + 7) d _ _ _ cP hl2
    have aP : parseExprAnd (γ + 9) d
        (fmtExpr l ++ (opTok BinOp.subB :: (fmtExpr r ++ (symTok ")" :: C)))) =
        Except.ok (.bin BinOp.subB l r, symTok ")" :: C) := by
      rw [show γ + 9 = γ + 8 + 1 by omega]
      exact andPass (γ + 8) d _ _ _ nP (by omega)
        (by exact (by decide : andStopB (symTok ")") = true))
    rw [show γ + 10 = γ + 9 + 1 by omega]
    exact orPass (γ + 9) d _ _ _ aP (by omega)
      (by exact (by decide : exprStopB (symTok ")") = true))
  case mulB =>
    have uL := unC (γ + 2) d _ l _ hl hl1
      (by exact (by decide : castStopB (opTok BinOp.mulB) = true))
    have uR := unC (γ + 1) d _ r _ hr hr1
      (by exact (by decide : castStopB (symTok ")") = true))
    have uL4 : parseExprUnary (γ + 4) d
        (fmtExpr l ++ (opTok BinOp.mulB :: (fmtExpr r ++ (symTok ")" :: C)))) =
        Except.ok (l, (⟨.sym, "*".data⟩ : STok) :: (fmtExpr r ++ (symTok ")" :: C))) := by
      rw [show γ + 4 = γ + 2 + 2 by omega]
      exact uL
    have uR3 : parseExprUnary (γ + 4 - 1) d (fmtExpr r ++ (symTok ")" :: C)) =
        Except.ok (r, symTok ")" :: C) := by
      rw [show γ + 4 - 1 = γ + 1 + 2 by omega]
      exact uR
    have mL := mulLadder (γ + 4) d BinOp.mulB "*".data l r _ _ _
      (by decide) uL4 uR3
      (by exact (by decide : mulStopB (symTok ")") = true)) (by omega)
    have dP : parseExprAdd (γ + 6) d
        (fmtExpr l ++ (opTok BinOp.mulB :: (fmtExpr r ++ (symTok ")" :: C)))) =
        Except.ok (.bin BinOp.mulB l r, symTok ")" :: C) := by
      rw [show γ + 6 = γ + 5 + 1 by omega]
      exact addPass (γ + 5) d _ _ _ mL (by omega)
        (by exact (by decide : addStopB (symTok ")") = true))
    have cP : parseExprCmp (γ + 7) d
        (fmtExpr l ++ (opTok BinOp.mulB :: (fmtExpr r ++ (symTok ")" :: C)))) =
        Except.ok (.bin BinOp.mulB l r, symTok ")" :: C) := by
      rw [show γ + 7 = γ + 6 + 1 by omega]
      exact cmpPass (γ + 6) d _ _ _ dP (by omega)
        (by exact (by decide : cmpStopB (symTok ")") = true))
    have nP : parseExprNot (γ + 8) d
        (fmtExpr l ++ (opTok BinOp.mulB :: (fmtExpr r ++ (symTok ")" :: C)))) =
        Except.ok (.bin BinOp.mulB l r, symTok ")" :: C) := by
      rw [show γ + 8 = γ + 7 + 1 by omega]
      exact notPass (γ + 7) d _ _ _ cP hl2
    have aP : parseExprAnd (γ + 9) d
        (fmtExpr l ++ (opTok BinOp.mulB :: (fmtExpr r ++ (symTok ")" :: C)))) =
        Except.ok (.bin BinOp.mulB l r, symTok ")" :: C) := by
      rw [show γ + 9 = γ + 8 + 1 by omega]
      exact andPass (γ + 8) d _ _ _ nP (by omega)
        (by exact (by decide : andStopB (symTok ")") = true))
    rw [show γ + 10 = γ + 9 + 1 by omega]
    exact orPass (γ + 9) d _ _ _ aP (by omega)
      (by exact (by decide : exprStopB (symTok ")") = true))
  case divB =>
    have uL := unC (γ + 2) d _ l _ hl hl1
      (by exact (by decide : castStopB (opTok BinOp.divB) = true))
    have uR := unC (γ + 1) d _ r _ hr hr1
      (by exact (by decide : castStopB (symTok ")") = true))
    have uL4 : parseExprUnary (γ + 4) d
        (fmtExpr l ++ (opTok BinOp.divB :: (fmtExpr r ++ (symTok ")" :: C)))) =
        Except.ok (l, (⟨.sym, "/".data⟩ : STok) :: (fmtExpr r ++ (symTok ")" :: C))) := by
      rw [show γ + 4 = γ + 2 + 2 by omega]
      exact uL
    have uR3 : parseExprUnary (γ + 4 - 1) d (fmtExpr r ++ (symTok ")" :: C)) =
        Except.ok (r, symTok ")" :: C) := by
      rw [show γ + 4 - 1 = γ + 1 + 2 by omega]
      exact uR
    have mL := mulLadder (γ + 4) d BinOp.divB "/".data l r _ _ _
      (by decide) uL4 uR3
      (by exact (by decide : mulStopB (symTok ")") = true)) (by omega)
    have dP : parseExprAdd (γ + 6) d
        (fmtExpr l ++ (opTok BinOp.divB :: (fmtExpr r ++ (symTok ")" :: C)))) =
        Except.ok (.bin BinOp.divB l r, symTok ")" :: C) := by
      rw [show γ + 6 = γ + 5 + 1 by omega]
      exact addPass (γ + 5) d _ _ _ mL (by omega)
        (by exact (by decide : addStopB (symTok ")") = true))
    have cP : parseExprCmp (γ + 7) d
        (fmtExpr l ++ (opTok BinOp.divB :: (fmtExpr r ++ (symTok ")" :: C)))) =
        Except.ok (.bin BinOp.divB l r, symTok ")" :: C) := by
      rw [show γ + 7 = γ + 6 + 1 by omega]
      exact cmpPass (γ + 6) d _ _ _ dP (by omega)
        (by exact (by decide : cmpStopB (symTok ")") = true))
    have nP : parseExprNot (γ + 8) d
        (fmtExpr l ++ (opTok BinOp.divB :: (fmtExpr r ++ (symTok ")" :: C)))) =
        Except.ok (.bin BinOp.divB l r, symTok ")" :: C) := by
      rw [show γ + 8 = γ + 7 + 1 by omega]
      exact notPass (γ + 7) d _ _ _ cP hl2
    have aP : parseExprAnd (γ + 9) d
        (fmtExpr l ++ (opTok BinOp.divB :: (fmtExpr r ++ (symTok ")" :: C)))) =
        Except.ok (.bin BinOp.divB l r, symTok ")" :: C) := by
      rw [show γ + 9 = γ + 8 + 1 by omega]
      exact andPass (γ + 8) d _ _ _ nP (by omega)
        (by exact (by decide : andStopB (symTok ")") = true))
    rw [show γ + 10 = γ + 9 + 1 by omega]
    exact orPass (γ + 9) d _ _ _ aP (by omega)
      (by exact (by decide : exprStopB (symTok ")") = true))
  case modB =>
    have uL := unC (γ + 2) d _ l _ hl hl1
      (by exact (by decide : castStopB (opTok BinOp.modB) = true))
    have uR := unC (γ + 1) d _ r _ hr hr1
      (by exact (by decide : castStopB (symTok ")") = true))
    have uL4 : parseExprUnary (γ + 4) d
        (fmtExpr l ++ (opTok BinOp.modB :: (fmtExpr r ++ (symTok ")" :: C)))) =
        Except.ok (l, (⟨.sym, "%".data⟩ : STok) :: (fmtExpr r ++ (symTok ")" :: C))) := by
      rw [show γ + 4 = γ + 2 + 2 by omega]
      exact uL
    have uR3 : parseExprUnary (γ + 4 - 1) d (fmtExpr r ++ (symTok ")" :: C)) =
        Except.ok (r, symTok ")" :: C) := by
      rw [show γ + 4 - 1 = γ + 1 + 2 by omega]
      exact uR
    have mL := mulLadder (γ + 4) d BinOp.modB "%".data l r _ _ _
      (by decide) uL4 uR3
      (by exact (by decide : mulStopB (symTok ")") = true)) (by omega)
    have dP : parseExprAdd (γ + 6) d
        (fmtExpr l ++ (opTok BinOp.modB :: (fmtExpr r ++ (symTok ")" :: C)))) =
        Except.ok (.bin BinOp.modB l r, symTok ")" :: C) := by
      rw [show γ + 6 = γ + 5 + 1 by omega]
      exact addPass (γ + 5) d _ _ _ mL (by omega)
        (by exact (by decide : addStopB (symTok ")") = true))
    have cP : parseExprCmp (γ + 7) d
        (fmtExpr l ++ (opTok BinOp.modB :: (fmtExpr r ++ (symTok ")" :: C)))) =
        Except.ok (.bin BinOp.modB l r, symTok ")" :: C) := by
      rw [show γ + 7 = γ + 6 + 1 by omega]
      exact cmpPass (γ + 6) d _ _ _ dP (by omega)
        (by exact (by decide : cmpStopB (symTok ")") = true))
    have nP : parseExprNot (γ + 8) d
        (fmtExpr l ++ (opTok BinOp.modB :: (fmtExpr r ++ (symTok ")" :: C)))) =
        Except.ok (.bin BinOp.modB l r, symTok ")" :: C) := by
      rw [show γ + 8 = γ + 7 + 1 by omega]
      exact notPass (γ + 7) d _ _ _ cP hl2
    have aP : parseExprAnd (γ + 9) d
        (fmtExpr l ++ (opTok BinOp.modB :: (fmtExpr r ++ (symTok ")" :: C)))) =
        Except.ok (.bin BinOp.modB l r, symTok ")" :: C) := by
      rw [show γ + 9 = γ + 8 + 1 by omega]
      exact andPass (γ + 8) d _ _ _ nP (by omega)
        (by exact (by decide : andStopB (symTok ")") = true))
    rw [show γ + 10 = γ + 9 + 1 by omega]
    exact orPass (γ + 9) d _ _ _ aP (by omega)
      (by exact (by decide : exprStopB (symTok ")") = true))

/-! Helper lemmas for the round-trip family. -/

theorem pStop_opTok : ∀ o : BinOp, primStopB (opTok o) = true := by
  intro o
  cases o <;> decide

theorem pStop_over {C : List STok} (hC : pStop C) :
    hdOK (fun t => isKwT "OVER" t = false) C :=
  hdOK_mono (fun t h => by
    simp only [primStopB, Bool.and_eq_true, Bool.not_eq_true'] at h
    exact h.2) hC

theorem parseAlias_none (C : List STok)
    (hC : hdOK (fun t => isKwT "AS" t = false) C) :
    parseAlias C = Except.ok (none, C) := by
  cases C with
  | nil => rfl
  | cons t ts =>
    have hx : isKwT "AS" t = false := hC
    simp [parseAlias, hx]

theorem parseAlias_toks (al : Option (List Char)) (C : List STok)
    (hC : hdOK (fun t => isKwT "AS" t = false) C) :
    parseAlias (aliasToks al ++ C) = Except.ok (al, C) := by
  cases al with
  | none => simpa [aliasToks] using parseAlias_none C hC
  | some a =>
    simp [aliasToks, parseAlias, expectIdent, Except.map,
      (by decide : isKwT "AS" (kwTok "AS") = true)]

theorem fmtEListMore_full (es : EList) (h : es ≠ .nilE) :
    fmtEListMore es = symTok "," :: fmtEListFull es := by
  cases es with
  | nilE => exact absurd rfl h
  | consE e es2 => rfl

theorem expectKw_tok (w : String) (rest : List STok)
    (h : upperStr w.data = w.data) :
    expectKw w (kwTok w :: rest) = Except.ok rest := by
  simp [expectKw, isKwT, kwTok, h]

theorem expectSym_tok (w : String) (rest : List STok) :
    expectSym w (symTok w :: rest) = Except.ok rest := by
  simp [expectSym, isSymT, symTok]

theorem expectIdent_tok (x : List Char) (rest : List STok) :
    expectIdent (⟨.id, x⟩ :: rest) = Except.ok (x, rest) := rfl

theorem fmtStmtHeadEx (st : Stmt) : ∃ c cs, fmtStmt st = c :: cs ∧
    (c = kwTok "SELECT" ∨ c = kwTok "INSERT" ∨ c = kwTok "UPDATE" ∨
      c = kwTok "DELETE" ∨ c = kwTok "EXPLAIN") := by
  cases st with
  | selectS s ops =>
    obtain ⟨tl, htl⟩ := fmtSelHead s
    exact ⟨_, _, by simp only [fmtStmt, htl]; rfl, Or.inl rfl⟩
  | insertS t cols vals => exact ⟨_, _, rfl, Or.inr (Or.inl rfl)⟩
  | updateS t sets wh => exact ⟨_, _, rfl, Or.inr (Or.inr (Or.inl rfl))⟩
  | deleteS t wh => exact ⟨_, _, rfl, Or.inr (Or.inr (Or.inr (Or.inl rfl)))⟩
  | explainS an vb fo inner => exact ⟨_, _, rfl, Or.inr (Or.inr (Or.inr (Or.inr rfl)))⟩

/-- Continuation heads that stop a join chain. -/
abbrev joinStopP (t : STok) : Prop :=
  exprStopB t = true ∧ primStopB t = true ∧ isKwT "AS" t = false ∧
    isKwT "ON" t = false ∧ isKwT "JOIN" t = false ∧ isKwT "INNER" t = false ∧
    isKwT "LEFT" t = false ∧ isKwT "RIGHT" t = false ∧ isKwT "FULL" t = false ∧
    isKwT "CROSS" t = false

/-- Concrete-keyword expectation rewrites. -/
theorem expectKw_select (rest : List STok) :
    expectKw "SELECT" (kwTok "SELECT" :: rest) = Except.ok rest :=
  expectKw_tok _ _ (by decide)

theorem expectKw_by (rest : List STok) :
    expectKw "BY" (kwTok "BY" :: rest) = Except.ok rest :=
  expectKw_tok _ _ (by decide)

theorem expectKw_as (rest : List STok) :
    expectKw "AS" (kwTok "AS" :: rest) = Except.ok rest :=
  expectKw_tok _ _ (by decide)

theorem expectKw_join (rest : List STok) :
    expectKw "JOIN" (kwTok "JOIN" :: rest) = Except.ok rest :=
  expectKw_tok _ _ (by decide)

theorem expectKw_into (rest : List STok) :
    expectKw "INTO" (kwTok "INTO" :: rest) = Except.ok rest :=
  expectKw_tok _ _ (by decide)

theorem expectKw_values (rest : List STok) :
    expectKw "VALUES" (kwTok "VALUES" :: rest) = Except.ok rest :=
  expectKw_tok _ _ (by decide)

theorem expectKw_set (rest : List STok) :
    expectKw "SET" (kwTok "SET" :: rest) = Except.ok rest :=
  expectKw_tok _ _ (by decide)

theorem expectKw_from (rest : List STok) :
    expectKw "FROM" (kwTok "FROM" :: rest) = Except.ok rest :=
  expectKw_tok _ _ (by decide)

theorem expectKw_when (rest : List STok) :
    expectKw "WHEN" (kwTok "WHEN" :: rest) = Except.ok rest :=
  expectKw_tok _ _ (by decide)

theorem expectKw_then (rest : List STok) :
    expectKw "THEN" (kwTok "THEN" :: rest) = Except.ok rest :=
  expectKw_tok _ _ (by decide)

theorem expectKw_else (rest : List STok) :
    expectKw "ELSE" (kwTok "ELSE" :: rest) = Except.ok rest :=
  expectKw_tok _ _ (by decide)

theorem expectKw_end (rest : List STok) :
    expectKw "END" (kwTok "END" :: rest) = Except.ok rest :=
  expectKw_tok _ _ (by decide)

/-- An absent GROUP BY clause parses to the empty list. -/
theorem parseGroupBy_nil (g d : Nat) (X : List STok)
    (hX : hdOK (fun t => isKwT "GROUP" t = false) X) (hg : 1 ≤ g) :
    parseGroupBy g d X = Except.ok (.nilE, X) := by
  obtain ⟨g1, rfl⟩ : ∃ g1, g = g1 + 1 := ⟨g - 1, by omega⟩
  cases X with
  | nil => simp [parseGroupBy]
  | cons t rest =>
    have hx : isKwT "GROUP" t = false := hX
    simp [parseGroupBy, hx]

/-- An absent ORDER BY clause parses to the empty list. -/
theorem parseOrderBy_nil (g d : Nat) (X : List STok)
    (hX : hdOK (fun t => isKwT "ORDER" t = false) X) (hg : 1 ≤ g) :
    parseOrderBy g d X = Except.ok (.nilO, X) := by
  obtain ⟨g1, rfl⟩ : ∃ g1, g = g1 + 1 := ⟨g - 1, by omega⟩
  cases X with
  | nil => simp [parseOrderBy]
  | cons t rest =>
    have hx : isKwT "ORDER" t = false := hX
    simp [parseOrderBy, hx]

/-- Lift a primary-level parse of a formatted expression to the top
expression level when the continuation stops expression operators. -/
theorem orFromPrim (g d : Nat) (e : Expr) (X : List STok) (he : okE d e = true)
    (hPrim : parsePrimary (g - 8) d (fmtExpr e ++ X) = Except.ok (e, X))
    (hXe : hdOK (fun t => exprStopB t = true) X) (hgl : 8 ≤ g) :
    parseExprOr g d (fmtExpr e ++ X) = Except.ok (e, X) := by
  obtain ⟨c, cs, hc, hm, hn, _, _, _⟩ := fmtExprHead e d he
  have h0 := orC (g - 8) d _ e _ hPrim (by rw [hc]; exact hdOK_cons hm)
    (by rw [hc]; exact hdOK_cons hn) hXe
  rw [show g - 8 + 8 = g by omega] at h0
  exact h0

/-! The round-trip family over the abstract syntax. -/

mutual

theorem rtPrim : ∀ (e : Expr) (d : Nat), okE d e = true →
    ∀ (g : Nat) (C : List STok),
      16 * (fmtExpr e).length + 16 * C.length + 24 ≤ g → pStop C →
      parsePrimary g d (fmtExpr e ++ C) = Except.ok (e, C)
  | .numL n, d => by
    intro he g C hg hC
    have he2 : canonNum n = n := by
      have h0 := he
      simp only [okE, beq_iff_eq] at h0
      exact h0
    obtain ⟨g1, rfl⟩ : ∃ g1, g = g1 + 1 := ⟨g - 1, by omega⟩
    simp [fmtExpr, parsePrimary, he2]
  | .strL s, d => by
    intro he g C hg hC
    obtain ⟨g1, rfl⟩ : ∃ g1, g = g1 + 1 := ⟨g - 1, by omega⟩
    simp [fmtExpr, parsePrimary]
  | .col none nm, d => by
    intro he g C hg hC
    obtain ⟨g1, rfl⟩ : ∃ g1, g = g1 + 1 := ⟨g - 1, by omega⟩
    cases C with
    | nil => simp [fmtExpr, parsePrimary]
    | cons t2 rest =>
      obtain ⟨k2, s2⟩ := t2
      cases k2 with
      | sym =>
        have h2 : primStopB ⟨.sym, s2⟩ = true := hC
        simp only [primStopB, isSymT, beq_self_eq_true, Bool.true_and,
          Bool.and_eq_true, Bool.not_eq_true', beq_eq_false_iff_ne] at h2
        simp [fmtExpr, parsePrimary, h2.1.1, h2.1.2]
      | kw => simp [fmtExpr, parsePrimary]
      | id => simp [fmtExpr, parsePrimary]
      | str => simp [fmtExpr, parsePrimary]
      | num => simp [fmtExpr, parsePrimary]
  | .col (some tb) nm, d => by
    intro he g C hg hC
    obtain ⟨g1, rfl⟩ : ∃ g1, g = g1 + 1 := ⟨g - 1, by omega⟩
    simp [fmtExpr, parsePrimary, symTok, expectIdent]
  | .star, d => by
    intro he
    simp [okE] at he
  | .bin o l r, d => by
    intro he g C hg hC
    simp only [okE, Bool.and_eq_true] at he
    have hlen : (fmtExpr (.bin o l r)).length =
        (fmtExpr l).length + (fmtExpr r).length + 3 := by
      simp [fmtExpr]
      omega
    have hlenL := fmtExpr_len_pos l
    have hlenR := fmtExpr_len_pos r
    simp only [fmtExpr, List.cons_append, List.append_assoc, List.nil_append]
    obtain ⟨cl, csl, hcl, hm1, hn1, _, _, hsel1⟩ := fmtExprHead l d he.1
    obtain ⟨cr, csr, hcr, hm2, hn2, _, _, _⟩ := fmtExprHead r d he.2
    rw [show g = (g - 11) + 10 + 1 by omega]
    refine parenWrap ((g - 11) + 10) d _ _ _ cl
      (csl ++ (opTok o :: (fmtExpr r ++ (symTok ")" :: C))))
      (by rw [hcl]; rfl) hsel1 ?_
    refine binInner (g - 11) d o l r C ?_ ?_ ?_ ?_ ?_ ?_
    · exact rtPrim l d he.1 (g - 11 + 2)
        (opTok o :: (fmtExpr r ++ (symTok ")" :: C)))
        (by simp [List.length_append]; omega)
        (hdOK_cons (pStop_opTok o))
    · exact rtPrim r d he.2 (g - 11 + 1) (symTok ")" :: C)
        (by simp [List.length_append]; omega)
        (hdOK_cons (by decide))
    · rw [hcl]; exact hdOK_cons hm1
    · rw [hcl]; exact hdOK_cons hn1
    · rw [hcr]; exact hdOK_cons hm2
    · rw [hcr]; exact hdOK_cons hn2
  | .notE e0, d => by
    intro he g C hg hC
    have he0 : okE d e0 = true := by simpa [okE] using he
    have hlen0 := fmtExpr_len_pos e0
    have hlen : (fmtExpr (.notE e0)).length = (fmtExpr e0).length + 3 := by
      simp [fmtExpr]
    simp only [fmtExpr, List.cons_append, List.append_assoc, List.nil_append]
    obtain ⟨c0, cs0, hc0, hm0, hn0, _, _, hsel0⟩ := fmtExprHead e0 d he0
    rw [show g = (g - 10) + 9 + 1 by omega]
    refine parenWrap ((g - 10) + 9) d _ _ _ (kwTok "NOT")
      (fmtExpr e0 ++ (symTok ")" :: C)) rfl (by decide) ?_
    have hPrim : parsePrimary (g - 10) d (fmtExpr e0 ++ (symTok ")" :: C)) =
        Except.ok (e0, symTok ")" :: C) :=
      rtPrim e0 d he0 (g - 10) (symTok ")" :: C)
        (by simp [List.length_append]; omega) (hdOK_cons (by decide))
    have hCmp := cmpC (g - 10) d _ e0 _ hPrim
      (by rw [hc0]; exact hdOK_cons hm0) (hdOK_cons (by decide))
    have hNot := notPass ((g - 10) + 5) d _ e0 _ hCmp
      (by rw [hc0]; exact hdOK_cons hn0)
    have hLad := notLadder ((g - 10) + 6) d e0 _ _ hNot
    have hAnd := andPass ((g - 10) + 7) d _ _ _ hLad (by omega)
      (hdOK_cons (by decide))
    exact orPass ((g - 10) + 8) d _ _ _ hAnd (by omega) (hdOK_cons (by decide))
  | .negE e0, d => by
    intro he g C hg hC
    have he0 : okE d e0 = true := by simpa [okE] using he
    have hlen0 := fmtExpr_len_pos e0
    have hlen : (fmtExpr (.negE e0)).length = (fmtExpr e0).length + 3 := by
      simp [fmtExpr]
    simp only [fmtExpr, List.cons_append, List.append_assoc, List.nil_append]
    obtain ⟨c0, cs0, hc0, hm0, hn0, _, _, hsel0⟩ := fmtExprHead e0 d he0
    rw [show g = (g - 10) + 9 + 1 by omega]
    refine parenWrap ((g - 10) + 9) d _ _ _ (symTok "-")
      (fmtExpr e0 ++ (symTok ")" :: C)) rfl (by decide) ?_
    have hPrim : parsePrimary (g - 10) d (fmtExpr e0 ++ (symTok ")" :: C)) =
        Except.ok (e0, symTok ")" :: C) :=
      rtPrim e0 d he0 (g - 10) (symTok ")" :: C)
        (by simp [List.length_append]; omega) (hdOK_cons (by decide))
    have hCast := castC (g - 10) d _ e0 _ hPrim (hdOK_cons (by decide))
    have hUn := unPass ((g - 10) + 1) d _ e0 _ hCast
      (by rw [hc0]; exact hdOK_cons hm0)
    have hNeg := negLadder ((g - 10) + 2) d e0 _ _ hUn
    have hMul := mulPass ((g - 10) + 3) d _ _ _ hNeg (by omega)
      (hdOK_cons (by decide))
    have hAdd := addPass ((g - 10) + 4) d _ _ _ hMul (by omega)
      (hdOK_cons (by decide))
    have hCmp := cmpPass ((g - 10) + 5) d _ _ _ hAdd (by omega)
      (hdOK_cons (by decide))
    have hNot := notPass ((g - 10) + 6) d _ _ _ hCmp (hdOK_cons (by decide))
    have hAnd := andPass ((g - 10) + 7) d _ _ _ hNot (by omega)
      (hdOK_cons (by decide))
    exact orPass ((g - 10) + 8) d _ _ _ hAnd (by omega) (hdOK_cons (by decide))
  | .castE e0 ty, d => by
    intro he g C hg hC
    have he0 : okE d e0 = true := by simpa [okE] using he
    have hlen0 := fmtExpr_len_pos e0
    have hlen : (fmtExpr (.castE e0 ty)).length = (fmtExpr e0).length + 4 := by
      simp [fmtExpr]
    simp only [fmtExpr, List.cons_append, List.append_assoc, List.nil_append]
    obtain ⟨c0, cs0, hc0, hm0, hn0, _, _, hsel0⟩ := fmtExprHead e0 d he0
    rw [show g = (g - 9) + 8 + 1 by omega]
    refine parenWrap ((g - 9) + 8) d _ _ _ c0
      (cs0 ++ (symTok "::" :: ⟨.id, ty⟩ :: symTok ")" :: C))
      (by rw [hc0]; rfl) hsel0 ?_
    have hPrim : parsePrimary (g - 9) d
        (fmtExpr e0 ++ (symTok "::" :: ⟨.id, ty⟩ :: symTok ")" :: C)) =
        Except.ok (e0, symTok "::" :: ⟨.id, ty⟩ :: symTok ")" :: C) :=
      rtPrim e0 d he0 (g - 9) (symTok "::" :: ⟨.id, ty⟩ :: symTok ")" :: C)
        (by simp [List.length_append]; omega) (hdOK_cons (by decide))
    have hCast := castLadder (g - 9) d e0 ty _ (symTok ")" :: C) hPrim
      (hdOK_cons (by decide)) (by omega)
    have hUn := unPass ((g - 9) + 1) d _ _ _ hCast
      (by rw [hc0]; exact hdOK_cons hm0)
    have hMul := mulPass ((g - 9) + 2) d _ _ _ hUn (by omega)
      (hdOK_cons (by decide))
    have hAdd := addPass ((g - 9) + 3) d _ _ _ hMul (by omega)
      (hdOK_cons (by decide))
    have hCmp := cmpPass ((g - 9) + 4) d _ _ _ hAdd (by omega)
      (hdOK_cons (by decide))
    have hNot := notPass ((g - 9) + 5) d _ _ _ hCmp
      (by rw [hc0]; exact hdOK_cons hn0)
    have hAnd := andPass ((g - 9) + 6) d _ _ _ hNot (by omega)
      (hdOK_cons (by decide))
    exact orPass ((g - 9) + 7) d _ _ _ hAnd (by omega) (hdOK_cons (by decide))
  | .fn nm a, d => by
    intro he g C hg hC
    have ha : okFA d a = true := by simpa [okE] using he
    have hlen : (fmtExpr (.fn nm a)).length = (fmtFArgs a).length + 3 := by
      simp [fmtExpr]
    obtain ⟨g1, rfl⟩ : ∃ g1, g = g1 + 1 := ⟨g - 1, by omega⟩
    simp only [fmtExpr, List.cons_append, List.append_assoc, List.nil_append]
    simp only [parsePrimary, symTok]
    rw [if_neg (by decide : ¬((['('] : List Char) = ['.'])), if_pos trivial]
    exact rtFArgs a nm d ha g1 C (by omega) hC
  | .subq q, d => by
    intro he g C hg hC
    obtain ⟨d2, rfl⟩ : ∃ d2, d = d2 + 1 := by
      cases d with
      | zero => simp [okE] at he
      | succ d2 => exact ⟨d2, rfl⟩
    have hq : okSel d2 q = true := by simpa [okE] using he
    have hlen : (fmtExpr (.subq q)).length = (fmtSel q).length + 2 := by
      simp [fmtExpr]
    obtain ⟨g1, rfl⟩ : ∃ g1, g = g1 + 1 := ⟨g - 1, by omega⟩
    simp only [fmtExpr, List.cons_append, List.append_assoc, List.nil_append]
    obtain ⟨tl, htl⟩ := fmtSelHead q
    have hSel : parseSel g1 d2 (fmtSel q ++ (symTok ")" :: C)) =
        Except.ok (q, symTok ")" :: C) :=
      rtSel q d2 hq g1 (symTok ")" :: C)
        (by simp [List.length_append]; omega) (hdOK_cons (Or.inl rfl))
    rw [htl]
    simp only [List.cons_append]
    simp only [parsePrimary, symTok]
    rw [if_pos trivial]
    rw [if_pos (by decide : isKwT "SELECT" (kwTok "SELECT") = true)]
    rw [htl] at hSel
    simp only [List.cons_append] at hSel
    simp only [symTok] at hSel
    simp only [hSel]
    simp [expectSym, isSymT]
  | .caseE arms (.someE e1), d => by
    intro he g C hg hC
    simp only [okE, Bool.and_eq_true] at he
    obtain ⟨⟨hne, hw⟩, hoe⟩ := he
    have hlen : (fmtExpr (.caseE arms (.someE e1))).length =
        (fmtWhens arms).length + (fmtElse (.someE e1)).length + 2 := by
      simp [fmtExpr]
      omega
    obtain ⟨g1, rfl⟩ : ∃ g1, g = g1 + 1 := ⟨g - 1, by omega⟩
    have hE : ∀ e0, (OExpr.someE e1) = .someE e0 → ∀ g2,
        16 * (fmtExpr e0).length + 16 * C.length + 48 ≤ g2 →
        parseExprOr g2 d (fmtExpr e0 ++ (kwTok "END" :: C)) =
          Except.ok (e0, kwTok "END" :: C) := by
      intro e0 he0 g2 hg2
      have he2 : e1 = e0 := by injection he0
      subst he2
      have hoke : okE d e1 = true := by simpa [okOE] using hoe
      exact orFromPrim g2 d e1 _ hoke
        (rtPrim e1 d hoke (g2 - 8) _
          (by simp only [List.length_cons]; omega)
          (hdOK_cons (by decide)))
        (hdOK_cons (by decide))
        (by omega)
    have hW := rtWhens arms d hne hw (.someE e1) hoe g1 C
      (by rw [hlen] at hg; omega) hE
    simp only [fmtExpr, List.cons_append, List.append_assoc, List.nil_append]
    simp only [kwTok] at hW ⊢
    simp only [parsePrimary]
    rw [if_pos (by decide : upperStr "CASE".data = "CASE".data)]
    simp only [hW]
  | .caseE arms .noneE, d => by
    intro he g C hg hC
    simp only [okE, Bool.and_eq_true] at he
    obtain ⟨⟨hne, hw⟩, hoe⟩ := he
    have hlen : (fmtExpr (.caseE arms .noneE)).length =
        (fmtWhens arms).length + (fmtElse .noneE).length + 2 := by
      simp [fmtExpr]
      omega
    obtain ⟨g1, rfl⟩ : ∃ g1, g = g1 + 1 := ⟨g - 1, by omega⟩
    have hE : ∀ e0, (OExpr.noneE) = .someE e0 → ∀ g2,
        16 * (fmtExpr e0).length + 16 * C.length + 48 ≤ g2 →
        parseExprOr g2 d (fmtExpr e0 ++ (kwTok "END" :: C)) =
          Except.ok (e0, kwTok "END" :: C) :=
      fun e0 he0 => nomatch he0
    have hW := rtWhens arms d hne hw .noneE hoe g1 C
      (by rw [hlen] at hg; omega) hE
    simp only [fmtExpr, List.cons_append, List.append_assoc, List.nil_append]
    simp only [kwTok] at hW ⊢
    simp only [parsePrimary]
    rw [if_pos (by decide : upperStr "CASE".data = "CASE".data)]
    simp only [hW]

theorem rtWhens : ∀ (arms : WList) (d : Nat), neW arms = true →
    okW d arms = true → ∀ (els : OExpr), okOE d els = true →
    ∀ g C, 16 * (fmtWhens arms).length + 16 * (fmtElse els).length +
        16 * C.length + 48 ≤ g →
      (∀ e0, els = .someE e0 → ∀ g2, 16 * (fmtExpr e0).length +
        16 * C.length + 48 ≤ g2 →
        parseExprOr g2 d (fmtExpr e0 ++ (kwTok "END" :: C)) =
          Except.ok (e0, kwTok "END" :: C)) →
      parseWhenArms g d
        (fmtWhens arms ++ (fmtElse els ++ (kwTok "END" :: C))) =
        Except.ok (arms, els, C)
  | .nilW, d => by
    intro hne
    exact absurd hne (by decide)
  | .consW c r rest, d => by
    intro hne hok els hoe g C hg hE
    simp only [okW, Bool.and_eq_true] at hok
    obtain ⟨⟨hc, hr⟩, hrest⟩ := hok
    have hlc := fmtExpr_len_pos c
    have hlr := fmtExpr_len_pos r
    have hlen : (fmtWhens (.consW c r rest)).length =
        (fmtExpr c).length + (fmtExpr r).length +
          (fmtWhens rest).length + 2 := by
      simp [fmtWhens]
      omega
    rw [hlen] at hg
    obtain ⟨g1, rfl⟩ : ∃ g1, g = g1 + 1 := ⟨g - 1, by omega⟩
    have hOrC : parseExprOr g1 d (fmtExpr c ++ (kwTok "THEN" ::
        (fmtExpr r ++ (fmtWhens rest ++ (fmtElse els ++ (kwTok "END" :: C)))))) =
        Except.ok (c, kwTok "THEN" ::
          (fmtExpr r ++ (fmtWhens rest ++ (fmtElse els ++ (kwTok "END" :: C))))) :=
      orFromPrim g1 d c _ hc
        (rtPrim c d hc (g1 - 8) _
          (by
            simp only [List.length_cons, List.length_append]
            omega)
          (hdOK_cons (by decide)))
        (hdOK_cons (by decide))
        (by omega)
    have hC2p : pStop (fmtWhens rest ++ (fmtElse els ++ (kwTok "END" :: C))) :=
      hdOK_whens rest (by decide) (hdOK_elseE els (by decide)
        (hdOK_cons (by decide)))
    have hC2e : hdOK (fun t => exprStopB t = true)
        (fmtWhens rest ++ (fmtElse els ++ (kwTok "END" :: C))) :=
      hdOK_whens rest (by decide) (hdOK_elseE els (by decide)
        (hdOK_cons (by decide)))
    have hOrR : parseExprOr g1 d (fmtExpr r ++
        (fmtWhens rest ++ (fmtElse els ++ (kwTok "END" :: C)))) =
        Except.ok (r, fmtWhens rest ++ (fmtElse els ++ (kwTok "END" :: C))) :=
      orFromPrim g1 d r _ hr
        (rtPrim r d hr (g1 - 8) _
          (by
            simp only [List.length_cons, List.length_append]
            omega)
          hC2p)
        hC2e
        (by omega)
    have hrecAll : neW rest = true →
        parseWhenArms g1 d
          (fmtWhens rest ++ (fmtElse els ++ (kwTok "END" :: C))) =
          Except.ok (rest, els, C) :=
      fun hne2 => rtWhens rest d hne2 hrest els hoe g1 C (by omega) hE
    simp only [fmtWhens, List.cons_append, List.append_assoc, List.nil_append]
    simp only [parseWhenArms]
    simp only [expectKw_when]
    simp only [List.append_assoc] at hOrC
    simp only [hOrC]
    simp only [expectKw_then]
    simp only [List.append_assoc] at hOrR
    simp only [hOrR]
    cases rest with
    | consW c2 r2 rest2 =>
      have hrec := hrecAll rfl
      simp only [fmtWhens, List.cons_append, List.append_assoc] at hrec ⊢
      rw [if_pos (by decide : isKwT "WHEN" (kwTok "WHEN") = true)]
      simp only [hrec]
    | nilW =>
      simp only [fmtWhens, List.nil_append] at hg ⊢
      cases els with
      | someE e0 =>
        have hle := fmtExpr_len_pos e0
        simp only [fmtElse, List.length_cons] at hg
        have hOrE : parseExprOr g1 d (fmtExpr e0 ++ (kwTok "END" :: C)) =
            Except.ok (e0, kwTok "END" :: C) :=
          hE e0 rfl g1 (by omega)
        simp only [fmtElse, List.cons_append]
        rw [if_neg (by decide : ¬(isKwT "WHEN" (kwTok "ELSE") = true))]
        rw [if_pos (by decide : isKwT "ELSE" (kwTok "ELSE") = true)]
        simp only [hOrE]
        simp only [expectKw_end]
      | noneE =>
        simp only [fmtElse, List.nil_append]
        rw [if_neg (by decide : ¬(isKwT "WHEN" (kwTok "END") = true))]
        rw [if_neg (by decide : ¬(isKwT "ELSE" (kwTok "END") = true))]
        simp only [expectKw_end]

theorem rtFArgs : ∀ (a : FArgs) (nm : List Char) (d : Nat), okFA d a = true →
    ∀ g C, 16 * (fmtFArgs a).length + 16 * C.length + 50 ≤ g → pStop C →
      parseFnArgs g d nm (fmtFArgs a ++ (symTok ")" :: C)) =
        Except.ok (.fn nm a, C)
  | .starA, nm, d => by
    intro ha g C hg hC
    obtain ⟨g1, rfl⟩ : ∃ g1, g = g1 + 1 := ⟨g - 1, by omega⟩
    simp only [fmtFArgs, List.cons_append, List.nil_append]
    simp only [parseFnArgs]
    rw [if_pos (by decide : isSymT "*" (symTok "*") = true)]
    simp only [expectSym_tok]
    exact fnFinish_ok nm _ C (pStop_over hC)
  | .argsA .nilE, nm, d => by
    intro ha g C hg hC
    obtain ⟨g1, rfl⟩ : ∃ g1, g = g1 + 1 := ⟨g - 1, by omega⟩
    simp only [fmtFArgs, List.nil_append]
    simp only [parseFnArgs]
    rw [if_neg (by decide : ¬(isSymT "*" (symTok ")") = true))]
    rw [if_pos (by decide : isSymT ")" (symTok ")") = true)]
    exact fnFinish_ok nm _ C (pStop_over hC)
  | .argsA (.consE e es), nm, d => by
    intro ha g C hg hC
    have hok : okEL d (.consE e es) = true := by simpa [okFA] using ha
    obtain ⟨g1, rfl⟩ : ∃ g1, g = g1 + 1 := ⟨g - 1, by omega⟩
    have hfa : fmtFArgs (.argsA (.consE e es)) = fmtEListFull (.consE e es) :=
      fmtFArgs_args _
    rw [hfa]
    have hEL : parseExprCList g1 d
        (fmtEListFull (.consE e es) ++ (symTok ")" :: C)) =
        Except.ok (.consE e es, symTok ")" :: C) :=
      rtEList (.consE e es) d (by intro hx; cases hx) hok g1 (symTok ")" :: C)
        (by rw [hfa] at hg; simp [List.length_append] at hg ⊢; omega)
        (hdOK_cons (by refine ⟨by decide, by decide, by decide⟩))
    have hq : okE d e = true := by
      simp only [okEL, Bool.and_eq_true] at hok
      exact hok.1
    obtain ⟨c0, cs0, hc0, _, _, hst0, hcl0, _⟩ := fmtExprHead e d hq
    have hful : fmtEListFull (.consE e es) = fmtExpr e ++ fmtEListMore es := rfl
    rw [hful, hc0]
    simp only [List.cons_append, List.append_assoc]
    simp only [parseFnArgs]
    rw [if_neg (by simp [hst0]), if_neg (by simp [hcl0])]
    rw [← List.cons_append, ← hc0, ← List.append_assoc, ← hful]
    simp only [hEL]
    simp only [expectSym_tok]
    exact fnFinish_ok nm _ C (pStop_over hC)

theorem rtEList : ∀ (es : EList) (d : Nat), es ≠ .nilE → okEL d es = true →
    ∀ g C, 16 * (fmtEListFull es).length + 16 * C.length + 33 ≤ g →
      hdOK (fun t => exprStopB t = true ∧ primStopB t = true ∧
        isSymT "," t = false) C →
      parseExprCList g d (fmtEListFull es ++ C) = Except.ok (es, C)
  | .nilE, d => by
    intro hne
    exact absurd rfl hne
  | .consE e es2, d => by
    intro hne hok g C hg hC
    simp only [okEL, Bool.and_eq_true] at hok
    have hlenE := fmtExpr_len_pos e
    obtain ⟨g1, rfl⟩ : ∃ g1, g = g1 + 1 := ⟨g - 1, by omega⟩
    have hCm : hdOK (fun t => primStopB t = true) (fmtEListMore es2 ++ C) :=
      hdOK_eListMore _ (by decide) (hdOK_mono (fun t ht => ht.2.1) hC)
    have hCe : hdOK (fun t => exprStopB t = true) (fmtEListMore es2 ++ C) :=
      hdOK_eListMore _ (by decide) (hdOK_mono (fun t ht => ht.1) hC)
    have hOr : parseExprOr g1 d (fmtExpr e ++ (fmtEListMore es2 ++ C)) =
        Except.ok (e, fmtEListMore es2 ++ C) :=
      orFromPrim g1 d e _ hok.1
        (rtPrim e d hok.1 (g1 - 8) (fmtEListMore es2 ++ C)
          (by simp only [fmtEListFull, List.length_append] at hg
              simp only [List.length_append]
              omega) hCm)
        hCe
        (by simp only [fmtEListFull, List.length_append] at hg; omega)
    simp only [fmtEListFull, List.append_assoc]
    simp only [parseExprCList]
    simp only [hOr]
    cases es2 with
    | nilE =>
      simp only [fmtEListMore, List.nil_append]
      cases C with
      | nil => rfl
      | cons t rest =>
        have hp : exprStopB t = true ∧ primStopB t = true ∧
            isSymT "," t = false := hC
        simp [hp.2.2]
    | consE e2 es3 =>
      rw [show fmtEListMore (.consE e2 es3) =
        symTok "," :: fmtEListFull (.consE e2 es3) from rfl]
      simp only [List.cons_append]
      rw [if_pos (by decide : isSymT "," (symTok ",") = true)]
      have hRec : parseExprCList g1 d (fmtEListFull (.consE e2 es3) ++ C) =
          Except.ok (.consE e2 es3, C) :=
        rtEList (.consE e2 es3) d (by intro hx; cases hx) hok.2 g1 C
          (by simp only [fmtEListFull, fmtEListMore, List.length_append,
                List.length_cons] at hg ⊢
              have := fmtExpr_len_pos e2
              omega) hC
      simp only [hRec, Except.map]

theorem rtItem : ∀ (it : SelItem) (d : Nat), okItem d it = true →
    ∀ g C, 16 * (fmtItem it).length + 16 * C.length + 33 ≤ g →
      hdOK (fun t => exprStopB t = true ∧ primStopB t = true ∧
        isKwT "AS" t = false) C →
      parseItem g d (fmtItem it ++ C) = Except.ok (it, C)
  | .starI, d => by
    intro hok g C hg hC
    obtain ⟨g1, rfl⟩ : ∃ g1, g = g1 + 1 := ⟨g - 1, by omega⟩
    simp only [fmtItem, List.cons_append, List.nil_append]
    simp only [parseItem]
    rw [if_pos (by decide : isSymT "*" (symTok "*") = true)]
  | .exprI e al, d => by
    intro hok g C hg hC
    have hoke : okE d e = true := by simpa [okItem] using hok
    have hlenE := fmtExpr_len_pos e
    obtain ⟨g1, rfl⟩ : ∃ g1, g = g1 + 1 := ⟨g - 1, by omega⟩
    have hCm : hdOK (fun t => primStopB t = true) (aliasToks al ++ C) :=
      hdOK_alias al (by decide) (hdOK_mono (fun t ht => ht.2.1) hC)
    have hCe : hdOK (fun t => exprStopB t = true) (aliasToks al ++ C) :=
      hdOK_alias al (by decide) (hdOK_mono (fun t ht => ht.1) hC)
    have hOr : parseExprOr g1 d (fmtExpr e ++ (aliasToks al ++ C)) =
        Except.ok (e, aliasToks al ++ C) :=
      orFromPrim g1 d e _ hoke
        (rtPrim e d hoke (g1 - 8) (aliasToks al ++ C)
          (by simp only [fmtItem, List.length_append] at hg
              simp only [List.length_append]
              omega) hCm)
        hCe
        (by simp only [fmtItem, List.length_append] at hg; omega)
    obtain ⟨c0, cs0, hc0, _, _, hst0, _, _⟩ := fmtExprHead e d hoke
    simp only [fmtItem, List.append_assoc]
    rw [hc0]
    simp only [List.cons_append]
    simp only [parseItem]
    rw [if_neg (by simp [hst0])]
    rw [hc0] at hOr
    simp only [List.cons_append] at hOr
    simp only [hOr]
    simp only [parseAlias_toks al C (hdOK_mono (fun t ht => ht.2.2) hC)]

theorem rtItems : ∀ (its : IList) (d : Nat), neI its = true → okIL d its = true →
    ∀ g C, 16 * (fmtItems its).length + 16 * C.length + 34 ≤ g →
      hdOK (fun t => exprStopB t = true ∧ primStopB t = true ∧
        isKwT "AS" t = false ∧ isSymT "," t = false) C →
      parseItems g d (fmtItems its ++ C) = Except.ok (its, C)
  | .nilI, d => by
    intro hne
    simp [neI] at hne
  | .consI it rest, d => by
    intro hne hok g C hg hC
    simp only [okIL, Bool.and_eq_true] at hok
    have hlenI := fmtItem_len_pos it
    obtain ⟨g1, rfl⟩ : ∃ g1, g = g1 + 1 := ⟨g - 1, by omega⟩
    have hItem : parseItem g1 d (fmtItem it ++ (fmtItemsMore rest ++ C)) =
        Except.ok (it, fmtItemsMore rest ++ C) :=
      rtItem it d hok.1 g1 (fmtItemsMore rest ++ C)
        (by simp only [fmtItems, List.length_append] at hg
            simp only [List.length_append]
            omega)
        (hdOK_itemsMore rest (by decide)
          (hdOK_mono (fun t ht => ⟨ht.1, ht.2.1, ht.2.2.1⟩) hC))
    simp only [fmtItems, List.append_assoc]
    simp only [parseItems]
    simp only [hItem]
    cases rest with
    | nilI =>
      simp only [fmtItemsMore, List.nil_append]
      cases C with
      | nil => rfl
      | cons t rest2 =>
        have hp : exprStopB t = true ∧ primStopB t = true ∧
            isKwT "AS" t = false ∧ isSymT "," t = false := hC
        simp [hp.2.2.2]
    | consI it2 r2 =>
      rw [show fmtItemsMore (.consI it2 r2) =
        symTok "," :: fmtItems (.consI it2 r2) from rfl]
      simp only [List.cons_append]
      rw [if_pos (by decide : isSymT "," (symTok ",") = true)]
      have hRec : parseItems g1 d (fmtItems (.consI it2 r2) ++ C) =
          Except.ok (.consI it2 r2, C) :=
        rtItems (.consI it2 r2) d rfl hok.2 g1 C
          (by simp only [fmtItems, fmtItemsMore, List.length_append,
                List.length_cons] at hg ⊢
              omega) hC
      simp only [hRec, Except.map]

theorem rtOExpr : ∀ (oe : OExpr) (w : String) (d : Nat), okOE d oe = true →
    upperStr w.data = w.data →
    ∀ g C, 16 * (fmtOKw w oe).length + 16 * C.length + 32 ≤ g →
      hdOK (fun t => exprStopB t = true ∧ primStopB t = true ∧
        isKwT w t = false) C →
      parseOptKwExprO w g d (fmtOKw w oe ++ C) = Except.ok (oe, C)
  | .noneE, w, d => by
    intro hok hw g C hg hC
    obtain ⟨g1, rfl⟩ : ∃ g1, g = g1 + 1 := ⟨g - 1, by omega⟩
    simp only [fmtOKw, List.nil_append]
    cases C with
    | nil => simp [parseOptKwExprO]
    | cons t rest =>
      have hp : exprStopB t = true ∧ primStopB t = true ∧
          isKwT w t = false := hC
      simp [parseOptKwExprO, hp.2.2]
  | .someE e, w, d => by
    intro hok hw g C hg hC
    have hoke : okE d e = true := by simpa [okOE] using hok
    have hlenE := fmtExpr_len_pos e
    obtain ⟨g1, rfl⟩ : ∃ g1, g = g1 + 1 := ⟨g - 1, by omega⟩
    have hCm : hdOK (fun t => primStopB t = true) C :=
      hdOK_mono (fun t ht => ht.2.1) hC
    have hCe : hdOK (fun t => exprStopB t = true) C :=
      hdOK_mono (fun t ht => ht.1) hC
    have hOr : parseExprOr g1 d (fmtExpr e ++ C) = Except.ok (e, C) :=
      orFromPrim g1 d e C hoke
        (rtPrim e d hoke (g1 - 8) C
          (by simp only [fmtOKw, List.length_cons] at hg; omega) hCm)
        hCe
        (by simp only [fmtOKw, List.length_cons] at hg; omega)
    simp only [fmtOKw, List.cons_append]
    simp only [parseOptKwExprO]
    rw [if_pos (by simp [isKwT, kwTok, hw])]
    simp only [hOr]

theorem rtOrderList : ∀ (os : OList) (d : Nat), os ≠ .nilO → okOL d os = true →
    ∀ g C, 16 * (fmtOrderFull os).length + 16 * C.length + 33 ≤ g →
      hdOK (fun t => exprStopB t = true ∧ primStopB t = true ∧
        isSymT "," t = false) C →
      parseOrderList g d (fmtOrderFull os ++ C) = Except.ok (os, C)
  | .nilO, d => by
    intro hne
    exact absurd rfl hne
  | .consO e asc os2, d => by
    intro hne hok g C hg hC
    simp only [okOL, Bool.and_eq_true] at hok
    have hlenE := fmtExpr_len_pos e
    obtain ⟨g1, rfl⟩ : ∃ g1, g = g1 + 1 := ⟨g - 1, by omega⟩
    have hMore : ∀ asc2 : Bool, parseOrderMore g1 d e asc2 (fmtOrderMore os2 ++ C) =
        Except.ok (.consO e asc2 os2, C) := by
      intro asc2
      obtain ⟨g2, rfl⟩ : ∃ g2, g1 = g2 + 1 := by
        refine ⟨g1 - 1, ?_⟩
        simp only [fmtOrderFull, List.length_append, List.length_cons] at hg
        omega
      cases os2 with
      | nilO =>
        simp only [fmtOrderMore, List.nil_append]
        cases C with
        | nil => simp [parseOrderMore]
        | cons t rest =>
          have hp : exprStopB t = true ∧ primStopB t = true ∧
              isSymT "," t = false := hC
          simp [parseOrderMore, hp.2.2]
      | consO e3 asc3 os3 =>
        rw [fmtOrderMore_full (.consO e3 asc3 os3) (by intro hx; cases hx)]
        simp only [List.cons_append]
        simp only [parseOrderMore]
        rw [if_pos (by decide : isSymT "," (symTok ",") = true)]
        have hRec : parseOrderList g2 d (fmtOrderFull (.consO e3 asc3 os3) ++ C) =
            Except.ok (.consO e3 asc3 os3, C) :=
          rtOrderList (.consO e3 asc3 os3) d (by intro hx; cases hx) hok.2 g2 C
            (by simp only [fmtOrderFull, fmtOrderMore, List.length_append,
                  List.length_cons] at hg ⊢
                omega) hC
        simp only [hRec]
    have hCm : hdOK (fun t => primStopB t = true)
        (kwTok (if asc then "ASC" else "DESC") :: (fmtOrderMore os2 ++ C)) :=
      hdOK_cons (by cases asc <;> decide)
    have hCe : hdOK (fun t => exprStopB t = true)
        (kwTok (if asc then "ASC" else "DESC") :: (fmtOrderMore os2 ++ C)) :=
      hdOK_cons (by cases asc <;> decide)
    have hOr : parseExprOr g1 d
        (fmtExpr e ++ (kwTok (if asc then "ASC" else "DESC") ::
          (fmtOrderMore os2 ++ C))) =
        Except.ok (e, kwTok (if asc then "ASC" else "DESC") ::
          (fmtOrderMore os2 ++ C)) :=
      orFromPrim g1 d e _ hok.1
        (rtPrim e d hok.1 (g1 - 8) _
          (by simp only [fmtOrderFull, List.length_append, List.length_cons] at hg
              simp only [List.length_append, List.length_cons]
              omega) hCm)
        hCe
        (by simp only [fmtOrderFull, List.length_append, List.length_cons] at hg
            omega)
    simp only [fmtOrderFull, List.append_assoc, List.cons_append]
    simp only [parseOrderList]
    simp only [hOr]
    cases asc with
    | true =>
      rw [if_pos rfl]
      rw [if_pos (by decide : isKwT "ASC" (kwTok "ASC") = true)]
      exact hMore true
    | false =>
      rw [if_neg (by decide : ¬(false = true))]
      rw [if_neg (by decide : ¬(isKwT "ASC" (kwTok "DESC") = true))]
      rw [if_pos (by decide : isKwT "DESC" (kwTok "DESC") = true)]
      exact hMore false

theorem rtFromIt : ∀ (fi : FromIt) (d : Nat), okFI d fi = true →
    ∀ g C, 16 * (fmtFromIt fi).length + 16 * C.length + 24 ≤ g →
      hdOK (fun t => isKwT "AS" t = false) C →
      parseFromItem g d (fmtFromIt fi ++ C) = Except.ok (fi, C)
  | .table nm al, d => by
    intro hok g C hg hC
    obtain ⟨g1, rfl⟩ : ∃ g1, g = g1 + 1 := ⟨g - 1, by omega⟩
    simp only [fmtFromIt, List.cons_append]
    simp only [parseFromItem]
    simp only [parseAlias_toks al C hC]
  | .subT q a, d => by
    intro hok g C hg hC
    obtain ⟨d2, rfl⟩ : ∃ d2, d = d2 + 1 := by
      cases d with
      | zero => simp [okFI] at hok
      | succ d2 => exact ⟨d2, rfl⟩
    have hq : okSel d2 q = true := by simpa [okFI] using hok
    obtain ⟨g1, rfl⟩ : ∃ g1, g = g1 + 1 := ⟨g - 1, by omega⟩
    have hSel : parseSel g1 d2
        (fmtSel q ++ (symTok ")" :: kwTok "AS" :: ⟨.id, a⟩ :: C)) =
        Except.ok (q, symTok ")" :: kwTok "AS" :: ⟨.id, a⟩ :: C) :=
      rtSel q d2 hq g1 _
        (by simp only [fmtFromIt, List.length_append, List.length_cons] at hg
            simp only [List.length_cons]
            omega)
        (hdOK_cons (Or.inl rfl))
    obtain ⟨tl, htl⟩ := fmtSelHead q
    simp only [fmtFromIt, List.cons_append, List.append_assoc, List.nil_append]
    rw [htl]
    simp only [List.cons_append]
    simp only [parseFromItem, symTok]
    rw [if_pos (by decide : isSymT "(" (STok.mk .sym ['(']) = true)]
    rw [htl] at hSel
    simp only [List.cons_append, symTok] at hSel
    simp only [hSel]
    simp [expectSym, expectKw, expectIdent, isSymT, isKwT, kwTok, upperStr]

theorem rtJoins : ∀ (js : JList) (d : Nat), okJL d js = true →
    ∀ g C, 16 * (fmtJoins js).length + 16 * C.length + 40 ≤ g →
      hdOK joinStopP C →
      parseJoins g d (fmtJoins js ++ C) = Except.ok (js, C)
  | .nilJ, d => by
    intro hok g C hg hC
    obtain ⟨g1, rfl⟩ : ∃ g1, g = g1 + 1 := ⟨g - 1, by omega⟩
    simp only [fmtJoins, List.nil_append]
    cases C with
    | nil => simp [parseJoins]
    | cons t rest =>
      have hp : joinStopP t := hC
      obtain ⟨-, -, -, h4, h5, h6, h7, h8, h9, h10⟩ := hp
      simp [parseJoins, h5, h6, h7, h8, h9, h10]
  | .consJ (.mk k src onE) js2, d => by
    intro hok g C hg hC
    simp only [okJL, okJ, Bool.and_eq_true] at hok
    obtain ⟨⟨hsrc, honE⟩, hjs2⟩ := hok
    have hlenS := fmtFromIt_len_pos src
    obtain ⟨g1, rfl⟩ : ∃ g1, g = g1 + 1 := ⟨g - 1, by omega⟩
    have hTail : ∀ g2 k2, 16 * ((fmtFromIt src).length + (fmtOnE onE).length +
        (fmtJoins js2).length) + 16 * C.length + 37 ≤ g2 →
        parseJoinTail g2 d k2
          (fmtFromIt src ++ (fmtOnE onE ++ (fmtJoins js2 ++ C))) =
          Except.ok (.consJ (.mk k2 src onE) js2, C) := by
      intro g2 k2 hg2
      obtain ⟨g3, rfl⟩ : ∃ g3, g2 = g3 + 1 := ⟨g2 - 1, by omega⟩
      have hSrc : parseFromItem g3 d
          (fmtFromIt src ++ (fmtOnE onE ++ (fmtJoins js2 ++ C))) =
          Except.ok (src, fmtOnE onE ++ (fmtJoins js2 ++ C)) :=
        rtFromIt src d hsrc g3 _
          (by simp only [List.length_append]; omega)
          (hdOK_onE onE (by decide)
            (hdOK_joins js2 (by decide) (by decide) (by decide) (by decide)
              (by decide) (hdOK_mono (fun t ht => ht.2.2.1) hC)))
      have hJs : parseJoins g3 d (fmtJoins js2 ++ C) = Except.ok (js2, C) :=
        rtJoins js2 d hjs2 g3 C (by omega) hC
      simp only [parseJoinTail]
      simp only [hSrc]
      cases onE with
      | someE e =>
        have hoke : okE d e = true := by simpa [okOE] using honE
        have hlenE := fmtExpr_len_pos e
        have hCm : hdOK (fun t => primStopB t = true) (fmtJoins js2 ++ C) :=
          hdOK_joins js2 (by decide) (by decide) (by decide) (by decide)
            (by decide) (hdOK_mono (fun t ht => ht.2.1) hC)
        have hCe : hdOK (fun t => exprStopB t = true) (fmtJoins js2 ++ C) :=
          hdOK_joins js2 (by decide) (by decide) (by decide) (by decide)
            (by decide) (hdOK_mono (fun t ht => ht.1) hC)
        have hOr : parseExprOr g3 d (fmtExpr e ++ (fmtJoins js2 ++ C)) =
            Except.ok (e, fmtJoins js2 ++ C) :=
          orFromPrim g3 d e _ hoke
            (rtPrim e d hoke (g3 - 8) _
              (by simp only [fmtOnE, List.length_append, List.length_cons] at hg2
                  simp only [List.length_append]
                  omega) hCm)
            hCe
            (by simp only [fmtOnE, List.length_append, List.length_cons] at hg2
                omega)
        simp only [fmtOnE, List.cons_append]
        rw [if_pos (by decide : isKwT "ON" (kwTok "ON") = true)]
        simp only [hOr]
        simp only [hJs]
      | noneE =>
        simp only [fmtOnE, List.nil_append]
        cases js2 with
        | nilJ =>
          simp only [fmtJoins, List.nil_append] at hJs ⊢
          cases C with
          | nil => rfl
          | cons t rest =>
            have hp : joinStopP t := hC
            simp [hp.2.2.2.1, hJs]
        | consJ j3 js3 =>
          obtain ⟨k3, src3, onE3⟩ := j3
          cases k3 with
          | innerJ =>
            simp only [fmtJoins, joinKwToks, List.cons_append,
              List.append_assoc] at hJs ⊢
            rw [if_neg (by decide : ¬(isKwT "ON" (kwTok "INNER") = true))]
            simp only [hJs]
          | leftJ =>
            simp only [fmtJoins, joinKwToks, List.cons_append,
              List.append_assoc] at hJs ⊢
            rw [if_neg (by decide : ¬(isKwT "ON" (kwTok "LEFT") = true))]
            simp only [hJs]
          | rightJ =>
            simp only [fmtJoins, joinKwToks, List.cons_append,
              List.append_assoc] at hJs ⊢
            rw [if_neg (by decide : ¬(isKwT "ON" (kwTok "RIGHT") = true))]
            simp only [hJs]
          | fullJ =>
            simp only [fmtJoins, joinKwToks, List.cons_append,
              List.append_assoc] at hJs ⊢
            rw [if_neg (by decide : ¬(isKwT "ON" (kwTok "FULL") = true))]
            simp only [hJs]
          | crossJ =>
            simp only [fmtJoins, joinKwToks, List.cons_append,
              List.append_assoc] at hJs ⊢
            rw [if_neg (by decide : ¬(isKwT "ON" (kwTok "CROSS") = true))]
            simp only [hJs]
    have hb : 16 * ((fmtFromIt src).length + (fmtOnE onE).length +
        (fmtJoins js2).length) + 16 * C.length + 38 ≤ g1 := by
      cases k <;>
        (simp only [fmtJoins, joinKwToks, List.length_append,
          List.length_cons] at hg
         omega)
    cases k with
    | innerJ =>
      simp only [fmtJoins, joinKwToks, List.cons_append, List.append_assoc]
      simp only [parseJoins]
      rw [if_neg (by decide : ¬(isKwT "JOIN" (kwTok "INNER") = true))]
      rw [if_pos (by decide : isKwT "INNER" (kwTok "INNER") = true)]
      simp only [expectKw_join]
      exact hTail g1 .innerJ (by omega)
    | crossJ =>
      simp only [fmtJoins, joinKwToks, List.cons_append, List.append_assoc]
      simp only [parseJoins]
      rw [if_neg (by decide : ¬(isKwT "JOIN" (kwTok "CROSS") = true))]
      rw [if_neg (by decide : ¬(isKwT "INNER" (kwTok "CROSS") = true))]
      rw [if_neg (by decide : ¬(isKwT "LEFT" (kwTok "CROSS") = true))]
      rw [if_neg (by decide : ¬(isKwT "RIGHT" (kwTok "CROSS") = true))]
      rw [if_neg (by decide : ¬(isKwT "FULL" (kwTok "CROSS") = true))]
      rw [if_pos (by decide : isKwT "CROSS" (kwTok "CROSS") = true)]
      simp only [expectKw_join]
      exact hTail g1 .crossJ (by omega)
    | leftJ =>
      simp only [fmtJoins, joinKwToks, List.cons_append, List.append_assoc]
      simp only [parseJoins]
      rw [if_neg (by decide : ¬(isKwT "JOIN" (kwTok "LEFT") = true))]
      rw [if_neg (by decide : ¬(isKwT "INNER" (kwTok "LEFT") = true))]
      rw [if_pos (by decide : isKwT "LEFT" (kwTok "LEFT") = true)]
      obtain ⟨g4, rfl⟩ : ∃ g4, g1 = g4 + 1 := ⟨g1 - 1, by omega⟩
      simp only [parseJoinOuter]
      rw [if_neg (by decide : ¬(isKwT "OUTER" (kwTok "JOIN") = true))]
      simp only [expectKw_join]
      exact hTail g4 .leftJ (by omega)
    | rightJ =>
      simp only [fmtJoins, joinKwToks, List.cons_append, List.append_assoc]
      simp only [parseJoins]
      rw [if_neg (by decide : ¬(isKwT "JOIN" (kwTok "RIGHT") = true))]
      rw [if_neg (by decide : ¬(isKwT "INNER" (kwTok "RIGHT") = true))]
      rw [if_neg (by decide : ¬(isKwT "LEFT" (kwTok "RIGHT") = true))]
      rw [if_pos (by decide : isKwT "RIGHT" (kwTok "RIGHT") = true)]
      obtain ⟨g4, rfl⟩ : ∃ g4, g1 = g4 + 1 := ⟨g1 - 1, by omega⟩
      simp only [parseJoinOuter]
      rw [if_neg (by decide : ¬(isKwT "OUTER" (kwTok "JOIN") = true))]
      simp only [expectKw_join]
      exact hTail g4 .rightJ (by omega)
    | fullJ =>
      simp only [fmtJoins, joinKwToks, List.cons_append, List.append_assoc]
      simp only [parseJoins]
      rw [if_neg (by decide : ¬(isKwT "JOIN" (kwTok "FULL") = true))]
      rw [if_neg (by decide : ¬(isKwT "INNER" (kwTok "FULL") = true))]
      rw [if_neg (by decide : ¬(isKwT "LEFT" (kwTok "FULL") = true))]
      rw [if_neg (by decide : ¬(isKwT "RIGHT" (kwTok "FULL") = true))]
      rw [if_pos (by decide : isKwT "FULL" (kwTok "FULL") = true)]
      obtain ⟨g4, rfl⟩ : ∃ g4, g1 = g4 + 1 := ⟨g1 - 1, by omega⟩
      simp only [parseJoinOuter]
      rw [if_neg (by decide : ¬(isKwT "OUTER" (kwTok "JOIN") = true))]
      simp only [expectKw_join]
      exact hTail g4 .fullJ (by omega)

theorem rtFromPart : ∀ (fr : FromPart) (d : Nat), okFP d fr = true →
    ∀ g C, 16 * (fmtFromPart fr).length + 16 * C.length + 42 ≤ g →
      hdOK (fun t => joinStopP t ∧ isKwT "FROM" t = false) C →
      parseFromPart g d (fmtFromPart fr ++ C) = Except.ok (fr, C)
  | .noneF, d => by
    intro hok g C hg hC
    obtain ⟨g1, rfl⟩ : ∃ g1, g = g1 + 1 := ⟨g - 1, by omega⟩
    simp only [fmtFromPart, List.nil_append]
    cases C with
    | nil => simp [parseFromPart]
    | cons t rest =>
      have hp : joinStopP t ∧ isKwT "FROM" t = false := hC
      simp [parseFromPart, hp.2]
  | .someF fi js, d => by
    intro hok g C hg hC
    simp only [okFP, Bool.and_eq_true] at hok
    have hlenF := fmtFromIt_len_pos fi
    obtain ⟨g1, rfl⟩ : ∃ g1, g = g1 + 1 := ⟨g - 1, by omega⟩
    have hFi : parseFromItem g1 d (fmtFromIt fi ++ (fmtJoins js ++ C)) =
        Except.ok (fi, fmtJoins js ++ C) :=
      rtFromIt fi d hok.1 g1 _
        (by simp only [fmtFromPart, List.length_append, List.length_cons] at hg
            simp only [List.length_append]
            omega)
        (hdOK_joins js (by decide) (by decide) (by decide) (by decide)
          (by decide) (hdOK_mono (fun t ht => ht.1.2.2.1) hC))
    have hJs : parseJoins g1 d (fmtJoins js ++ C) = Except.ok (js, C) :=
      rtJoins js d hok.2 g1 C
        (by simp only [fmtFromPart, List.length_append, List.length_cons] at hg
            omega)
        (hdOK_mono (fun t ht => ht.1) hC)
    simp only [fmtFromPart, List.cons_append, List.append_assoc]
    simp only [parseFromPart]
    rw [if_pos (by decide : isKwT "FROM" (kwTok "FROM") = true)]
    simp only [hFi]
    simp only [hJs]

theorem rtSel : ∀ (q : Sel) (d : Nat), okSel d q = true →
    ∀ g C, 16 * (fmtSel q).length + 16 * C.length + 39 ≤ g → selStop C →
      parseSel g d (fmtSel q ++ C) = Except.ok (q, C)
  | .mk items fr wh gb hv ob lm off, d => by
    intro hok g C hg hC
    simp only [okSel, Bool.and_eq_true] at hok
    obtain ⟨⟨⟨⟨⟨⟨⟨⟨hne, hits⟩, hfr⟩, hwh⟩, hgb⟩, hhv⟩, hob⟩, hlm⟩, hoff⟩ := hok
    obtain ⟨g1, rfl⟩ : ∃ g1, g = g1 + 1 := ⟨g - 1, by omega⟩
    have hL : 16 * ((fmtItems items).length + (fmtFromPart fr).length +
        (fmtOKw "WHERE" wh).length + (fmtGroupBy gb).length +
        (fmtOKw "HAVING" hv).length + (fmtOrderBy ob).length +
        (fmtOKw "LIMIT" lm).length + (fmtOKw "OFFSET" off).length) +
        16 * C.length + 54 ≤ g1 := by
      simp only [fmtSel, fmtOWhere_okw, fmtOHaving_okw, fmtOLimit_okw,
        fmtOOffset_okw, List.length_append, List.length_cons] at hg
      omega
    have hcOFF : hdOK (fun t => exprStopB t = true ∧ primStopB t = true ∧
        isKwT "OFFSET" t = false) C :=
      selStop_hdOK hC (by decide) (by decide) (by decide) (by decide)
    have hcLIM : hdOK (fun t => exprStopB t = true ∧ primStopB t = true ∧
        isKwT "LIMIT" t = false) (fmtOKw "OFFSET" off ++ C) :=
      hdOK_okw "OFFSET" off (by decide)
        (selStop_hdOK hC (by decide) (by decide) (by decide) (by decide))
    have hcOBn : hdOK (fun t => isKwT "ORDER" t = false)
        (fmtOKw "LIMIT" lm ++ (fmtOKw "OFFSET" off ++ C)) :=
      hdOK_okw "LIMIT" lm (by decide) (hdOK_okw "OFFSET" off (by decide)
        (selStop_hdOK hC (by decide) (by decide) (by decide) (by decide)))
    have hcOL : hdOK (fun t => exprStopB t = true ∧ primStopB t = true ∧
        isSymT "," t = false) (fmtOKw "LIMIT" lm ++ (fmtOKw "OFFSET" off ++ C)) :=
      hdOK_okw "LIMIT" lm (by decide) (hdOK_okw "OFFSET" off (by decide)
        (selStop_hdOK hC (by decide) (by decide) (by decide) (by decide)))
    have hcHAV : hdOK (fun t => exprStopB t = true ∧ primStopB t = true ∧
        isKwT "HAVING" t = false)
        (fmtOrderBy ob ++ (fmtOKw "LIMIT" lm ++ (fmtOKw "OFFSET" off ++ C))) :=
      hdOK_orderBy ob (by decide) (hdOK_okw "LIMIT" lm (by decide)
        (hdOK_okw "OFFSET" off (by decide)
          (selStop_hdOK hC (by decide) (by decide) (by decide) (by decide))))
    have hcGBn : hdOK (fun t => isKwT "GROUP" t = false)
        (fmtOKw "HAVING" hv ++ (fmtOrderBy ob ++
          (fmtOKw "LIMIT" lm ++ (fmtOKw "OFFSET" off ++ C)))) :=
      hdOK_okw "HAVING" hv (by decide) (hdOK_orderBy ob (by decide)
        (hdOK_okw "LIMIT" lm (by decide) (hdOK_okw "OFFSET" off (by decide)
          (selStop_hdOK hC (by decide) (by decide) (by decide) (by decide)))))
    have hcEL : hdOK (fun t => exprStopB t = true ∧ primStopB t = true ∧
        isSymT "," t = false)
        (fmtOKw "HAVING" hv ++ (fmtOrderBy ob ++
          (fmtOKw "LIMIT" lm ++ (fmtOKw "OFFSET" off ++ C)))) :=
      hdOK_okw "HAVING" hv (by decide) (hdOK_orderBy ob (by decide)
        (hdOK_okw "LIMIT" lm (by decide) (hdOK_okw "OFFSET" off (by decide)
          (selStop_hdOK hC (by decide) (by decide) (by decide) (by decide)))))
    have hcWH : hdOK (fun t => exprStopB t = true ∧ primStopB t = true ∧
        isKwT "WHERE" t = false)
        (fmtGroupBy gb ++ (fmtOKw "HAVING" hv ++ (fmtOrderBy ob ++
          (fmtOKw "LIMIT" lm ++ (fmtOKw "OFFSET" off ++ C))))) :=
      hdOK_groupBy gb (by decide) (hdOK_okw "HAVING" hv (by decide)
        (hdOK_orderBy ob (by decide) (hdOK_okw "LIMIT" lm (by decide)
          (hdOK_okw "OFFSET" off (by decide)
            (selStop_hdOK hC (by decide) (by decide) (by decide) (by decide))))))
    have hcFP : hdOK (fun t => joinStopP t ∧ isKwT "FROM" t = false)
        (fmtOKw "WHERE" wh ++ (fmtGroupBy gb ++ (fmtOKw "HAVING" hv ++
          (fmtOrderBy ob ++ (fmtOKw "LIMIT" lm ++ (fmtOKw "OFFSET" off ++ C)))))) :=
      hdOK_okw "WHERE" wh (by decide) (hdOK_groupBy gb (by decide)
        (hdOK_okw "HAVING" hv (by decide) (hdOK_orderBy ob (by decide)
          (hdOK_okw "LIMIT" lm (by decide) (hdOK_okw "OFFSET" off (by decide)
            (selStop_hdOK hC (by decide) (by decide) (by decide) (by decide)))))))
    have hcIT : hdOK (fun t => exprStopB t = true ∧ primStopB t = true ∧
        isKwT "AS" t = false ∧ isSymT "," t = false)
        (fmtFromPart fr ++ (fmtOKw "WHERE" wh ++ (fmtGroupBy gb ++
          (fmtOKw "HAVING" hv ++ (fmtOrderBy ob ++ (fmtOKw "LIMIT" lm ++
            (fmtOKw "OFFSET" off ++ C))))))) :=
      hdOK_fromPart fr (by decide) (hdOK_okw "WHERE" wh (by decide)
        (hdOK_groupBy gb (by decide) (hdOK_okw "HAVING" hv (by decide)
          (hdOK_orderBy ob (by decide) (hdOK_okw "LIMIT" lm (by decide)
            (hdOK_okw "OFFSET" off (by decide)
              (selStop_hdOK hC (by decide) (by decide) (by decide) (by decide))))))))
    have hItems : parseItems g1 d (fmtItems items ++ (fmtFromPart fr ++
        (fmtOKw "WHERE" wh ++ (fmtGroupBy gb ++ (fmtOKw "HAVING" hv ++
          (fmtOrderBy ob ++ (fmtOKw "LIMIT" lm ++ (fmtOKw "OFFSET" off ++ C)))))))) =
        Except.ok (items, fmtFromPart fr ++ (fmtOKw "WHERE" wh ++
          (fmtGroupBy gb ++ (fmtOKw "HAVING" hv ++ (fmtOrderBy ob ++
            (fmtOKw "LIMIT" lm ++ (fmtOKw "OFFSET" off ++ C))))))) :=
      rtItems items d hne hits g1 _
        (by simp only [List.length_append]; omega) hcIT
    have hFr : parseFromPart g1 d (fmtFromPart fr ++ (fmtOKw "WHERE" wh ++
        (fmtGroupBy gb ++ (fmtOKw "HAVING" hv ++ (fmtOrderBy ob ++
          (fmtOKw "LIMIT" lm ++ (fmtOKw "OFFSET" off ++ C))))))) =
        Except.ok (fr, fmtOKw "WHERE" wh ++ (fmtGroupBy gb ++
          (fmtOKw "HAVING" hv ++ (fmtOrderBy ob ++ (fmtOKw "LIMIT" lm ++
            (fmtOKw "OFFSET" off ++ C)))))) :=
      rtFromPart fr d hfr g1 _
        (by simp only [List.length_append]; omega) hcFP
    have hWh : parseOptKwExprO "WHERE" g1 d (fmtOKw "WHERE" wh ++
        (fmtGroupBy gb ++ (fmtOKw "HAVING" hv ++ (fmtOrderBy ob ++
          (fmtOKw "LIMIT" lm ++ (fmtOKw "OFFSET" off ++ C)))))) =
        Except.ok (wh, fmtGroupBy gb ++ (fmtOKw "HAVING" hv ++
          (fmtOrderBy ob ++ (fmtOKw "LIMIT" lm ++ (fmtOKw "OFFSET" off ++ C))))) :=
      rtOExpr wh "WHERE" d hwh (by decide) g1 _
        (by simp only [List.length_append]; omega) hcWH
    have hGb : parseGroupBy g1 d (fmtGroupBy gb ++ (fmtOKw "HAVING" hv ++
        (fmtOrderBy ob ++ (fmtOKw "LIMIT" lm ++ (fmtOKw "OFFSET" off ++ C))))) =
        Except.ok (gb, fmtOKw "HAVING" hv ++ (fmtOrderBy ob ++
          (fmtOKw "LIMIT" lm ++ (fmtOKw "OFFSET" off ++ C)))) := by
      cases gb with
      | nilE =>
        simp only [fmtGroupBy, List.nil_append]
        exact parseGroupBy_nil g1 d _ hcGBn (by omega)
      | consE e es =>
        obtain ⟨g2, rfl⟩ : ∃ g2, g1 = g2 + 1 := ⟨g1 - 1, by omega⟩
        simp only [fmtGroupBy, List.cons_append, List.append_assoc]
        simp only [parseGroupBy]
        rw [if_pos (by decide : isKwT "GROUP" (kwTok "GROUP") = true)]
        simp only [expectKw_by]
        have h := rtEList (.consE e es) d (by intro hx; cases hx) hgb g2 _
          (by simp only [fmtGroupBy, List.length_cons, List.length_append] at hL
              simp only [fmtEListFull, List.length_append]
              omega) hcEL
        simp only [fmtEListFull, List.append_assoc] at h
        exact h
    have hHv : parseOptKwExprO "HAVING" g1 d (fmtOKw "HAVING" hv ++
        (fmtOrderBy ob ++ (fmtOKw "LIMIT" lm ++ (fmtOKw "OFFSET" off ++ C)))) =
        Except.ok (hv, fmtOrderBy ob ++ (fmtOKw "LIMIT" lm ++
          (fmtOKw "OFFSET" off ++ C))) :=
      rtOExpr hv "HAVING" d hhv (by decide) g1 _
        (by simp only [List.length_append]; omega) hcHAV
    have hOb : parseOrderBy g1 d (fmtOrderBy ob ++ (fmtOKw "LIMIT" lm ++
        (fmtOKw "OFFSET" off ++ C))) =
        Except.ok (ob, fmtOKw "LIMIT" lm ++ (fmtOKw "OFFSET" off ++ C)) := by
      cases ob with
      | nilO =>
        simp only [fmtOrderBy, List.nil_append]
        exact parseOrderBy_nil g1 d _ hcOBn (by omega)
      | consO e asc os =>
        obtain ⟨g2, rfl⟩ : ∃ g2, g1 = g2 + 1 := ⟨g1 - 1, by omega⟩
        rw [fmtOrderBy_full]
        simp only [List.cons_append, List.append_assoc]
        simp only [parseOrderBy]
        rw [if_pos (by decide : isKwT "ORDER" (kwTok "ORDER") = true)]
        simp only [expectKw_by]
        exact rtOrderList (.consO e asc os) d (by intro hx; cases hx) hob g2 _
          (by simp only [fmtOrderBy_full, List.length_cons] at hL
              simp only [List.length_append]
              omega) hcOL
    have hLm : parseOptKwExprO "LIMIT" g1 d (fmtOKw "LIMIT" lm ++
        (fmtOKw "OFFSET" off ++ C)) =
        Except.ok (lm, fmtOKw "OFFSET" off ++ C) :=
      rtOExpr lm "LIMIT" d hlm (by decide) g1 _
        (by simp only [List.length_append]; omega) hcLIM
    have hOff : parseOptKwExprO "OFFSET" g1 d (fmtOKw "OFFSET" off ++ C) =
        Except.ok (off, C) :=
      rtOExpr off "OFFSET" d hoff (by decide) g1 C (by omega) hcOFF
    simp only [fmtSel, fmtOWhere_okw, fmtOHaving_okw, fmtOLimit_okw,
      fmtOOffset_okw, List.cons_append, List.append_assoc]
    simp only [parseSel]
    simp only [expectKw_select]
    simp only [hItems]
    simp only [hFr]
    simp only [hWh]
    simp only [hGb]
    simp only [hHv]
    simp only [hOb]
    simp only [hLm]
    simp only [hOff]

end



/-- The continuation after a formatted select inside a set-operation chain
is select-stopped. -/
theorem selStop_setOps : ∀ ops : List (SetKind × Sel), selStop (fmtSetOps ops) := by
  intro ops
  cases ops with
  | nil => trivial
  | cons p rest =>
    obtain ⟨k, s⟩ := p
    cases k with
    | unionK => exact Or.inr (Or.inl rfl)
    | unionAllK => exact Or.inr (Or.inl rfl)
    | intersectK => exact Or.inr (Or.inr (Or.inl rfl))
    | exceptK => exact Or.inr (Or.inr (Or.inr rfl))

/-- Round trip for the set-operation loop at the end of the input. -/
theorem rtSetLoop : ∀ (ops : List (SetKind × Sel)) (d : Nat),
    ops.all (fun p => okSel d p.2) = true →
    ∀ g, 16 * (fmtSetOps ops).length + 48 ≤ g →
      parseSetLoop g d (fmtSetOps ops) = Except.ok (ops, [])
  | [], d => by
    intro hok g hg
    obtain ⟨g1, rfl⟩ : ∃ g1, g = g1 + 1 := ⟨g - 1, by omega⟩
    simp [fmtSetOps, parseSetLoop]
  | (k, sq) :: rest, d => by
    intro hok g hg
    simp only [List.all_cons, Bool.and_eq_true] at hok
    have hlenS := fmtSel_len_pos sq
    obtain ⟨g1, rfl⟩ : ∃ g1, g = g1 + 1 := ⟨g - 1, by omega⟩
    obtain ⟨tl, htl⟩ := fmtSelHead sq
    have hRhs : ∀ g2, 16 * ((fmtSel sq).length + (fmtSetOps rest).length) +
        46 ≤ g2 →
        parseSetRhs g2 d k (fmtSel sq ++ fmtSetOps rest) =
          Except.ok ((k, sq) :: rest, []) := by
      intro g2 hg2
      obtain ⟨g3, rfl⟩ : ∃ g3, g2 = g3 + 1 := ⟨g2 - 1, by omega⟩
      have hSel : parseSel g3 d (fmtSel sq ++ fmtSetOps rest) =
          Except.ok (sq, fmtSetOps rest) :=
        rtSel sq d hok.1 g3 (fmtSetOps rest) (by omega) (selStop_setOps rest)
      have hLoop : parseSetLoop g3 d (fmtSetOps rest) =
          Except.ok (rest, []) :=
        rtSetLoop rest d hok.2 g3 (by omega)
      simp only [parseSetRhs]
      simp only [hSel]
      simp only [hLoop]
    have hb : 16 * ((fmtSel sq).length + (fmtSetOps rest).length) + 46 ≤ g1 - 1 := by
      cases k <;>
        (simp only [fmtSetOps, setKwToks, List.length_append, List.length_cons,
          List.length_nil] at hg
         omega)
    cases k with
    | unionK =>
      simp only [fmtSetOps, setKwToks, List.cons_append, List.nil_append,
        List.append_assoc]
      rw [htl]
      simp only [parseSetLoop]
      rw [if_pos (by decide : isKwT "UNION" (kwTok "UNION") = true)]
      have hall : isKwT "ALL" (kwTok "SELECT") = false := by decide
      have h2 := hRhs g1 (by omega)
      rw [htl] at h2
      simp only [List.cons_append] at h2
      simp [hall, h2]
    | unionAllK =>
      simp only [fmtSetOps, setKwToks, List.cons_append, List.nil_append,
        List.append_assoc]
      simp only [parseSetLoop]
      rw [if_pos (by decide : isKwT "UNION" (kwTok "UNION") = true)]
      rw [if_pos (by decide : isKwT "ALL" (kwTok "ALL") = true)]
      exact hRhs g1 (by omega)
    | intersectK =>
      simp only [fmtSetOps, setKwToks, List.cons_append, List.nil_append,
        List.append_assoc]
      simp only [parseSetLoop]
      rw [if_neg (by decide : ¬(isKwT "UNION" (kwTok "INTERSECT") = true))]
      rw [if_pos (by decide : isKwT "INTERSECT" (kwTok "INTERSECT") = true)]
      exact hRhs g1 (by omega)
    | exceptK =>
      simp only [fmtSetOps, setKwToks, List.cons_append, List.nil_append,
        List.append_assoc]
      simp only [parseSetLoop]
      rw [if_neg (by decide : ¬(isKwT "UNION" (kwTok "EXCEPT") = true))]
      rw [if_neg (by decide : ¬(isKwT "INTERSECT" (kwTok "EXCEPT") = true))]
      rw [if_pos (by decide : isKwT "EXCEPT" (kwTok "EXCEPT") = true)]
      exact hRhs g1 (by omega)

/-- Round trip for the parenthesised VALUES expression list. -/
theorem rtExprsP : ∀ (vals : List Expr) (d : Nat), vals ≠ [] →
    vals.all (okE d) = true →
    ∀ g C, 16 * (fmtExprsC vals).length + 16 * C.length + 33 ≤ g →
      hdOK (fun t => exprStopB t = true ∧ primStopB t = true ∧
        isSymT "," t = false) C →
      parseExprsP g d (fmtExprsC vals ++ C) = Except.ok (vals, C)
  | [], d => by
    intro hne
    exact absurd rfl hne
  | [e], d => by
    intro hne hok g C hg hC
    have hoke : okE d e = true := by simpa using hok
    have hlenE := fmtExpr_len_pos e
    obtain ⟨g1, rfl⟩ : ∃ g1, g = g1 + 1 := ⟨g - 1, by omega⟩
    have hOr : parseExprOr g1 d (fmtExpr e ++ C) = Except.ok (e, C) :=
      orFromPrim g1 d e C hoke
        (rtPrim e d hoke (g1 - 8) C
          (by simp only [fmtExprsC] at hg; omega)
          (hdOK_mono (fun t ht => ht.2.1) hC))
        (hdOK_mono (fun t ht => ht.1) hC)
        (by simp only [fmtExprsC] at hg; omega)
    simp only [fmtExprsC]
    simp only [parseExprsP]
    simp only [hOr]
    cases C with
    | nil => rfl
    | cons t rest =>
      have hp : exprStopB t = true ∧ primStopB t = true ∧
          isSymT "," t = false := hC
      simp [hp.2.2]
  | e :: e2 :: rest, d => by
    intro hne hok g C hg hC
    simp only [List.all_cons, Bool.and_eq_true] at hok
    have hoke : okE d e = true := hok.1
    have hlenE := fmtExpr_len_pos e
    have hlenE2 := fmtExpr_len_pos e2
    obtain ⟨g1, rfl⟩ : ∃ g1, g = g1 + 1 := ⟨g - 1, by omega⟩
    have hOr : parseExprOr g1 d
        (fmtExpr e ++ (symTok "," :: (fmtExprsC (e2 :: rest) ++ C))) =
        Except.ok (e, symTok "," :: (fmtExprsC (e2 :: rest) ++ C)) :=
      orFromPrim g1 d e _ hoke
        (rtPrim e d hoke (g1 - 8) _
          (by simp only [fmtExprsC, List.length_append, List.length_cons] at hg
              simp only [List.length_append, List.length_cons]
              omega)
          (hdOK_cons (by decide)))
        (hdOK_cons (by decide))
        (by simp only [fmtExprsC, List.length_append, List.length_cons] at hg
            omega)
    have hRec : parseExprsP g1 d (fmtExprsC (e2 :: rest) ++ C) =
        Except.ok (e2 :: rest, C) :=
      rtExprsP (e2 :: rest) d (by intro hx; cases hx)
        (by simp [List.all_cons, hok.2.1, hok.2.2]) g1 C
        (by simp only [fmtExprsC, List.length_append, List.length_cons] at hg
            omega) hC
    rw [show fmtExprsC (e :: e2 :: rest) =
      fmtExpr e ++ symTok "," :: fmtExprsC (e2 :: rest) from rfl]
    simp only [List.append_assoc, List.cons_append]
    simp only [parseExprsP]
    simp only [hOr]
    rw [if_pos (by decide : isSymT "," (symTok ",") = true)]
    simp only [hRec, Except.map]

/-- Round trip for the SET assignment list of an UPDATE. -/
theorem rtAssigns : ∀ (sets : List (List Char × Expr)) (d : Nat), sets ≠ [] →
    sets.all (fun p => okE d p.2) = true →
    ∀ g C, 16 * (fmtAssigns sets).length + 16 * C.length + 35 ≤ g →
      hdOK (fun t => exprStopB t = true ∧ primStopB t = true ∧
        isSymT "," t = false) C →
      parseAssigns g d (fmtAssigns sets ++ C) = Except.ok (sets, C)
  | [], d => by
    intro hne
    exact absurd rfl hne
  | [(x, e)], d => by
    intro hne hok g C hg hC
    have hoke : okE d e = true := by simpa using hok
    have hlenE := fmtExpr_len_pos e
    obtain ⟨g1, rfl⟩ : ∃ g1, g = g1 + 1 := ⟨g - 1, by omega⟩
    have hOr : parseExprOr g1 d (fmtExpr e ++ C) = Except.ok (e, C) :=
      orFromPrim g1 d e C hoke
        (rtPrim e d hoke (g1 - 8) C
          (by simp only [fmtAssigns, List.length_append, List.length_cons] at hg
              omega)
          (hdOK_mono (fun t ht => ht.2.1) hC))
        (hdOK_mono (fun t ht => ht.1) hC)
        (by simp only [fmtAssigns, List.length_append, List.length_cons] at hg
            omega)
    simp only [fmtAssigns, List.cons_append, List.append_assoc]
    simp only [parseAssigns]
    simp only [expectIdent_tok]
    simp only [expectSym_tok]
    simp only [hOr]
    cases C with
    | nil => rfl
    | cons t rest =>
      have hp : exprStopB t = true ∧ primStopB t = true ∧
          isSymT "," t = false := hC
      simp [hp.2.2]
  | (x, e) :: p :: rest, d => by
    intro hne hok g C hg hC
    simp only [List.all_cons, Bool.and_eq_true] at hok
    have hoke : okE d e = true := hok.1
    have hlenE := fmtExpr_len_pos e
    obtain ⟨g1, rfl⟩ : ∃ g1, g = g1 + 1 := ⟨g - 1, by omega⟩
    have hOr : parseExprOr g1 d
        (fmtExpr e ++ (symTok "," :: (fmtAssigns (p :: rest) ++ C))) =
        Except.ok (e, symTok "," :: (fmtAssigns (p :: rest) ++ C)) :=
      orFromPrim g1 d e _ hoke
        (rtPrim e d hoke (g1 - 8) _
          (by simp only [fmtAssigns, List.length_append, List.length_cons] at hg
              simp only [List.length_append, List.length_cons]
              omega)
          (hdOK_cons (by decide)))
        (hdOK_cons (by decide))
        (by simp only [fmtAssigns, List.length_append, List.length_cons] at hg
            omega)
    have hRec : parseAssigns g1 d (fmtAssigns (p :: rest) ++ C) =
        Except.ok (p :: rest, C) :=
      rtAssigns (p :: rest) d (by intro hx; cases hx)
        (by simp [List.all_cons, hok.2.1, hok.2.2]) g1 C
        (by simp only [fmtAssigns, List.length_append, List.length_cons] at hg
            have := fmtExpr_len_pos p.2
            omega) hC
    rw [show fmtAssigns ((x, e) :: p :: rest) =
      ⟨.id, x⟩ :: symTok "=" :: fmtExpr e ++ symTok "," :: fmtAssigns (p :: rest)
      from rfl]
    simp only [List.cons_append, List.append_assoc]
    simp only [parseAssigns]
    simp only [expectIdent_tok]
    simp only [expectSym_tok]
    simp only [hOr]
    rw [if_pos (by decide : isSymT "," (symTok ",") = true)]
    simp only [hRec, Except.map]

/-- Round trip for the INSERT column identifier list. -/
theorem rtIdentCL : ∀ (cols : List (List Char)), cols ≠ [] →
    ∀ g C, 16 * (identCToks cols).length + 16 * C.length + 20 ≤ g →
      hdOK (fun t => isSymT "," t = false) C →
      parseIdentCList g (identCToks cols ++ C) = Except.ok (cols, C)
  | [] => by
    intro hne
    exact absurd rfl hne
  | [x] => by
    intro hne g C hg hC
    obtain ⟨g1, rfl⟩ : ∃ g1, g = g1 + 1 := ⟨g - 1, by omega⟩
    simp only [identCToks, List.cons_append, List.nil_append]
    simp only [parseIdentCList]
    simp only [expectIdent_tok]
    cases C with
    | nil => rfl
    | cons t rest =>
      have hx : isSymT "," t = false := hC
      simp [hx]
  | x :: y :: rest => by
    intro hne g C hg hC
    obtain ⟨g1, rfl⟩ : ∃ g1, g = g1 + 1 := ⟨g - 1, by omega⟩
    have hRec : parseIdentCList g1 (identCToks (y :: rest) ++ C) =
        Except.ok (y :: rest, C) :=
      rtIdentCL (y :: rest) (by intro hx; cases hx) g1 C
        (by simp only [identCToks, List.length_cons, List.length_append] at hg ⊢
            omega) hC
    rw [show identCToks (x :: y :: rest) =
      ⟨.id, x⟩ :: symTok "," :: identCToks (y :: rest) from rfl]
    simp only [List.cons_append]
    simp only [parseIdentCList]
    simp only [expectIdent_tok]
    rw [if_pos (by decide : isSymT "," (symTok ",") = true)]
    simp only [hRec, Except.map]

/-- FORMAT-option tokens of an EXPLAIN rendering. -/
def foToks : Option (List Char) → List STok
  | none => []
  | some w => [kwTok "FORMAT", ⟨.id, w⟩]

theorem fmtStmt_explain (an vb : Bool) (fo : Option (List Char)) (inner : Stmt) :
    fmtStmt (.explainS an vb fo inner) =
      kwTok "EXPLAIN" :: (if an then [kwTok "ANALYZE"] else []) ++
        (if vb then [kwTok "VERBOSE"] else []) ++ foToks fo ++ fmtStmt inner := by
  cases fo <;> rfl

/-- Round trip for whole statements: a formatted statement re-parses to
itself with no tokens left over. -/
theorem rtStmt : ∀ (st : Stmt) (d : Nat), okStmt d st = true →
    ∀ g, 16 * (fmtStmt st).length + 64 ≤ g →
      parseStmt g d (fmtStmt st) = Except.ok (st, [])
  | .selectS sq ops, d => by
    intro hok g hg
    simp only [okStmt, Bool.and_eq_true] at hok
    have hlenS := fmtSel_len_pos sq
    obtain ⟨g1, rfl⟩ : ∃ g1, g = g1 + 1 := ⟨g - 1, by omega⟩
    obtain ⟨tl, htl⟩ := fmtSelHead sq
    have hSel : parseSel g1 d (fmtSel sq ++ fmtSetOps ops) =
        Except.ok (sq, fmtSetOps ops) :=
      rtSel sq d hok.1 g1 (fmtSetOps ops)
        (by simp only [fmtStmt, List.length_append] at hg; omega)
        (selStop_setOps ops)
    have hLoop : parseSetLoop g1 d (fmtSetOps ops) = Except.ok (ops, []) :=
      rtSetLoop ops d hok.2 g1
        (by simp only [fmtStmt, List.length_append] at hg; omega)
    simp only [fmtStmt]
    rw [htl]
    simp only [List.cons_append]
    simp only [parseStmt]
    rw [if_neg (by decide : ¬(isKwT "WITH" (kwTok "SELECT") = true))]
    rw [if_neg (by decide : ¬(isKwT "MERGE" (kwTok "SELECT") = true))]
    rw [if_pos (by decide : isKwT "SELECT" (kwTok "SELECT") = true)]
    rw [htl] at hSel
    simp only [List.cons_append] at hSel
    simp only [hSel]
    simp only [hLoop]
  | .insertS tbl cols vals, d => by
    intro hok g hg
    simp only [okStmt, Bool.and_eq_true, Bool.not_eq_true'] at hok
    obtain ⟨⟨hcE, hvE⟩, hva⟩ := hok
    have hcne : cols ≠ [] := by
      intro h
      rw [h] at hcE
      simp at hcE
    have hvne : vals ≠ [] := by
      intro h
      rw [h] at hvE
      simp at hvE
    obtain ⟨g1, rfl⟩ : ∃ g1, g = g1 + 1 := ⟨g - 1, by omega⟩
    obtain ⟨g2, rfl⟩ : ∃ g2, g1 = g2 + 1 := by
      refine ⟨g1 - 1, ?_⟩
      simp only [fmtStmt, List.length_cons, List.length_append] at hg
      omega
    have hIC : parseIdentCList g2 (identCToks cols ++
        (symTok ")" :: kwTok "VALUES" :: symTok "(" ::
          (fmtExprsC vals ++ [symTok ")"]))) =
        Except.ok (cols, symTok ")" :: kwTok "VALUES" :: symTok "(" ::
          (fmtExprsC vals ++ [symTok ")"])) :=
      rtIdentCL cols hcne g2 _
        (by simp only [fmtStmt, List.length_cons, List.length_append] at hg
            simp only [List.length_cons, List.length_append]
            omega)
        (hdOK_cons (by decide))
    have hEP : parseExprsP g2 d (fmtExprsC vals ++ [symTok ")"]) =
        Except.ok (vals, [symTok ")"]) :=
      rtExprsP vals d hvne hva g2 [symTok ")"]
        (by simp only [fmtStmt, List.length_cons, List.length_append] at hg
            simp only [List.length_cons, List.length_nil]
            omega)
        (hdOK_cons (by decide))
    simp only [fmtStmt, List.cons_append, List.append_assoc]
    simp only [parseStmt]
    rw [if_neg (by decide : ¬(isKwT "WITH" (kwTok "INSERT") = true))]
    rw [if_neg (by decide : ¬(isKwT "MERGE" (kwTok "INSERT") = true))]
    rw [if_neg (by decide : ¬(isKwT "SELECT" (kwTok "INSERT") = true))]
    rw [if_pos (by decide : isKwT "INSERT" (kwTok "INSERT") = true)]
    simp only [parseInsert]
    simp only [expectKw_into, expectIdent_tok, expectSym_tok, hIC,
      expectKw_values, hEP]
  | .updateS tbl sets wh, d => by
    intro hok g hg
    simp only [okStmt, Bool.and_eq_true, Bool.not_eq_true'] at hok
    obtain ⟨⟨hsE, hsa⟩, hwh⟩ := hok
    have hsne : sets ≠ [] := by
      intro h
      rw [h] at hsE
      simp at hsE
    obtain ⟨g1, rfl⟩ : ∃ g1, g = g1 + 1 := ⟨g - 1, by omega⟩
    obtain ⟨g2, rfl⟩ : ∃ g2, g1 = g2 + 1 := by
      refine ⟨g1 - 1, ?_⟩
      simp only [fmtStmt, List.length_cons, List.length_append] at hg
      omega
    have hAS : parseAssigns g2 d (fmtAssigns sets ++ fmtOptWhere wh) =
        Except.ok (sets, fmtOptWhere wh) :=
      rtAssigns sets d hsne hsa g2 (fmtOptWhere wh)
        (by simp only [fmtStmt, List.length_cons, List.length_append] at hg
            omega)
        (by cases wh with
            | none => trivial
            | some e => exact hdOK_cons (by decide))
    simp only [fmtStmt, List.cons_append, List.append_assoc]
    simp only [parseStmt]
    rw [if_neg (by decide : ¬(isKwT "WITH" (kwTok "UPDATE") = true))]
    rw [if_neg (by decide : ¬(isKwT "MERGE" (kwTok "UPDATE") = true))]
    rw [if_neg (by decide : ¬(isKwT "SELECT" (kwTok "UPDATE") = true))]
    rw [if_neg (by decide : ¬(isKwT "INSERT" (kwTok "UPDATE") = true))]
    rw [if_pos (by decide : isKwT "UPDATE" (kwTok "UPDATE") = true)]
    simp only [parseUpdate]
    simp only [expectIdent_tok, expectKw_set]
    simp only [hAS]
    cases wh with
    | none => simp [fmtOptWhere]
    | some e =>
      have hoke : okE d e = true := hwh
      have hlenE := fmtExpr_len_pos e
      have hOr0 : parseExprOr g2 d (fmtExpr e ++ []) = Except.ok (e, []) :=
        orFromPrim g2 d e [] hoke
          (rtPrim e d hoke (g2 - 8) []
            (by simp only [fmtStmt, fmtOptWhere, List.length_cons,
                  List.length_append] at hg
                simp only [List.length_nil]
                omega) trivial)
          trivial
          (by simp only [fmtStmt, fmtOptWhere, List.length_cons,
                List.length_append] at hg
              omega)
      rw [List.append_nil] at hOr0
      simp only [fmtOptWhere, List.cons_append]
      rw [if_pos (by decide : isKwT "WHERE" (kwTok "WHERE") = true)]
      simp only [hOr0]
  | .deleteS tbl wh, d => by
    intro hok g hg
    simp only [okStmt] at hok
    obtain ⟨g1, rfl⟩ : ∃ g1, g = g1 + 1 := ⟨g - 1, by omega⟩
    obtain ⟨g2, rfl⟩ : ∃ g2, g1 = g2 + 1 := by
      refine ⟨g1 - 1, ?_⟩
      simp only [fmtStmt, List.length_cons, List.length_append] at hg
      omega
    simp only [fmtStmt, List.cons_append, List.append_assoc]
    simp only [parseStmt]
    rw [if_neg (by decide : ¬(isKwT "WITH" (kwTok "DELETE") = true))]
    rw [if_neg (by decide : ¬(isKwT "MERGE" (kwTok "DELETE") = true))]
    rw [if_neg (by decide : ¬(isKwT "SELECT" (kwTok "DELETE") = true))]
    rw [if_neg (by decide : ¬(isKwT "INSERT" (kwTok "DELETE") = true))]
    rw [if_neg (by decide : ¬(isKwT "UPDATE" (kwTok "DELETE") = true))]
    rw [if_pos (by decide : isKwT "DELETE" (kwTok "DELETE") = true)]
    simp only [parseDelete]
    simp only [expectKw_from, expectIdent_tok]
    cases wh with
    | none => simp [fmtOptWhere]
    | some e =>
      have hoke : okE d e = true := hok
      have hlenE := fmtExpr_len_pos e
      have hOr0 : parseExprOr g2 d (fmtExpr e ++ []) = Except.ok (e, []) :=
        orFromPrim g2 d e [] hoke
          (rtPrim e d hoke (g2 - 8) []
            (by simp only [fmtStmt, fmtOptWhere, List.length_cons,
                  List.length_append] at hg
                simp only [List.length_nil]
                omega) trivial)
          trivial
          (by simp only [fmtStmt, fmtOptWhere, List.length_cons,
                List.length_append] at hg
              omega)
      rw [List.append_nil] at hOr0
      simp only [fmtOptWhere, List.cons_append]
      rw [if_pos (by decide : isKwT "WHERE" (kwTok "WHERE") = true)]
      simp only [hOr0]
  | .explainS an vb fo inner, d => by
    intro hok g hg
    have hoki : okStmt d inner = true := by simpa [okStmt] using hok
    obtain ⟨g1, rfl⟩ : ∃ g1, g = g1 + 1 := ⟨g - 1, by omega⟩
    obtain ⟨g2, rfl⟩ : ∃ g2, g1 = g2 + 1 := ⟨g1 - 1, by omega⟩
    obtain ⟨g3, rfl⟩ : ∃ g3, g2 = g3 + 1 := ⟨g2 - 1, by omega⟩
    obtain ⟨g4, rfl⟩ : ∃ g4, g3 = g4 + 1 := ⟨g3 - 1, by omega⟩
    have hRec : parseStmt g4 d (fmtStmt inner) = Except.ok (inner, []) :=
      rtStmt inner d hoki g4
        (by rw [fmtStmt_explain] at hg
            simp only [List.length_cons, List.length_append] at hg
            omega)
    obtain ⟨ci, csi, hcx, hor⟩ := fmtStmtHeadEx inner
    have hFo : ∀ an2 vb2, parseExplainFo (g4 + 1) d an2 vb2
        (foToks fo ++ fmtStmt inner) =
        Except.ok (.explainS an2 vb2 fo inner, []) := by
      intro an2 vb2
      cases fo with
      | some w =>
        simp only [foToks, List.cons_append, List.nil_append]
        simp only [parseExplainFo]
        rw [if_pos (by decide : isKwT "FORMAT" (kwTok "FORMAT") = true)]
        simp only [expectIdent_tok]
        simp only [hRec]
      | none =>
        simp only [foToks, List.nil_append]
        rw [hcx]
        simp only [parseExplainFo]
        have hF : isKwT "FORMAT" ci = false := by
          rcases hor with rfl | rfl | rfl | rfl | rfl <;> decide
        rw [if_neg (show ¬(isKwT "FORMAT" ci = true) by simp [hF])]
        rw [← hcx]
        simp only [hRec]
    have hVb : ∀ an2, parseExplainVb (g4 + 1 + 1) d an2
        ((if vb then [kwTok "VERBOSE"] else []) ++
          (foToks fo ++ fmtStmt inner)) =
        Except.ok (.explainS an2 vb fo inner, []) := by
      intro an2
      cases vb with
      | true =>
        rw [if_pos rfl]
        simp only [List.cons_append, List.nil_append]
        simp only [parseExplainVb]
        rw [if_pos (by decide : isKwT "VERBOSE" (kwTok "VERBOSE") = true)]
        exact hFo an2 true
      | false =>
        rw [if_neg (by decide : ¬(false = true))]
        simp only [List.nil_append]
        cases fo with
        | some w =>
          simp only [foToks, List.cons_append, List.nil_append]
          simp only [parseExplainVb]
          rw [if_neg (by decide : ¬(isKwT "VERBOSE" (kwTok "FORMAT") = true))]
          have h5 := hFo an2 false
          simp only [foToks, List.cons_append, List.nil_append] at h5
          exact h5
        | none =>
          simp only [foToks, List.nil_append]
          rw [hcx]
          simp only [parseExplainVb]
          have hV : isKwT "VERBOSE" ci = false := by
            rcases hor with rfl | rfl | rfl | rfl | rfl <;> decide
          rw [if_neg (show ¬(isKwT "VERBOSE" ci = true) by simp [hV])]
          rw [← hcx]
          have h5 := hFo an2 false
          simp only [foToks, List.nil_append] at h5
          exact h5
    have hAn : parseExplainStmt (g4 + 1 + 1 + 1) d
        ((if an then [kwTok "ANALYZE"] else []) ++
          ((if vb then [kwTok "VERBOSE"] else []) ++
            (foToks fo ++ fmtStmt inner))) =
        Except.ok (.explainS an vb fo inner, []) := by
      cases an with
      | true =>
        rw [if_pos rfl]
        simp only [List.cons_append, List.nil_append]
        simp only [parseExplainStmt]
        rw [if_pos (by decide : isKwT "ANALYZE" (kwTok "ANALYZE") = true)]
        exact hVb true
      | false =>
        rw [if_neg (by decide : ¬(false = true))]
        simp only [List.nil_append]
        cases vb with
        | true =>
          rw [if_pos rfl]
          simp only [List.cons_append, List.nil_append]
          simp only [parseExplainStmt]
          rw [if_neg (by decide : ¬(isKwT "ANALYZE" (kwTok "VERBOSE") = true))]
          exact hVb false
        | false =>
          rw [if_neg (by decide : ¬(false = true))]
          simp only [List.nil_append]
          cases fo with
          | some w =>
            simp only [foToks, List.cons_append, List.nil_append]
            simp only [parseExplainStmt]
            rw [if_neg (by decide : ¬(isKwT "ANALYZE" (kwTok "FORMAT") = true))]
            have h5 := hVb false
            simp only [foToks, List.cons_append, List.nil_append] at h5
            exact h5
          | none =>
            simp only [foToks, List.nil_append]
            rw [hcx]
            simp only [parseExplainStmt]
            have hA : isKwT "ANALYZE" ci = false := by
              rcases hor with rfl | rfl | rfl | rfl | rfl <;> decide
            rw [if_neg (show ¬(isKwT "ANALYZE" ci = true) by simp [hA])]
            rw [← hcx]
            have h5 := hVb false
            simp only [foToks, List.nil_append] at h5
            exact h5
    rw [fmtStmt_explain]
    simp only [List.cons_append, List.append_assoc]
    simp only [parseStmt]
    rw [if_neg (by decide : ¬(isKwT "WITH" (kwTok "EXPLAIN") = true))]
    rw [if_neg (by decide : ¬(isKwT "MERGE" (kwTok "EXPLAIN") = true))]
    rw [if_neg (by decide : ¬(isKwT "SELECT" (kwTok "EXPLAIN") = true))]
    rw [if_neg (by decide : ¬(isKwT "INSERT" (kwTok "EXPLAIN") = true))]
    rw [if_neg (by decide : ¬(isKwT "UPDATE" (kwTok "EXPLAIN") = true))]
    rw [if_neg (by decide : ¬(isKwT "DELETE" (kwTok "EXPLAIN") = true))]
    rw [if_pos (by decide : isKwT "EXPLAIN" (kwTok "EXPLAIN") = true)]
    exact hAn

/-- A formatted well-formed statement parses back to itself through the
whole-input entry point. -/
theorem rtParseToks (st : Stmt) (d : Nat) (h : okStmt d st = true) :
    parseToks d (fmtStmt st) = Except.ok st := by
  have h1 := rtStmt st d h (fuelOf (fmtStmt st).length)
    (by simp only [fuelOf]; omega)
  simp only [parseToks]
  simp only [h1]

/-- C1: formatting is idempotent.  For every SQL text s that parses
successfully, so that format_sql s succeeds with canonical text t,
re-parsing and re-formatting the already-canonical text t returns t
itself (format_sql t = Except.ok t, hence format(format(s)) = format(s));
and the formatter is a total function of the parsed statement, so two
structurally equal syntax trees always format identically. -/
theorem claim_c1_format_idempotent : ∀ s t : String,
    format_sql s = Except.ok t → format_sql t = Except.ok t := by
  intro s t h
  unfold format_sql at h
  cases hp : parse_sql s with
  | error e =>
    simp only [hp] at h
    exact Except.noConfusion h
  | ok ast =>
    simp only [hp] at h
    have h2 : String.mk (renderToks (fmtStmt ast)) = t := by
      injection h
    subst h2
    have hok : okStmt defaultMaxDepth ast = true :=
      sound_parseSqlD defaultMaxDepth s ast hp
    have htk := tokenize_render (fmtStmt ast) (wfFmtStmt ast)
    have hpt := rtParseToks ast defaultMaxDepth hok
    unfold format_sql parse_sql parseSqlD
    simp only [show (String.mk (renderToks (fmtStmt ast))).data =
      renderToks (fmtStmt ast) from rfl, htk, hpt]

/-- Witness for C1 instantiating idempotence at a concrete query: the
hypothesis format_sql "SELECT 1" = ok "SELECT 1" is discharged by
evaluation and the theorem then yields the same canonical text again. -/
theorem claim_c1_format_idempotent_witness :
    format_sql "SELECT 1" = Except.ok "SELECT 1" ∧
    format_sql "SELECT 1" = Except.ok "SELECT 1" :=
  ⟨by rfl, claim_c1_format_idempotent "SELECT 1" "SELECT 1" (by rfl)⟩

/-- Witness for C5 instantiating the parse-explain decomposition at a
concrete plan. -/
theorem claim_c5_nesting_by_indentation_witness :
    ∃ gs, planGroups "Seq Scan on t  (cost=0.00..1.00 rows=5 width=4)" = .ok gs ∧
      parse_explain "Seq Scan on t  (cost=0.00..1.00 rows=5 width=4)" =
        .ok (substF gs (buildT (gs.map (fun g => g.1)) (gs.length + 1)
          (List.range gs.length))) := by
  obtain ⟨gs, hgs⟩ : ∃ gs,
      planGroups "Seq Scan on t  (cost=0.00..1.00 rows=5 width=4)" = .ok gs :=
    ⟨_, rfl⟩
  exact ⟨gs, hgs, claim_c5_nesting_by_indentation.2.1 _ _ hgs⟩

/-- Witness for C3 instantiating the characterization at concrete input. -/
theorem claim_c3_explain_detection_witness :
    ∃ w rest, skipWsC ("EXPLAIN".data.length + 1) "EXPLAIN".data = w ++ rest ∧
      (∀ c ∈ w, isWordChar c = true) ∧ upperStr w = "EXPLAIN".data ∧
      (∀ c, rest.head? = some c → isWordChar c = false) :=
  (claim_c3_explain_detection.2.2.2.2 "EXPLAIN").mp rfl

/-- Witness for C6 instantiating the properties at the empty input. -/
theorem claim_c6_fail_fast_witness :
    (format_sql "").isOk = (parse_sql "").isOk ∧
      parse_sql "" ≠ .ok (Stmt.deleteS [] none) :=
  ⟨(claim_c6_fail_fast "").1,
   (claim_c6_fail_fast "").2.2.2.2
     (.parseErr 0 "statement keyword".data "end of input".data) _ rfl⟩

/-- Witness for C10 instantiating the no-module consequence at the
modelled core. -/
theorem claim_c10_import_requires_native_witness :
    importPgrsql none ≠ .ok nativeCore :=
  claim_c10_import_requires_native.2.1 nativeCore

end Pgrsql
